import Mathlib

/-!
# geda-pcb: auto-router and auto-placer kernel

A shallow embedding of parts of `src/autoroute.c` and `src/autoplace.c`,
with the properties of the specification stated and proved over it.

Conventions of the embedding.
* `Position`, `Dimension` and `Cardinal` values are integers (`Int`), or
  naturals where the source only counts or indexes.
* `cost_t` is declared in `heap.h`, which is not among the sources; costs are
  modelled by exact rational arithmetic (`ℚ`).
* Pointers to route boxes are modelled by the values they point to, or by an
  index into a table where the source mutates the pointee.
-/

namespace GedaPcb

/-! ## Routing styles and the entry point `AutoRoute` -/

/-- The fields of `RouteStyleType` that the router reads. -/
structure RouteStyleType where
  Thick : Int
  Diameter : Int
  Hole : Int
  Keepaway : Int
deriving DecidableEq, Repr

/-- The part of the board that `AutoRoute` looks at before it starts routing:
the routing styles `PCB->RouteStyle[..]`, the number of rat lines
`PCB->Data->RatN`, and the lines and vias already on the board. -/
structure PCBType where
  RouteStyle : Nat → RouteStyleType
  RatN : Nat
  Line : List (Int × Int × Int × Int)
  Via : List (Int × Int)

/-- What a call of `AutoRoute` did: its return value, the board afterwards,
whether `CreateRouteData` was reached, and the messages shown to the user. -/
structure AutoRouteResult where
  changed : Bool
  board : PCBType
  routeDataBuilt : Bool
  messages : List String

/-- The test made by one iteration `i` of the style loop of `AutoRoute`
(autoroute.c 2954-2956).  Thickness and keepaway are read from style `i`,
diameter and hole from style `1`. -/
def AutoRoute_styleTest (pcb : PCBType) (i : Nat) : Bool :=
  (pcb.RouteStyle i).Thick == 0 ||
  (pcb.RouteStyle 1).Diameter == 0 ||
  (pcb.RouteStyle 1).Hole == 0 || (pcb.RouteStyle i).Keepaway == 0

/-- `AutoRoute` (autoroute.c 2946-3075).  `NUM_STYLES` is defined in a header
that is not among the sources and is a parameter.  Everything from
`CreateRouteData` to the end of the function is the parameter `routing`,
which returns the final value of `changed` and the board it leaves. -/
def AutoRoute (NUM_STYLES : Nat) (routing : PCBType → Bool → Bool × PCBType)
    (pcb : PCBType) (selected : Bool) : AutoRouteResult :=
  if (List.range NUM_STYLES).any (AutoRoute_styleTest pcb) then
    { changed := false, board := pcb, routeDataBuilt := false,
      messages := ["You must define proper routing styles\nbefore auto-routing.\n"] }
  else if pcb.RatN = 0 then
    { changed := false, board := pcb, routeDataBuilt := false, messages := [] }
  else
    { changed := (routing pcb selected).1, board := (routing pcb selected).2,
      routeDataBuilt := true, messages := [] }

/-! ## Pass parameters and the multi-pass driver `RouteAll` -/

/-- The record `AugmentedRouteStyleType` without its `mtspace`. -/
structure AugmentedRouteStyleType where
  style : RouteStyleType
  Used : Bool
deriving DecidableEq, Repr

/-- The module-wide record `AutoRouteParameters`. -/
structure AutoRouteParametersType where
  augStyle : AugmentedRouteStyleType
  ViaCost : ℚ
  LastConflictPenalty : ℚ
  ConflictPenalty : ℚ
  JogPenalty : ℚ
  DirectionPenaltyNumerator : ℚ
  DirectionPenaltyDenominator : ℚ
  use_vias : Bool
  is_odd : Bool
  with_conflicts : Bool
  is_smoothing : Bool

/-- `InitAutoRouteParameters` (autoroute.c 2711-2731).  The shift
`2 << MIN (15, pass * 2)` is computed on integers and then stored as a cost. -/
def InitAutoRouteParameters (pass : Nat) (augStyle : AugmentedRouteStyleType)
    (with_conflicts is_smoothing : Bool) : AutoRouteParametersType :=
  let LastConflictPenalty : ℚ := ((2 <<< (min 15 (pass * 2)) : Nat) : ℚ)
  { augStyle := augStyle
    ViaCost := 50
    LastConflictPenalty := LastConflictPenalty
    ConflictPenalty := 4 * LastConflictPenalty
    JogPenalty := 0
    DirectionPenaltyNumerator := 1
    DirectionPenaltyDenominator := 1
    use_vias := true
    is_odd := pass % 2 == 1
    with_conflicts := with_conflicts
    is_smoothing := is_smoothing }

/-- The record `struct routeall_status`. -/
structure routeall_status where
  total_subnets : Int
  routed_subnets : Int
  conflict_subnets : Int
deriving DecidableEq, Repr

/-- One executed pass of `RouteAll`: its index `i`, the two flags handed to
`InitAutoRouteParameters` in that pass, and the counters at its end. -/
structure PassRecord where
  i : Nat
  with_conflicts : Bool
  is_smoothing : Bool
  ras : routeall_status
deriving DecidableEq, Repr

/-- The `for (i = 0; i <= limit; i++)` loop of `RouteAll` (autoroute.c
2760-2840), started at pass `i`.  The body of one pass (the `while` loop over
the nets of `this_pass`) is the parameter `passBody`, which receives `i`,
`i < limit` and `i == limit` (the arguments it gives to
`InitAutoRouteParameters`) and the router state; it returns the new state and
the counters `ras`.  The loop returns the last `ras`, the final state and the
list of passes it executed.  The first argument bounds the number of
iterations; `limit + 1 - i` is always enough. -/
def RouteAll_loop {σ : Type} (passBody : Nat → Bool → Bool → σ → σ × routeall_status)
    (limit : Nat) : Nat → Nat → σ → routeall_status → routeall_status × σ × List PassRecord
  | 0, _, s, ras => (ras, s, [])
  | fuel + 1, i, s, ras =>
    if i ≤ limit then
      let r := passBody i (decide (i < limit)) (i == limit) s
      let i1 := if r.2.conflict_subnets = 0 ∧ i < limit then limit - 1 else i
      let rest := RouteAll_loop passBody limit fuel (i1 + 1) r.1 r.2
      (rest.1, rest.2.1,
        { i := i, with_conflicts := decide (i < limit), is_smoothing := (i == limit),
          ras := r.2 } :: rest.2.2)
    else (ras, s, [])

/-- `RouteAll` (autoroute.c 2742-2849) with `limit = 6`. -/
def RouteAll {σ : Type} (passBody : Nat → Bool → Bool → σ → σ × routeall_status)
    (s : σ) : routeall_status × σ × List PassRecord :=
  RouteAll_loop passBody 6 7 0 s ⟨0, 0, 0⟩

/-- The relation between two consecutive executed passes of `RouteAll`: the
earlier one is a routing pass, and the later one is the last pass `limit` when
the earlier one ended without conflicts and the next index otherwise. -/
def NextPass (limit : Nat) (a b : PassRecord) : Prop :=
  a.i < limit ∧ b.i = if a.ras.conflict_subnets = 0 then limit else a.i + 1

/-! ## Boxes, route boxes and the cost of a move -/

/-- The record `PointType`. -/
structure PointType where
  X : Int
  Y : Int
deriving DecidableEq, Repr

/-- The record `BoxType`: a rectangle that is closed on the top and left and
open on the bottom and right. -/
structure BoxType where
  X1 : Int
  Y1 : Int
  X2 : Int
  Y2 : Int
deriving DecidableEq, Repr

/-- Modelled from the spec: `closest_point_in_box` of `box.h`, which is not
among the sources.  It clamps a point into the half-open box, so the largest
coordinates it returns are `X2 - 1` and `Y2 - 1`. -/
def closest_point_in_box (p : PointType) (box : BoxType) : PointType :=
  { X := if p.X < box.X1 then box.X1 else if p.X > box.X2 - 1 then box.X2 - 1 else p.X
    Y := if p.Y < box.Y1 then box.Y1 else if p.Y > box.Y2 - 1 then box.Y2 - 1 else p.Y }

/-- Modelled from the spec: `box_in_box` of `box.h`, which is not among the
sources; the first box is the outer one, as at its call in `BreakEdges`. -/
def box_in_box (outer inner : BoxType) : Bool :=
  decide (outer.X1 ≤ inner.X1) && decide (inner.X2 ≤ outer.X2) &&
  decide (outer.Y1 ≤ inner.Y1) && decide (inner.Y2 ≤ outer.Y2)

/-- The coordinates of a box are ordered, as `init_const_box` asserts. -/
def BoxType.ordered (b : BoxType) : Prop := b.X1 ≤ b.X2 ∧ b.Y1 ≤ b.Y2

instance (b : BoxType) : Decidable b.ordered := by
  unfold BoxType.ordered; infer_instance

/-- The anonymous enumeration of route box types. -/
inductive routebox_type
  | PAD | PIN | VIA | VIA_SHADOW | LINE | OTHER | EXPANSION_AREA
deriving DecidableEq, Repr

/-- The bit field `flags` of a route box. -/
structure routebox_flags where
  nonstraight : Bool := false
  fixed : Bool := false
  source : Bool := false
  target : Bool := false
  nobloat : Bool := false
  circular : Bool := false
  orphan : Bool := false
  is_odd : Bool := false
  touched : Bool := false
  subnet_processed : Bool := false
  is_via : Bool := false
  bl_to_ur : Bool := false
  clear_poly : Bool := false
  is_bad : Bool := false
  inited : Bool := false
deriving DecidableEq, Repr

/-- The geometric and status part of `routebox_t`: its box, layer group, type,
flags and style.  The pointers of a route box (parent, underlying box and the
four rings) are modelled separately where they are needed. -/
structure routebox_t where
  box : BoxType
  group : Nat
  type : routebox_type
  flags : routebox_flags
  augStyle : AugmentedRouteStyleType
deriving DecidableEq, Repr

/-- The macro `ABS` on costs. -/
def ABS (x : ℚ) : ℚ := if x < 0 then -x else x

/-- `cost_to_point` (autoroute.c 973-991); the parameters it reads from
`AutoRouteParameters` are passed as `P`. -/
def cost_to_point (P : AutoRouteParametersType) (p1 : PointType) (point_layer1 : Nat)
    (p2 : PointType) (point_layer2 : Nat) : ℚ :=
  let x_dist : ℚ := ((p1.X - p2.X : Int) : ℚ)
  let y_dist : ℚ := ((p1.Y - p2.Y : Int) : ℚ)
  let x_dist := if point_layer1 % 2 ≠ 0 ∧ point_layer2 % 2 ≠ 0 then
      x_dist + (x_dist * P.DirectionPenaltyNumerator) / P.DirectionPenaltyDenominator
    else x_dist
  let y_dist := if point_layer1 % 2 ≠ 1 ∧ point_layer2 % 2 ≠ 1 then
      y_dist + (y_dist * P.DirectionPenaltyNumerator) / P.DirectionPenaltyDenominator
    else y_dist
  let r := ABS x_dist + ABS y_dist
  if point_layer1 ≠ point_layer2 then r + P.ViaCost else r

/-- `cost_to_layerless_box` (autoroute.c 998-1006). -/
def cost_to_layerless_box (P : AutoRouteParametersType) (p : PointType) (point_layer : Nat)
    (b : BoxType) : ℚ :=
  let p2 := closest_point_in_box p b
  let cost1 := cost_to_point P p point_layer p2 point_layer
  let cost2 := cost_to_point P p point_layer p2 (point_layer + 1)
  min cost1 cost2

/-- `cost_to_routebox` (autoroute.c 1010-1016). -/
def cost_to_routebox (P : AutoRouteParametersType) (p : PointType) (point_layer : Nat)
    (rb : routebox_t) : ℚ :=
  let p2 := closest_point_in_box p rb.box
  cost_to_point P p point_layer p2 rb.group

/-- The record `struct mincost_target_closure`.  `nearest_cost` is only
meaningful when `nearest` is set; it is `0` until then. -/
structure mincost_target_closure where
  CostPoint : PointType
  CostPointLayer : Nat
  nearest : Option routebox_t
  nearest_cost : ℚ

/-- `__region_within_guess` (autoroute.c 1093-1106). -/
def __region_within_guess (P : AutoRouteParametersType) (region : BoxType)
    (mtc : mincost_target_closure) : Bool :=
  let cost_to_region := cost_to_layerless_box P mtc.CostPoint mtc.CostPointLayer region
  if mtc.nearest.isNone then true
  else decide (cost_to_region < mtc.nearest_cost)

/-- `__found_new_guess` (autoroute.c 1107-1124): the value it returns and the
closure it leaves. -/
def __found_new_guess (P : AutoRouteParametersType) (guess : routebox_t)
    (mtc : mincost_target_closure) : Bool × mincost_target_closure :=
  let cost_to_guess := cost_to_routebox P mtc.CostPoint mtc.CostPointLayer guess
  if mtc.nearest.isNone || decide (cost_to_guess < mtc.nearest_cost) then
    (true, { mtc with nearest := some guess, nearest_cost := cost_to_guess })
  else (false, mtc)

/-- Modelled from the spec: the rect-tree of `kdtree.c`, which is not among
the sources.  An internal node stores the bounding box of what is below it. -/
inductive kdtree_t (α : Type)
  | nil : kdtree_t α
  | leaf (item : α) : kdtree_t α
  | node (region : BoxType) (lo hi : kdtree_t α) : kdtree_t α

/-- The boxes stored in a tree. -/
def kdtree_t.items {α : Type} : kdtree_t α → List α
  | .nil => []
  | .leaf x => [x]
  | .node _ lo hi => lo.items ++ hi.items

/-- Modelled from the spec: every internal node's region contains the boxes
stored below it ("each internal node stores the union bounding box of its
children"). -/
def kdtree_t.regionsCover {α : Type} (boxOf : α → BoxType) : kdtree_t α → Bool
  | .nil => true
  | .leaf _ => true
  | .node region lo hi =>
    (lo.items ++ hi.items).all (fun x => box_in_box region (boxOf x)) &&
    lo.regionsCover boxOf && hi.regionsCover boxOf

/-- Modelled from the spec: `kd_search` of `kdtree.c`, which is not among the
sources, called without a starting region.  It descends every subtree whose
region predicate is true and applies the leaf predicate to every box in such a
subtree; both predicates see the closure, and the leaf predicate may update
it.  It returns the number of boxes the leaf predicate accepted and the final
closure. -/
def kd_search {α σ : Type} (region_in_search : BoxType → σ → Bool)
    (rectangle_in_region : α → σ → Bool × σ) : kdtree_t α → σ → Nat × σ
  | .nil, cl => (0, cl)
  | .leaf x, cl => (if (rectangle_in_region x cl).1 then 1 else 0, (rectangle_in_region x cl).2)
  | .node region lo hi, cl =>
    if region_in_search region cl then
      ((kd_search region_in_search rectangle_in_region lo cl).1 +
        (kd_search region_in_search rectangle_in_region hi
          (kd_search region_in_search rectangle_in_region lo cl).2).1,
       (kd_search region_in_search rectangle_in_region hi
          (kd_search region_in_search rectangle_in_region lo cl).2).2)
    else (0, cl)

/-- `mincost_target_to_point` (autoroute.c 1129-1146); the result is
`mtc.nearest`, which is `NULL` only if the tree is empty and no guess was
given. -/
def mincost_target_to_point (P : AutoRouteParametersType) (CostPoint : PointType)
    (CostPointLayer : Nat) (targets : kdtree_t routebox_t)
    (target_guess : Option routebox_t) : Option routebox_t :=
  let mtc : mincost_target_closure :=
    { CostPoint := CostPoint, CostPointLayer := CostPointLayer, nearest := target_guess,
      nearest_cost := match target_guess with
        | some g => cost_to_routebox P CostPoint CostPointLayer g
        | none => 0 }
  (kd_search (__region_within_guess P) (__found_new_guess P) targets mtc).2.nearest

/-! ## The search of `RouteOne`

The search is modelled as a state machine.  Route boxes that are on the board
before the search (pins, pads, lines, vias, ...) live in a table `boxes` and
are referred to by index; their flags change during the search.  A route box
created by the search is an expansion area and is a value that carries its
`underlying` box and its parent chain.  What the source computes from the
geometry of the board, from the trees of `kdtree.c`, from `mtspace.c` and from
the costs of `heap.c` (none of which is among the sources) is an input of each
step: the obstacle a tree search finds, the boxes of new expansion areas, and
the value `edge_cost` has on each new edge.  The control flow on these inputs
is that of the source. -/

/-- The enumeration `conflict_t`. -/
inductive conflict_t
  | NO_CONFLICT | LO_CONFLICT | HI_CONFLICT
deriving DecidableEq, Repr

/-- A route box on a search path: a box of the board, by index, or an
expansion area created by the search with its `underlying` box (an index, or
`none` for `NULL`) and its `parent.expansion_area`. -/
inductive pathbox
  | board (p : Nat) : pathbox
  | expansion (rb : routebox_t) (underlying : Option Nat) (parent : pathbox) : pathbox
deriving DecidableEq, Repr

/-- The field `underlying`; boxes of the board never have one, since the only
assignment to the field is in `CreateEdgeWithConflicts`, on a new expansion
area. -/
def pathbox.underlying : pathbox → Option Nat
  | .board _ => none
  | .expansion _ u _ => u

/-- The fields `box`, `group`, `type`, `flags` and `augStyle` of a path box. -/
def pathbox.rb (boxes : Nat → routebox_t) : pathbox → routebox_t
  | .board p => boxes p
  | .expansion rb _ _ => rb

/-- The field `parent.expansion_area`; it is only read on expansion areas. -/
def pathbox.parent : pathbox → pathbox
  | .board p => .board p
  | .expansion _ _ parent => parent

/-- A box that a tree search returns: a box of the board, or an expansion area
that the search has put into the tree (these have type `EXPANSION_AREA` and no
source, target or nobloat flag). -/
inductive obstacle
  | board (p : Nat) : obstacle
  | area (box : BoxType) : obstacle
deriving DecidableEq, Repr

/-- The fields of the route box a tree search returned. -/
def obstacle.rb (boxes : Nat → routebox_t) : obstacle → routebox_t
  | .board p => boxes p
  | .area box =>
    { box := box, group := 0, type := .EXPANSION_AREA, flags := { inited := true },
      augStyle := ⟨⟨0, 0, 0, 0⟩, false⟩ }

/-- The record `edge_t`; `cost` is the value of `edge_cost` on the edge, which
stands for `cost_point`, `cost_to_point` and `mincost_target`. -/
structure edge_t where
  rb : pathbox
  cost : ℚ
  expand_dir : Nat
  expand_all_sides : Bool := false
  is_via : Bool := false
  via_conflict_level : conflict_t := .NO_CONFLICT
  is_interior : Bool := false
deriving DecidableEq, Repr

/-- The record `struct routeone_state` with the vectors of `RouteOne` that the
search fills, the table of board boxes, and the list of all route boxes the
search has created so far.  Vectors are lists whose head is the last element
of the vector. -/
structure routeone_state where
  boxes : Nat → routebox_t
  workheap : List edge_t
  best_path : Option pathbox
  best_target : Option Nat
  best_cost : ℚ
  area_vec : List pathbox
  touched_vec : List Nat
  created : List pathbox

/-- The record `struct routeone_status`.  `route_had_conflicts` is `none` when
the source leaves it unassigned (no route found) or walks off the path. -/
structure routeone_status where
  found_route : Bool
  route_had_conflicts : Option Bool
  best_route_cost : ℚ
  net_completely_routed : Bool
deriving DecidableEq, Repr

/-- The macro `HALF_THICK`. -/
def HALF_THICK (x : Int) : Int := Int.tdiv (x + 1) 2

/-- Modelled from the spec: `bloat_box` of `box.h`, which is not among the
sources; it expands a box by `d` in all directions. -/
def bloat_box (b : BoxType) (d : Int) : BoxType :=
  { X1 := b.X1 - d, Y1 := b.Y1 - d, X2 := b.X2 + d, Y2 := b.Y2 + d }

/-- `bloat_routebox` (autoroute.c 1018-1037). -/
def bloat_routebox (P : AutoRouteParametersType) (rb : routebox_t) : BoxType :=
  if rb.type = .EXPANSION_AREA ∨ rb.flags.nobloat = true then rb.box
  else
    let keepaway := max P.augStyle.style.Keepaway rb.augStyle.style.Keepaway
    let r := bloat_box rb.box (keepaway + HALF_THICK P.augStyle.style.Thick)
    { r with X1 := r.X1 + 1, Y1 := r.Y1 + 1 }

/-- The macro `CONFLICT_LEVEL`. -/
def CONFLICT_LEVEL (P : AutoRouteParametersType) (rb : routebox_t) : conflict_t :=
  if rb.flags.is_odd = P.is_odd then .HI_CONFLICT else .LO_CONFLICT

/-- `route_parent` (autoroute.c 1062-1072).  Boxes of the board are not
orphans, so the loop stops at them. -/
def route_parent : pathbox → pathbox
  | .board p => .board p
  | .expansion rb u parent =>
    if rb.flags.orphan = true ∧ u = none ∧ rb.flags.is_via = false then route_parent parent
    else .expansion rb u parent

/-- `CreateExpansionArea` (autoroute.c 1479-1503): a zeroed route box with the
given box and group, type `EXPANSION_AREA`, the orphan flag, the style of the
net being routed, no underlying box, and `route_parent (parent)` as parent. -/
def CreateExpansionArea (P : AutoRouteParametersType) (area : BoxType) (group : Nat)
    (parent : pathbox) : pathbox :=
  .expansion
    { box := area, group := group, type := .EXPANSION_AREA,
      flags := { orphan := true, inited := true }, augStyle := P.augStyle }
    none (route_parent parent)

/-- Set `flags.is_via` of an expansion area (autoroute.c 1232). -/
def pathbox.set_is_via : pathbox → pathbox
  | .board p => .board p
  | .expansion rb u parent =>
    .expansion { rb with flags := { rb.flags with is_via := true } } u parent

/-- Clear `flags.orphan` of an expansion area that is put into a tree
(autoroute.c 2408 and 2546). -/
def pathbox.clear_orphan : pathbox → pathbox
  | .board p => .board p
  | .expansion rb u parent =>
    .expansion { rb with flags := { rb.flags with orphan := false } } u parent

/-- Copy `flags.source` and `flags.nobloat` to a new expansion area
(autoroute.c 1774-1775 and 1821-1822). -/
def pathbox.copy_source (src : routebox_flags) : pathbox → pathbox
  | .board p => .board p
  | .expansion rb u parent =>
    .expansion { rb with flags := { rb.flags with source := src.source, nobloat := src.nobloat } }
      u parent

/-- `CreateEdge` (autoroute.c 1150-1184) with the value of `edge_cost` given. -/
def CreateEdge (rb : pathbox) (cost : ℚ) (expand_dir : Nat) : edge_t :=
  { rb := rb, cost := cost, expand_dir := expand_dir }

/-- `CreateViaEdge` (autoroute.c 1213-1251): the new route box and the edge. -/
def CreateViaEdge (P : AutoRouteParametersType) (area : BoxType) (group : Nat)
    (parent : pathbox) (to_site_conflict : conflict_t) (cost : ℚ) : edge_t :=
  { CreateEdge (CreateExpansionArea P area group parent).set_is_via cost 0 with
    expand_all_sides := true, is_via := true, via_conflict_level := to_site_conflict }

/-- Set the field `underlying` of an expansion area (autoroute.c 1274). -/
def pathbox.set_underlying (container : Nat) : pathbox → pathbox
  | .board p => .board p
  | .expansion rb _ parent => .expansion rb (some container) parent

/-- `CreateEdgeWithConflicts` (autoroute.c 1254-1286): the new route box is
the bloated container, with the container as its `underlying` box. -/
def CreateEdgeWithConflicts (P : AutoRouteParametersType) (boxes : Nat → routebox_t)
    (container : Nat) (previous_edge : edge_t) (cost : ℚ) : edge_t :=
  let b := bloat_routebox P (boxes container)
  let rb := (CreateExpansionArea P b (previous_edge.rb.rb boxes).group
    previous_edge.rb).set_underlying container
  { CreateEdge rb cost 0 with expand_all_sides := true, is_interior := true }

/-- Modelled from the spec: `heap_remove_smallest` of `heap.c`, which is not
among the sources: the work heap gives up an edge of least cost. -/
def heap_remove_smallest : List edge_t → Option (edge_t × List edge_t)
  | [] => none
  | e :: rest =>
    match heap_remove_smallest rest with
    | none => some (e, [])
    | some (m, rest1) => if e.cost ≤ m.cost then some (e, rest) else some (m, e :: rest1)

/-- `add_or_destroy_edge` (autoroute.c 2128-2137). -/
def add_or_destroy_edge (s : routeone_state) (e : edge_t) : routeone_state :=
  if s.best_path = none ∨ e.cost < s.best_cost then { s with workheap := e :: s.workheap }
  else s

/-- `best_path_candidate` (autoroute.c 2138-2155). -/
def best_path_candidate (s : routeone_state) (e : edge_t) (best_target : Nat) :
    routeone_state :=
  if s.best_path = none ∨ e.cost < s.best_cost then
    { s with best_path := some e.rb, best_target := some best_target, best_cost := e.cost }
  else s

/-- The box and the value of `edge_cost` of a new edge. -/
structure new_edge where
  box : BoxType
  cost : ℚ
deriving DecidableEq, Repr

/-- One via site that `mtspace_query_rect` returns, clipped, with a layer
group `group` for the via edge and the value of `edge_cost` on that edge;
`level` tells which of the three vectors the site is in. -/
structure via_site where
  level : conflict_t
  area : BoxType
  group : Nat
  cost : ℚ
deriving DecidableEq, Repr

/-- The inputs of one iteration of the loop of `BreakEdges`: whether the edge
is off the board, the clipped box if the edge is partly off the board, the
obstacle `FindIntersectingObstacle` returns, the pieces `break_box_edge`
declares valid, and the cost of the conflict edge. -/
structure break_input where
  off_board : Bool
  clip : Option new_edge
  intersecting : Option obstacle
  left : Option new_edge
  right : Option new_edge
  is_valid_center : Bool
  center_cost : ℚ
deriving DecidableEq, Repr

/-- The clipping of an edge that is partly off the board
(autoroute.c 1761-1786): the edge `BreakEdges` goes on with, and the route box
created for it, if any. -/
def BreakEdges_clip (P : AutoRouteParametersType) (boxes : Nat → routebox_t)
    (clip : Option new_edge) (e : edge_t) : edge_t × List pathbox :=
  match clip with
  | some c =>
    let nrb := (CreateExpansionArea P c.box (e.rb.rb boxes).group
      (route_parent e.rb)).copy_source (e.rb.rb boxes).flags
    (CreateEdge nrb c.cost e.expand_dir, [nrb])
  | none => (e, [])

/-- The edge for a left or right piece of a broken edge, if the piece is
valid (autoroute.c 1815-1830). -/
def BreakEdges_piece (P : AutoRouteParametersType) (boxes : Nat → routebox_t)
    (e : edge_t) (piece : Option new_edge) : List edge_t :=
  match piece with
  | some c =>
    [CreateEdge
      ((CreateExpansionArea P c.box (e.rb.rb boxes).group (route_parent e.rb)).copy_source
        (e.rb.rb boxes).flags) c.cost e.expand_dir]
  | none => []

/-- The interior edge for the centre piece of a broken edge, if one is made
(autoroute.c 1834-1844). -/
def BreakEdges_center (P : AutoRouteParametersType) (boxes : Nat → routebox_t)
    (o : break_input) (rb : obstacle) (e : edge_t) : List edge_t :=
  match rb with
  | .board q =>
    if o.is_valid_center = true ∧ (boxes q).flags.source = false ∧
        (boxes q).type ≠ .EXPANSION_AREA ∧ P.with_conflicts = true then
      [CreateEdgeWithConflicts P boxes q e o.center_cost]
    else []
  | .area _ => []

/-- `BreakEdges` (autoroute.c 1741-1856).  Arguments: the inputs of the
iterations, `edge_vec`, `broken_vec` and the list of created boxes; the result
is `broken_vec`, which the source moves to `edge_vec`, and the created boxes.
The loop ends when `edge_vec` is empty (or when the inputs run out).  The
right piece is appended to `edge_vec` before the left piece. -/
def BreakEdges (P : AutoRouteParametersType) (boxes : Nat → routebox_t) :
    List break_input → List edge_t → List edge_t → List pathbox → List edge_t × List pathbox
  | [], _, broken_vec, created => (broken_vec, created)
  | _ :: _, [], broken_vec, created => (broken_vec, created)
  | o :: os, e0 :: edge_vec, broken_vec, created =>
    if o.off_board then BreakEdges P boxes os edge_vec broken_vec created
    else
      let e := (BreakEdges_clip P boxes o.clip e0).1
      let created := (BreakEdges_clip P boxes o.clip e0).2 ++ created
      match o.intersecting with
      | none => BreakEdges P boxes os edge_vec (e :: broken_vec) created
      | some rb =>
        let pieces := BreakEdges_piece P boxes e o.left ++ BreakEdges_piece P boxes e o.right
        let center := BreakEdges_center P boxes o rb e
        BreakEdges P boxes os (pieces ++ edge_vec) (center ++ broken_vec)
          (center.map edge_t.rb ++ pieces.map edge_t.rb ++ created)

/-- `ExpandAllEdges` (autoroute.c 1695-1737): one edge per direction on the
route box of `e`; `cost i` is the value of `edge_cost` on the edge of
direction `i`. -/
def ExpandAllEdges (e : edge_t) (cost : Nat → ℚ) : List edge_t :=
  [CreateEdge e.rb (cost 3) 3, CreateEdge e.rb (cost 2) 2, CreateEdge e.rb (cost 1) 1,
   CreateEdge e.rb (cost 0) 0]

/-- `add_via_sites` (autoroute.c 2165-2212); `sites` is what
`mtspace_query_rect` returns and `active` is `is_layer_group_active`. -/
def add_via_sites (P : AutoRouteParametersType) (active : Nat → Bool) :
    List via_site → pathbox → conflict_t → routeone_state → routeone_state
  | [], _, _, s => s
  | v :: sites, within, within_conflict_level, s =>
    if ¬ (v.level = .NO_CONFLICT ∨ P.with_conflicts = true) then
      add_via_sites P active sites within within_conflict_level s
    else if v.group = (within.rb s.boxes).group then
      add_via_sites P active sites within within_conflict_level s
    else if active v.group = false then
      add_via_sites P active sites within within_conflict_level s
    else
      let ne := CreateViaEdge P v.area v.group within within_conflict_level v.cost
      add_via_sites P active sites within within_conflict_level
        (add_or_destroy_edge { s with created := ne.rb :: s.created } ne)

/-- One cell of the 3x3 decomposition of a via box `v` around the bloated
obstacle `a` (autoroute.c 2431-2461): `i` selects left, centre or right and
`j` selects top, centre or bottom. -/
def via_cell (v a : BoxType) (i j : Nat) : BoxType :=
  let b := v
  let b := match i with
    | 0 => { b with X2 := min b.X2 a.X1 }
    | 1 => { b with X1 := max b.X1 a.X1, X2 := min b.X2 a.X2 }
    | _ => { b with X1 := max b.X1 a.X2 }
  match j with
    | 0 => { b with Y2 := min b.Y2 a.Y1 }
    | 1 => { b with Y1 := max b.Y1 a.Y1, Y2 := min b.Y2 a.Y2 }
    | _ => { b with Y1 := max b.Y1 a.Y2 }

/-- The inputs of one iteration of the main loop of `RouteOne`.  For an
interior edge: the costs of the four edges of `ExpandAllEdges`, the inputs of
`BreakEdges` and the via sites.  For a via edge: what `FindOneInBox` returns
and the costs of the new edges (by direction, or by cell).  For any other
edge: what `FindBlocker` returns, the region of `edge_to_infinity_region`, the
region after `limit_region`, whether it has area, the costs of the two side
edges, the via sites, the valid pieces of `break_box_edge`, whether the centre
piece is valid, and the costs of the edge onto a target and of the conflict
edge. -/
structure expand_input where
  all_edges_cost : Nat → ℚ
  break_inputs : List break_input
  via_sites : List via_site
  intersecting : Option obstacle
  via_cost : Nat → Nat → ℚ
  next : Option obstacle
  infinity_region : BoxType
  limited_region : BoxType
  has_area : Bool
  side_cost : Nat → ℚ
  left : Option new_edge
  right : Option new_edge
  center : BoxType
  target_cost : ℚ
  conflict_cost : ℚ

/-- The cells `(i, j)` of the 3x3 decomposition in the order of the two
nested loops. -/
def via_cells : List (Nat × Nat) :=
  [(0, 0), (0, 1), (0, 2), (1, 0), (1, 1), (1, 2), (2, 0), (2, 1), (2, 2)]

/-- The body of the two nested loops over the cells of a via box that
something intersects (autoroute.c 2427-2490). -/
def expand_via_cell (P : AutoRouteParametersType) (o : expand_input) (e : edge_t)
    (intersecting : obstacle) (s : routeone_state) (ij : Nat × Nat) : routeone_state :=
  let a := bloat_routebox P (intersecting.rb s.boxes)
  let b := via_cell (e.rb.rb s.boxes).box a ij.1 ij.2
  if ¬ (b.X1 < b.X2 ∧ b.Y1 < b.Y2) then s
  else if ij.1 = 1 ∧ ij.2 = 1 then
    match intersecting with
    | .area _ => s
    | .board q =>
      if (s.boxes q).type = .EXPANSION_AREA then s
      else if P.with_conflicts = false then s
      else
        let ne := CreateEdgeWithConflicts P s.boxes q e (o.via_cost 1 1)
        add_or_destroy_edge { s with created := ne.rb :: s.created } ne
  else
    let ne := CreateViaEdge P b (e.rb.rb s.boxes).group e.rb.parent e.via_conflict_level
      (o.via_cost ij.1 ij.2)
    add_or_destroy_edge { s with created := ne.rb :: s.created } ne

/-- The expansion of an interior edge (autoroute.c 2358-2390). -/
def expand_interior (P : AutoRouteParametersType) (active : Nat → Bool) (o : expand_input)
    (e : edge_t) (s : routeone_state) : routeone_state :=
  match e.rb.underlying with
  | none => s
  | some u =>
    if (s.boxes u).flags.touched = true then s
    else
      let s := { s with
        boxes := fun q => if q = u then
            { s.boxes u with flags := { (s.boxes u).flags with touched := true } }
          else s.boxes q
        touched_vec := u :: s.touched_vec }
      let s := if (s.boxes u).flags.target = true then best_path_candidate s e u else s
      if (s.boxes u).flags.fixed = true then s
      else
        let r := BreakEdges P s.boxes o.break_inputs (ExpandAllEdges e o.all_edges_cost) []
          s.created
        let s := r.1.foldl add_or_destroy_edge { s with created := r.2 }
        if P.use_vias = true then
          add_via_sites P active o.via_sites e.rb (CONFLICT_LEVEL P (s.boxes u)) s
        else s

/-- The expansion of a via edge (autoroute.c 2391-2497). -/
def expand_via (P : AutoRouteParametersType) (o : expand_input) (e : edge_t)
    (s : routeone_state) : routeone_state :=
  match o.intersecting with
  | none =>
    let rb := e.rb.clear_orphan
    let s := { s with area_vec := rb :: s.area_vec }
    [0, 1, 2, 3].foldl
      (fun s i => add_or_destroy_edge s (CreateEdge rb (o.via_cost i 0) i)) s
  | some intersecting => via_cells.foldl (expand_via_cell P o e intersecting) s

/-- A route box is created and an edge on it is offered to the work heap
(`CreateExpansionArea`, `CreateEdge2`, `add_or_destroy_edge`), if the piece is
valid (autoroute.c 2573-2588). -/
def expand_piece (P : AutoRouteParametersType) (group : Nat) (top_parent : pathbox)
    (expand_dir : Nat) (piece : Option new_edge) (s : routeone_state) : routeone_state :=
  match piece with
  | some c =>
    add_or_destroy_edge
      { s with created := CreateExpansionArea P c.box group top_parent :: s.created }
      (CreateEdge (CreateExpansionArea P c.box group top_parent) c.cost expand_dir)
  | none => s

/-- What `RouteOne` does with the blocker `next` of an expansion
(autoroute.c 2589-2627). -/
def expand_blocker (P : AutoRouteParametersType) (o : expand_input) (group : Nat)
    (top_parent : pathbox) (expand_dir : Nat) (next : obstacle) (s : routeone_state) :
    routeone_state :=
  if (next.rb s.boxes).flags.target = true then
    match next with
    | .board q =>
      let nrb := CreateExpansionArea P (s.boxes q).box group top_parent
      best_path_candidate { s with created := nrb :: s.created }
        (CreateEdge nrb o.target_cost expand_dir) q
    | .area _ => s
  else if (next.rb s.boxes).type = .EXPANSION_AREA then s
  else if P.with_conflicts = true then
    match next with
    | .board q =>
      let nrb := CreateExpansionArea P o.center group top_parent
      let ne := CreateEdge nrb o.conflict_cost expand_dir
      let ne2 := CreateEdgeWithConflicts P s.boxes q ne o.conflict_cost
      add_or_destroy_edge { s with created := ne2.rb :: nrb :: s.created } ne2
    | .area _ => s
  else s

/-- The new expansion area of an expansion with area, its two side edges and
its via sites (autoroute.c 2526-2562). -/
def expand_area (P : AutoRouteParametersType) (active : Nat → Bool) (o : expand_input)
    (e : edge_t) (nrb : pathbox) (s : routeone_state) : routeone_state :=
  let s := { s with created := nrb :: s.created, area_vec := nrb :: s.area_vec }
  let s := [1, 3].foldl
    (fun s i => add_or_destroy_edge s
      (CreateEdge nrb (o.side_cost i) ((e.expand_dir + i) % 4))) s
  if P.use_vias = true then add_via_sites P active o.via_sites nrb .NO_CONFLICT s
  else s

/-- The expansion of an edge that is neither interior nor a via
(autoroute.c 2498-2628). -/
def expand_edge (P : AutoRouteParametersType) (active : Nat → Bool) (o : expand_input)
    (e : edge_t) (s : routeone_state) : routeone_state :=
  let group := (e.rb.rb s.boxes).group
  if o.infinity_region.X1 ≥ o.infinity_region.X2 ∨
      o.infinity_region.Y1 ≥ o.infinity_region.Y2 then s
  else
    let expand_region := match o.next with
      | some _ => o.limited_region
      | none => o.infinity_region
    -- a region with area becomes a route box of the tree
    let nrb := (CreateExpansionArea P expand_region group e.rb).clear_orphan
    let top_parent := if o.has_area = true then nrb else e.rb
    let s := if o.has_area = true then expand_area P active o e nrb s else s
    match o.next with
    | none => s
    | some next =>
      let s := expand_piece P group top_parent e.expand_dir o.left s
      let s := expand_piece P group top_parent e.expand_dir o.right s
      expand_blocker P o group top_parent e.expand_dir next s

/-- One iteration of the main loop of `RouteOne` (autoroute.c 2347-2631). -/
def RouteOne_iteration (P : AutoRouteParametersType) (active : Nat → Bool)
    (s : routeone_state) (o : expand_input) : routeone_state :=
  match heap_remove_smallest s.workheap with
  | none => s
  | some (e, heap) =>
    let s := { s with workheap := heap }
    if s.best_path ≠ none ∧ e.cost > s.best_cost then s
    else if e.is_interior = true then expand_interior P active o e s
    else if e.is_via = true then expand_via P o e s
    else expand_edge P active o e s

/-- The walk over the best path that sets `route_had_conflicts`
(autoroute.c 2647-2658).  It ends at the first box with the source flag; on a
box of the board without that flag the source would leave the path. -/
def path_had_conflicts (P : AutoRouteParametersType) (boxes : Nat → routebox_t) :
    pathbox → Option Bool
  | .board p => if (boxes p).flags.source = true then some false else none
  | .expansion rb u parent =>
    if rb.flags.source = true then some false
    else match u with
      | some q =>
        if (boxes q).flags.is_odd = P.is_odd then some true
        else path_had_conflicts P boxes parent
      | none => path_had_conflicts P boxes parent

/-- Apply `f` to the flags of the boxes of a ring (`LIST_LOOP`). -/
def set_flags (boxes : Nat → routebox_t) (ring : List Nat)
    (f : routebox_flags → routebox_flags) : Nat → routebox_t :=
  fun q => if q ∈ ring then { boxes q with flags := f (boxes q).flags } else boxes q

/-- The inputs of a call of `RouteOne`: the same-net ring and the same-subnet
ring of `from`, `to` and its same-subnet ring if `to` is given, the costs of
the edges of the sources, the inputs of the first `BreakEdges` and of the
iterations of the main loop. -/
structure routeone_input where
  same_net : List Nat
  same_subnet : List Nat
  to_ : Option (Nat × List Nat)
  source_cost : Nat → Nat → ℚ
  break_inputs : List break_input
  iterations : List expand_input

/-- What a call of `RouteOne` leaves: its status, the board boxes, the route
boxes the search created, and the state of the search at the end of the main
loop. -/
structure routeone_result where
  status : routeone_status
  boxes : Nat → routebox_t
  created : List pathbox
  final : routeone_state

/-- The flags of the boxes of the net after the set-up of `RouteOne`
(autoroute.c 2244-2273). -/
def RouteOne_flags (boxes : Nat → routebox_t) (i : routeone_input) : Nat → routebox_t :=
  let boxes := set_flags boxes i.same_net (fun f => { f with nobloat := true })
  let boxes := set_flags boxes i.same_subnet (fun f => { f with source := true })
  let boxes := match i.to_ with
    | some (to_, to_subnet) =>
      if (boxes to_).flags.source = false then
        set_flags boxes to_subnet (fun f => { f with target := true })
      else boxes
    | none =>
      set_flags boxes i.same_net
        (fun f => if f.source = false then { f with target := true } else f)
  set_flags boxes i.same_net
    (fun f => if f.nonstraight = true then { f with source := false, target := false } else f)

/-- The edges of the sources (autoroute.c 2304-2323). -/
def RouteOne_source_vec (boxes : Nat → routebox_t) (active : Nat → Bool)
    (source_cost : Nat → Nat → ℚ) : List Nat → List edge_t
  | [] => []
  | p :: ring =>
    if (boxes p).flags.source = true ∧ active (boxes p).group = true then
      RouteOne_source_vec boxes active source_cost ring ++
        [CreateEdge (.board p) (source_cost p 3) 3, CreateEdge (.board p) (source_cost p 2) 2,
         CreateEdge (.board p) (source_cost p 1) 1, CreateEdge (.board p) (source_cost p 0) 0]
    else RouteOne_source_vec boxes active source_cost ring

/-- The clean-up of `RouteOne` (autoroute.c 2684-2701): the source, target and
nobloat flags of the net are cleared, then the touched flags of the boxes of
`touched_vec`. -/
def RouteOne_cleanup (boxes : Nat → routebox_t) (same_net touched_vec : List Nat) :
    Nat → routebox_t :=
  set_flags
    (set_flags boxes same_net
      (fun f => { f with source := false, target := false, nobloat := false }))
    touched_vec (fun f => { f with touched := false })

/-- The status `RouteOne` returns after its main loop (autoroute.c 2637-2683). -/
def RouteOne_status (P : AutoRouteParametersType) (s : routeone_state) : routeone_status :=
  match s.best_path with
  | some best_path =>
    { found_route := true, route_had_conflicts := path_had_conflicts P s.boxes best_path,
      best_route_cost := s.best_cost, net_completely_routed := false }
  | none =>
    { found_route := false, route_had_conflicts := none, best_route_cost := 0,
      net_completely_routed := false }

/-- `RouteOne` (autoroute.c 2222-2709).  `TracePath` and the `MergeNets` that
follows it, which draw the route and join the subnets, are not part of the
model. -/
def RouteOne (P : AutoRouteParametersType) (active : Nat → Bool) (boxes : Nat → routebox_t)
    (i : routeone_input) : routeone_result :=
  let boxes := RouteOne_flags boxes i
  let num_targets := (i.same_net.filter (fun p => (boxes p).flags.target)).length
  let s0 : routeone_state :=
    { boxes := boxes, workheap := [], best_path := none, best_target := none, best_cost := 0,
      area_vec := [], touched_vec := [], created := [] }
  if num_targets = 0 then
    { status := { found_route := false, route_had_conflicts := none, best_route_cost := 0,
                  net_completely_routed := true }
      boxes := RouteOne_cleanup boxes i.same_net []
      created := []
      final := s0 }
  else
    let source_vec := RouteOne_source_vec boxes active i.source_cost i.same_subnet
    let r := BreakEdges P boxes i.break_inputs source_vec [] []
    let s := i.iterations.foldl (RouteOne_iteration P active)
      { s0 with workheap := r.1, created := r.2 }
    { status := RouteOne_status P s
      boxes := RouteOne_cleanup s.boxes i.same_net s.touched_vec
      created := s.created
      final := s }

/-- One net of a pass of `RouteAll`: its style, the number of its subnets, and
for each call of `RouteOne` the board boxes it starts from and its inputs. -/
structure net_input where
  augStyle : AugmentedRouteStyleType
  subnets : Int
  calls : List ((Nat → routebox_t) × routeone_input)

/-- The counters after one call of `RouteOne` (autoroute.c 2805-2810). -/
def RouteAll_count (ras : routeall_status) (ros : routeone_status) : routeall_status :=
  if ros.found_route = true then
    if ros.route_had_conflicts = some true then
      { ras with conflict_subnets := ras.conflict_subnets + 1 }
    else { ras with routed_subnets := ras.routed_subnets + 1 }
  else ras

/-- The routing of one net in pass `i` (autoroute.c 2770-2826): the
parameters are set for the net, the subnets counted, and the counters updated
after each call of `RouteOne`. -/
def RouteAll_net (active : Nat → Bool) (i : Nat) (with_conflicts is_smoothing : Bool)
    (ras : routeall_status) (net : net_input) : routeall_status :=
  let P := InitAutoRouteParameters i net.augStyle with_conflicts is_smoothing
  let ras := { ras with total_subnets := ras.total_subnets + net.subnets - 1 }
  net.calls.foldl (fun ras c => RouteAll_count ras (RouteOne P active c.1 c.2).status) ras

/-- The body of one pass of `RouteAll` (autoroute.c 2766-2826) over the nets
that `script` lists for the pass.  The rip-up of the nets and the drawing of
the routes are in the board boxes that the script gives each call of
`RouteOne`. -/
def RouteAll_passBody (active : Nat → Bool) (script : Nat → List net_input)
    (i : Nat) (with_conflicts is_smoothing : Bool) (s : Unit) : Unit × routeall_status :=
  (s, (script i).foldl (RouteAll_net active i with_conflicts is_smoothing) ⟨0, 0, 0⟩)

/-- No route box on the path, from the box back to its first ancestor, has an
underlying box. -/
def pathbox.no_underlying : pathbox → Prop
  | .board _ => True
  | .expansion _ u parent => u = none ∧ parent.no_underlying

/-- The chain of parents of the box ends at a box of the board that has the
source flag. -/
def pathbox.from_source (boxes : Nat → routebox_t) : pathbox → Prop
  | .board p => (boxes p).flags.source = true
  | .expansion _ _ parent => parent.from_source boxes

/-- A path box of a search without conflicts. -/
def GoodBox (boxes : Nat → routebox_t) (b : pathbox) : Prop :=
  b.no_underlying ∧ b.from_source boxes

/-- An edge of a search without conflicts: it is not interior and its route
box is good. -/
def GoodEdge (boxes : Nat → routebox_t) (e : edge_t) : Prop :=
  GoodBox boxes e.rb ∧ e.is_interior = false

/-- The invariant of the main loop of `RouteOne` when conflicts are not
permitted: the board boxes are those of the start of the loop, and every edge
of the work heap, the best path and every created route box are good. -/
def SearchInv (boxes : Nat → routebox_t) (s : routeone_state) : Prop :=
  s.boxes = boxes ∧ (∀ e ∈ s.workheap, GoodEdge boxes e) ∧
  (∀ b, s.best_path = some b → GoodBox boxes b) ∧ (∀ b ∈ s.created, GoodBox boxes b)

/-! ## The placer: perturbations -/

/-- The record `CostParameter` (autoplace.c 81-120); the floating point
fields are given as exact rationals. -/
structure CostParameterType where
  via_cost : ℚ
  congestion_penalty : ℚ
  overlap_penalty_min : ℚ
  overlap_penalty_max : ℚ
  out_of_bounds_penalty : ℚ
  overall_area_penalty : ℚ
  matching_neighbor_bonus : ℚ
  aligned_neighbor_bonus : ℚ
  oriented_neighbor_bonus : ℚ
  m : ℚ
  gamma : ℚ
  good_ratio : Int
  fast : Bool
  large_grid_size : Int
  small_grid_size : Int

/-- The values of `CostParameter` (autoplace.c 103-120). -/
def CostParameter : CostParameterType :=
  { via_cost := 3000
    congestion_penalty := 2 / 10000
    overlap_penalty_min := 1
    overlap_penalty_max := 100000
    out_of_bounds_penalty := 1000000
    overall_area_penalty := 1
    matching_neighbor_bonus := 1000
    aligned_neighbor_bonus := 1000
    oriented_neighbor_bonus := 1000
    m := 20
    gamma := 3 / 4
    good_ratio := 40
    fast := false
    large_grid_size := 100
    small_grid_size := 10 }

/-- The macro `SGN` of `macro.h`, which is not among the sources: the sign of
an integer. -/
def SGN (a : Int) : Int := if a > 0 then 1 else if a = 0 then 0 else -1

/-- The grid of a SHIFT perturbation at temperature `T` (autoplace.c 609-610). -/
def shift_grid (T : ℚ) : Int :=
  if T > 1000 then CostParameter.large_grid_size else CostParameter.small_grid_size

/-- The snap of one shift component to the grid (autoplace.c 612-613):
`pt.DX = ((pt.DX / grid) + SGN (pt.DX)) * grid`, with the division of C, which
truncates towards zero. -/
def snap_to_grid (DX grid : Int) : Int := (Int.tdiv DX grid + SGN DX) * grid

/-- The part of `ElementType` that the placer's perturbations read and write:
the bounding box, the side of the board (`ONSOLDERFLAG`) and the numbers of
pins and pads. -/
structure ElementType where
  BoundingBox : BoxType
  ONSOLDER : Bool
  PinN : Nat
  PadN : Nat
deriving DecidableEq, Repr

/-- The anonymous enumeration of perturbation kinds. -/
inductive perturbation_kind
  | SHIFT | ROTATE | EXCHANGE
deriving DecidableEq, Repr

/-- The record `PerturbationType`; elements are referred to by their index in
the element table. -/
structure PerturbationType where
  element : Nat
  which : perturbation_kind
  DX : Int
  DY : Int
  rotate : Nat
  other : Nat
deriving DecidableEq, Repr

/-- The board as the placer sees it: its size and the table of elements. -/
structure PlacerBoard where
  MaxWidth : Int
  MaxHeight : Int
  Element : Nat → ElementType

/-- Modelled from the spec: `MoveElementLowLevel` of `move.c`, which is not
among the sources.  It translates the element, and so its bounding box, by
`(DX, DY)`. -/
def MoveElementLowLevel (e : ElementType) (DX DY : Int) : ElementType :=
  { e with BoundingBox :=
      { X1 := e.BoundingBox.X1 + DX, Y1 := e.BoundingBox.Y1 + DY,
        X2 := e.BoundingBox.X2 + DX, Y2 := e.BoundingBox.Y2 + DY } }

/-- Modelled from the spec: the rotation of a point about `(X, Y)` by `n`
quarter turns. -/
def rotatePoint (x y X Y : Int) (n : Nat) : Int × Int :=
  match n % 4 with
  | 1 => (X + (y - Y), Y - (x - X))
  | 2 => (X - (x - X), Y - (y - Y))
  | 3 => (X - (y - Y), Y + (x - X))
  | _ => (x, y)

/-- Modelled from the spec: `RotateElementLowLevel` of `rotate.c`, which is
not among the sources.  It rotates the element about `(X, Y)` by `Number`
quarter turns; the bounding box becomes the box spanned by the rotated
corners. -/
def RotateElementLowLevel (e : ElementType) (X Y : Int) (Number : Nat) : ElementType :=
  let c1 := rotatePoint e.BoundingBox.X1 e.BoundingBox.Y1 X Y Number
  let c2 := rotatePoint e.BoundingBox.X2 e.BoundingBox.Y2 X Y Number
  { e with BoundingBox :=
      { X1 := min c1.1 c2.1, Y1 := min c1.2 c2.2, X2 := max c1.1 c2.1, Y2 := max c1.2 c2.2 } }

/-- Modelled from the spec: `MirrorElementCoordinates` of `mirror.c`, which is
not among the sources.  It puts the element on the other side of the board,
mirroring it in a horizontal axis: `y` becomes `MaxHeight - y + yoff`. -/
def MirrorElementCoordinates (MaxHeight : Int) (e : ElementType) (yoff : Int) : ElementType :=
  { e with
    ONSOLDER := !e.ONSOLDER
    BoundingBox :=
      { X1 := e.BoundingBox.X1, Y1 := MaxHeight - e.BoundingBox.Y2 + yoff,
        X2 := e.BoundingBox.X2, Y2 := MaxHeight - e.BoundingBox.Y1 + yoff } }

/-- Replace one element of the table. -/
def PlacerBoard.setElement (s : PlacerBoard) (i : Nat) (e : ElementType) : PlacerBoard :=
  { s with Element := fun j => if j = i then e else s.Element j }

/-- The `ROTATE` case of `doPerturb` (autoplace.c 656-659 and 674-691) for the
element `element` and the rotation `rotate`, a `BYTE`.  On undo the source
takes `(4 - b) & 3`, the residue of `4 - b` modulo 4. -/
def doPerturb_ROTATE (s : PlacerBoard) (element : Nat) (rotate : Nat) (undo : Bool) :
    PlacerBoard :=
  let e := s.Element element
  let bbcx := Int.tdiv (e.BoundingBox.X1 + e.BoundingBox.X2) 2
  let bbcy := Int.tdiv (e.BoundingBox.Y1 + e.BoundingBox.Y2) 2
  let b : Nat := if undo then (((4 : Int) - ((rotate % 256 : Nat) : Int)) % 4).toNat else rotate % 256
  if b ≠ 0 then
    s.setElement element (RotateElementLowLevel e bbcx bbcy b)
  else
    let y := e.BoundingBox.Y1
    let e1 := MirrorElementCoordinates s.MaxHeight e 0
    s.setElement element (MoveElementLowLevel e1 0 (y - e1.BoundingBox.Y1))

/-- `doPerturb` (autoplace.c 653-719).  In the `EXCHANGE` case the two inner
calls `doPerturb (&mypt, undo)` with `mypt.which = ROTATE`, `mypt.rotate = 0`
are calls of `doPerturb_ROTATE`. -/
def doPerturb (s : PlacerBoard) (pt : PerturbationType) (undo : Bool) : PlacerBoard :=
  match pt.which with
  | .SHIFT =>
    let DX := if undo then -pt.DX else pt.DX
    let DY := if undo then -pt.DY else pt.DY
    s.setElement pt.element (MoveElementLowLevel (s.Element pt.element) DX DY)
  | .ROTATE => doPerturb_ROTATE s pt.element pt.rotate undo
  | .EXCHANGE =>
    let x1 := (s.Element pt.element).BoundingBox.X1
    let y1 := (s.Element pt.element).BoundingBox.Y1
    let x2 := (s.Element pt.other).BoundingBox.X1
    let y2 := (s.Element pt.other).BoundingBox.Y1
    let s1 := s.setElement pt.element
      (MoveElementLowLevel (s.Element pt.element) (x2 - x1) (y2 - y1))
    let s2 := s1.setElement pt.other
      (MoveElementLowLevel (s1.Element pt.other) (x1 - x2) (y1 - y2))
    if (s2.Element pt.element).ONSOLDER ≠ (s2.Element pt.other).ONSOLDER then
      doPerturb_ROTATE (doPerturb_ROTATE s2 pt.element 0 undo) pt.other 0 undo
    else s2

/-- A board with one element whose bounding box is `(10,10)-(13,13)`. -/
def oddBoard : PlacerBoard :=
  { MaxWidth := 1000, MaxHeight := 1000
    Element := fun _ => { BoundingBox := ⟨10, 10, 13, 13⟩, ONSOLDER := false, PinN := 2, PadN := 0 } }

/-- A rotation of element `0` by 180 degrees. -/
def rotate180 : PerturbationType :=
  { element := 0, which := .ROTATE, DX := 0, DY := 0, rotate := 2, other := 0 }

/-- A routing style with every dimension set: thickness 10, via diameter 40,
drill hole 20, keepaway 10 (the default style of scenario S1). -/
def goodStyle : RouteStyleType := { Thick := 10, Diameter := 40, Hole := 20, Keepaway := 10 }

/-- A board with one rat line whose style `0` has no via diameter and no
drill hole, all other styles being `goodStyle`. -/
def boardStyle0NoVia : PCBType :=
  { RouteStyle := fun i => if i = 0 then { goodStyle with Diameter := 0, Hole := 0 } else goodStyle
    RatN := 1, Line := [], Via := [] }

/-- A board with one rat line whose style `2` has no thickness. -/
def boardStyle2NoThick : PCBType :=
  { RouteStyle := fun i => if i = 2 then { goodStyle with Thick := 0 } else goodStyle
    RatN := 1, Line := [], Via := [] }

/-- The parameters of pass `0` for a net of style `goodStyle`. -/
def pass0Parameters : AutoRouteParametersType :=
  InitAutoRouteParameters 0 ⟨goodStyle, true⟩ true false

/-- A target pin on layer group `0`. -/
def targetA : routebox_t :=
  { box := ⟨10, 10, 20, 20⟩, group := 0, type := .PIN, flags := { target := true },
    augStyle := ⟨goodStyle, true⟩ }

/-- A target pad on layer group `1`. -/
def targetB : routebox_t :=
  { box := ⟨50, 10, 60, 20⟩, group := 1, type := .PAD, flags := { target := true },
    augStyle := ⟨goodStyle, true⟩ }

/-- A tree that holds the two targets under one region. -/
def twoTargets : kdtree_t routebox_t :=
  .node ⟨10, 10, 60, 20⟩ (.leaf targetA) (.leaf targetB)

/-- Three boxes of a board: two pins of one net and a line of another net
laid down in an odd pass. -/
def searchBoxes : Nat → routebox_t := fun p =>
  if p = 0 then
    { box := ⟨0, 0, 10, 10⟩, group := 0, type := .PIN, flags := { fixed := true },
      augStyle := ⟨goodStyle, true⟩ }
  else if p = 1 then
    { box := ⟨50, 0, 60, 10⟩, group := 0, type := .PIN, flags := { fixed := true },
      augStyle := ⟨goodStyle, true⟩ }
  else
    { box := ⟨30, 0, 35, 10⟩, group := 0, type := .LINE, flags := { is_odd := true },
      augStyle := ⟨goodStyle, true⟩ }

/-- The inputs of an iteration of the main loop that meets the blocker `next`. -/
def searchStep (next : Option obstacle) : expand_input :=
  { all_edges_cost := fun _ => 5, break_inputs := []
    via_sites := [⟨.NO_CONFLICT, ⟨1, 1, 2, 2⟩, 1, 7⟩, ⟨.LO_CONFLICT, ⟨1, 1, 2, 2⟩, 1, 7⟩]
    intersecting := none, via_cost := fun _ _ => 9, next := next
    infinity_region := ⟨10, 0, 100, 10⟩, limited_region := ⟨10, 0, 20, 10⟩, has_area := true
    side_cost := fun _ => 6, left := none, right := some ⟨⟨1, 1, 2, 2⟩, 3⟩
    center := ⟨0, 0, 1, 1⟩, target_cost := 4, conflict_cost := 8 }

/-- A call of `RouteOne` from pin `0` towards pin `1`: the search meets the
line `2` twice, then the target, then the edge of the board. -/
def searchInput : routeone_input :=
  { same_net := [0, 1], same_subnet := [0], to_ := none, source_cost := fun _ d => d
    break_inputs :=
      [⟨false, none, none, none, none, false, 0⟩, ⟨true, none, none, none, none, false, 0⟩,
       ⟨false, none, some (.board 2), some ⟨⟨0, 0, 1, 1⟩, 2⟩, none, true, 1⟩]
    iterations :=
      [searchStep (some (.board 2)), searchStep (some (.board 2)), searchStep (some (.board 1)),
       searchStep none] }

/-- A script of `RouteAll` with one net and one call of `RouteOne` in each
pass. -/
def searchScript : Nat → List net_input :=
  fun _ => [{ augStyle := ⟨goodStyle, true⟩, subnets := 2, calls := [(searchBoxes, searchInput)] }]

/-- The limit of one shift component so that the element stays on the board
(autoplace.c 615-618): `DX = MAX (DX, -lo); DX = MIN (DX, Max - hi)`. -/
def limit_shift (DX lo hi Max : Int) : Int := min (max DX (-lo)) (Max - hi)

/-- The shift of `createPerturbation` (autoplace.c 604-620): the two raw
shifts are snapped to the grid and limited to the board.  `r2` is the draw for
`DX`; the draw for `DY` is the head of the list. -/
def createPerturbation_SHIFT (board : PlacerBoard) (raw : ℚ → Int → Nat → Int) (T : ℚ)
    (element : Nat) (r2 : Nat) : List Nat → Option PerturbationType
  | r3 :: _ =>
    let bb := (board.Element element).BoundingBox
    let grid := shift_grid T
    let DX := snap_to_grid (raw T board.MaxWidth r2) grid
    let DY := snap_to_grid (raw T board.MaxHeight r3) grid
    some { element := element, which := .SHIFT,
           DX := limit_shift DX bb.X1 bb.X2 board.MaxWidth,
           DY := limit_shift DY bb.Y1 bb.Y2 board.MaxHeight,
           rotate := 0, other := 0 }
  | [] => none

/-- The rotation of `createPerturbation` (autoplace.c 622-630):
`isSMD = element->PadN != 0`, and `rotate` is `random () & 3`, the draw
modulo 4, for an SMD element and `1 + random () % 3` otherwise. -/
def createPerturbation_ROTATE (board : PlacerBoard) (element : Nat) (r2 : Nat) :
    PerturbationType :=
  let isSMD := (board.Element element).PadN ≠ 0
  { element := element, which := .ROTATE, DX := 0, DY := 0,
    rotate := if isSMD then r2 % 4 else 1 + r2 % 3, other := 0 }

/-- The partner of an exchange (autoplace.c 634-638): a draw among the first
`PtrN - 1` entries, replaced by the last entry when it is the element itself. -/
def createPerturbation_other (selected : List Nat) (element : Nat) (r2 : Nat) : Nat :=
  let other := selected.getD (r2 % (selected.length - 1)) 0
  if other = element then selected.getD (selected.length - 1) 0 else other

/-- The test of autoplace.c 640-643 under which an exchange is dropped and
`createPerturbation` starts again. -/
def createPerturbation_retry (board : PlacerBoard) (element other : Nat) : Prop :=
  ((board.Element element).PinN ≠ 0 ∧ (board.Element other).ONSOLDER = true) ∨
  ((board.Element other).PinN ≠ 0 ∧ (board.Element element).ONSOLDER = true)

instance (board : PlacerBoard) (element other : Nat) :
    Decidable (createPerturbation_retry board element other) := by
  unfold createPerturbation_retry; exact inferInstance

/-- `createPerturbation` (autoplace.c 591-651).  `selected` is the array
`selected->Ptr` of element pointers.  The results of the calls of `random ()`
are taken from the list of draws in order (each of the three kinds makes at
least one call after the first two); the function has no result when they run
out.  `raw T dim r` stands for the floating point expression
`scale * 2 * (r / RAND_MAX - 0.5)` with `scale = MAX (250, MIN (sqrt (T),
dim / 3))` once it is stored in a `Position`.  The fields of the record that
the source leaves unassigned are `0`. -/
def createPerturbation (board : PlacerBoard) (raw : ℚ → Int → Nat → Int)
    (selected : List Nat) (T : ℚ) : List Nat → Option PerturbationType
  | r0 :: r1 :: r2 :: rest =>
    let element := selected.getD (r0 % selected.length) 0
    match r1 % (if selected.length > 1 then 3 else 2) with
    | 0 => createPerturbation_SHIFT board raw T element r2 rest
    | 1 => some (createPerturbation_ROTATE board element r2)
    | _ =>
      let other := createPerturbation_other selected element r2
      if createPerturbation_retry board element other then
        createPerturbation board raw selected T rest
      else
        some { element := element, which := .EXCHANGE, DX := 0, DY := 0, rotate := 0,
               other := other }
  | _ => none

/-- What one move of the annealing loop does to the cost: the move lowers the
cost, or it is kept all the same, or it is undone. -/
inductive move_outcome
  | good | kept | undone
deriving DecidableEq, Repr

/-- The variables of the annealing loop of `AutoPlaceSelected`
(autoplace.c 772-774). -/
structure anneal_state where
  T : ℚ
  steps : Int
  good_moves : Int
  moves : Int
deriving DecidableEq, Repr

/-- The values of `T`, `good_moves` and `moves` at the end of a stage. -/
structure stage_end where
  T : ℚ
  good_moves : Int
  moves : Int
deriving DecidableEq, Repr

/-- `good_move_cutoff` (autoplace.c 775): `CostParameter.m * Selected.PtrN`
stored in an `int`. -/
def good_move_cutoff (PtrN : Nat) : Int := ⌊CostParameter.m * (PtrN : ℚ)⌋

/-- `move_cutoff` (autoplace.c 776). -/
def move_cutoff (PtrN : Nat) : Int := 2 * good_move_cutoff PtrN

/-- The test `T < 5 || good_moves < moves / CostParameter.good_ratio` that
ends the annealing (autoplace.c 806). -/
def anneal_is_end (e : stage_end) : Prop :=
  e.T < 5 ∨ e.good_moves < Int.tdiv e.moves CostParameter.good_ratio

instance (e : stage_end) : Decidable (anneal_is_end e) := by
  unfold anneal_is_end; infer_instance

/-- One iteration of the `while (1)` loop of `AutoPlaceSelected`
(autoplace.c 778-814) for the given outcome of the move: the new state, the
record of the stage end if the iteration ends a stage, and whether the loop
is left by `break`. -/
def anneal_iteration (PtrN : Nat) (s : anneal_state) (o : move_outcome) :
    anneal_state × Option stage_end × Bool :=
  let s := match o with
    | .good => { s with good_moves := s.good_moves + 1, steps := s.steps + 1 }
    | .kept => { s with steps := s.steps + 1 }
    | .undone => s
  let s := { s with moves := s.moves + 1 }
  if s.good_moves ≥ good_move_cutoff PtrN ∨ s.moves ≥ move_cutoff PtrN then
    if anneal_is_end ⟨s.T, s.good_moves, s.moves⟩ then
      (s, some ⟨s.T, s.good_moves, s.moves⟩, true)
    else
      ({ s with moves := 0, good_moves := 0, T := s.T * CostParameter.gamma },
        some ⟨s.T, s.good_moves, s.moves⟩, false)
  else (s, none, false)

/-- The `while (1)` loop of `AutoPlaceSelected` (autoplace.c 778-814), started
at its iteration `k` and run for at most the given number of iterations; the
outcome of the move of iteration `k` is `outcomes k`.  The result is the state
at the `break` and the stage ends met, or nothing if the loop is still running
after that many iterations. -/
def anneal_loop (PtrN : Nat) (outcomes : Nat → move_outcome) :
    Nat → Nat → anneal_state → Option (anneal_state × List stage_end)
  | 0, _, _ => none
  | fuel + 1, k, s =>
    let r := anneal_iteration PtrN s (outcomes k)
    let log := match r.2.1 with
      | some e => [e]
      | none => []
    if r.2.2 then some (r.1, log)
    else match anneal_loop PtrN outcomes fuel (k + 1) r.1 with
      | some (s1, log1) => some (s1, log ++ log1)
      | none => none

/-- The test of `ComputeCost` for an element that is out of bounds
(autoplace.c 468-471). -/
def out_of_bounds (MaxWidth MaxHeight : Int) (element : ElementType) : Prop :=
  element.BoundingBox.X1 < 0 ∨ element.BoundingBox.Y1 < 0 ∨
  element.BoundingBox.X2 ≥ MaxWidth ∨ element.BoundingBox.Y2 ≥ MaxHeight

instance (MaxWidth MaxHeight : Int) (element : ElementType) :
    Decidable (out_of_bounds MaxWidth MaxHeight element) := by
  unfold out_of_bounds; infer_instance

/-- What one iteration of the element loop of `ComputeCost`
(autoplace.c 389-483) does to `delta3`: elements with no pins and no pads are
skipped by `continue` before the test. -/
def ComputeCost_delta3_step (MaxWidth MaxHeight : Int) (delta3 : ℚ) (element : ElementType) :
    ℚ :=
  if element.PinN = 0 ∧ element.PadN = 0 then delta3
  else if out_of_bounds MaxWidth MaxHeight element then
    delta3 + CostParameter.out_of_bounds_penalty
  else delta3

/-- The term `delta3` of `ComputeCost` (autoplace.c 325, 389-483) for the
elements of the board. -/
def ComputeCost_delta3 (MaxWidth MaxHeight : Int) (elements : List ElementType) : ℚ :=
  elements.foldl (ComputeCost_delta3_step MaxWidth MaxHeight) 0

/-- A board of 1000 by 1000 with three elements: one with pins on the
component side, one with pins and pads, and one with pads on the solder
side. -/
def placerBoard : PlacerBoard :=
  { MaxWidth := 1000, MaxHeight := 1000
    Element := fun p =>
      if p = 0 then { BoundingBox := ⟨100, 100, 200, 200⟩, ONSOLDER := false, PinN := 4, PadN := 0 }
      else if p = 1 then
        { BoundingBox := ⟨300, 100, 400, 200⟩, ONSOLDER := false, PinN := 2, PadN := 2 }
      else { BoundingBox := ⟨500, 100, 600, 200⟩, ONSOLDER := true, PinN := 0, PadN := 8 } }

/-- A raw shift that is the draw itself, less 500. -/
def rawShift : ℚ → Int → Nat → Int := fun _ _ r => (r : Int) - 500

/-- An element without pins and pads that lies off the board. -/
def bareElement : ElementType :=
  { BoundingBox := ⟨-50, 10, 50, 110⟩, ONSOLDER := false, PinN := 0, PadN := 0 }

/-- The three shapes of a perturbation that `createPerturbation` returns for
an element `element` of the selection: a shift of two snapped and limited
components, a rotation or flip, or an exchange with `other` that passed the
test on pins and sides. -/
def perturbation_shape (board : PlacerBoard) (raw : ℚ → Int → Nat → Int)
    (selected : List Nat) (T : ℚ) (pt : PerturbationType) : Prop :=
  (∃ r0, pt.element = selected.getD (r0 % selected.length) 0) ∧
  ((∃ r2 r3, pt.which = .SHIFT ∧
      pt.DX = limit_shift (snap_to_grid (raw T board.MaxWidth r2) (shift_grid T))
        (board.Element pt.element).BoundingBox.X1 (board.Element pt.element).BoundingBox.X2
        board.MaxWidth ∧
      pt.DY = limit_shift (snap_to_grid (raw T board.MaxHeight r3) (shift_grid T))
        (board.Element pt.element).BoundingBox.Y1 (board.Element pt.element).BoundingBox.Y2
        board.MaxHeight) ∨
   (∃ r2, pt.which = .ROTATE ∧
      pt.rotate = if (board.Element pt.element).PadN ≠ 0 then r2 % 4 else 1 + r2 % 3) ∨
   (∃ r2, pt.which = .EXCHANGE ∧ 1 < selected.length ∧
      pt.other = createPerturbation_other selected pt.element r2 ∧
      ¬ createPerturbation_retry board pt.element pt.other))


/-- What the annealing loop leaves when it stops, for a stage that starts at
temperature `T`: the first stage end is at `T`, every stage end comes with at
most `move_cutoff` moves and with one of the two cutoffs reached, from one
stage end to the next the loop went on and `T` was multiplied by
`CostParameter.gamma`, and the last stage end is where the loop stops. -/
def anneal_log_ok (PtrN : Nat) (T : ℚ) (s : anneal_state) (log : List stage_end) : Prop :=
  log.head?.map (fun e => e.T) = some T ∧
  (∀ e ∈ log, e.moves ≤ move_cutoff PtrN ∧
    (e.good_moves ≥ good_move_cutoff PtrN ∨ e.moves ≥ move_cutoff PtrN)) ∧
  List.Chain' (fun a b => ¬ anneal_is_end a ∧ b.T = a.T * CostParameter.gamma) log ∧
  ∃ e, log.getLast? = some e ∧ anneal_is_end e ∧ s.T = e.T ∧ s.good_moves = e.good_moves ∧
    s.moves = e.moves
/-! ## Searches of the layer tree: `FindBlocker` and `FindIntersectingObstacle`

The items of a layer tree are route boxes: boxes of the board and expansion
areas.  They are path boxes here, and the comparison of two pointers is the
comparison of two path boxes. -/

/-- Modelled from the spec: the macro `ROTATEBOX_TO_NORTH` of `box.h`, which is
not among the sources; it applies to a box the quarter turns that take the
direction (`NORTH`, `EAST`, `SOUTH`, `WEST` = 0, 1, 2, 3) to north. -/
def ROTATEBOX_TO_NORTH (box : BoxType) (dir : Nat) : BoxType :=
  match dir with
  | 1 => { X1 := box.Y1, Y1 := -box.X2, X2 := box.Y2, Y2 := -box.X1 }
  | 2 => { X1 := -box.X2, Y1 := -box.Y2, X2 := -box.X1, Y2 := -box.Y1 }
  | 3 => { X1 := -box.Y2, Y1 := box.X1, X2 := -box.Y1, Y2 := box.X2 }
  | _ => box

/-- `nonorphan_parent` (autoroute.c 1077-1082). -/
def nonorphan_parent (rb : pathbox) : pathbox :=
  match (route_parent rb).underlying with
  | some u => .board u
  | none => route_parent rb

/-- The record `struct FindBlocker_info`. -/
structure FindBlocker_info where
  expansion_edge : edge_t
  maxbloat : Int
  blocker : Option pathbox
  min_dist : Int
deriving DecidableEq, Repr

/-- `__FindBlocker_checkbox` (autoroute.c 1514-1551); the argument is a region
of the tree (`is_region` true) or a box of the tree.  The assertions are left
out. -/
def __FindBlocker_checkbox (P : AutoRouteParametersType) (boxes : Nat → routebox_t)
    (region_or_box : BoxType ⊕ pathbox) (fbi : FindBlocker_info) : Bool × FindBlocker_info :=
  let ebox := ROTATEBOX_TO_NORTH (fbi.expansion_edge.rb.rb boxes).box fbi.expansion_edge.expand_dir
  let rbox := ROTATEBOX_TO_NORTH
    (match region_or_box with
      | .inl region => bloat_box region fbi.maxbloat
      | .inr box => bloat_routebox P (box.rb boxes)) fbi.expansion_edge.expand_dir
  if rbox.X2 < ebox.X1 then (false, fbi)
  else if rbox.X1 > ebox.X2 then (false, fbi)
  else if rbox.Y1 > ebox.Y1 then (false, fbi)
  else if fbi.blocker ≠ none ∧ rbox.Y2 < ebox.Y1 - fbi.min_dist then (false, fbi)
  else match region_or_box with
    | .inl _ => (true, fbi)
    | .inr box =>
      if rbox.X2 = ebox.X1 ∨ rbox.X1 = ebox.X2 then (false, fbi)
      else if box = nonorphan_parent fbi.expansion_edge.rb then (false, fbi)
      else (true, { fbi with blocker := some box, min_dist := ebox.Y1 - rbox.Y2 })

/-- `FindBlocker` (autoroute.c 1575-1586). -/
def FindBlocker (P : AutoRouteParametersType) (boxes : Nat → routebox_t)
    (kdtree : kdtree_t pathbox) (e : edge_t) (maxbloat : Int) : Option pathbox :=
  (kd_search (fun region fbi => (__FindBlocker_checkbox P boxes (.inl region) fbi).1)
    (fun box fbi => __FindBlocker_checkbox P boxes (.inr box) fbi) kdtree
    { expansion_edge := e, maxbloat := maxbloat, blocker := none, min_dist := 0 }).2.blocker

/-- The box of a tree item as `FindBlocker` and `FindIntersectingObstacle`
compare it with the edge: bloated and rotated to north. -/
def north_bloated (P : AutoRouteParametersType) (boxes : Nat → routebox_t) (e : edge_t)
    (box : pathbox) : BoxType :=
  ROTATEBOX_TO_NORTH (bloat_routebox P (box.rb boxes)) e.expand_dir

/-- The box of the edge rotated to north. -/
def north_edge (boxes : Nat → routebox_t) (e : edge_t) : BoxType :=
  ROTATEBOX_TO_NORTH (e.rb.rb boxes).box e.expand_dir

/-- A box of the tree qualifies as blocker of an edge: it is not the
non-orphan parent of the edge, and in the frame rotated to north its bloated
box overlaps the column of the edge by more than touching and starts at or
above the edge. -/
def blocker_candidate (P : AutoRouteParametersType) (boxes : Nat → routebox_t) (e : edge_t)
    (box : pathbox) : Prop :=
  box ≠ nonorphan_parent e.rb ∧
  (north_bloated P boxes e box).X2 > (north_edge boxes e).X1 ∧
  (north_bloated P boxes e box).X1 < (north_edge boxes e).X2 ∧
  (north_bloated P boxes e box).Y1 ≤ (north_edge boxes e).Y1

instance (P : AutoRouteParametersType) (boxes : Nat → routebox_t) (e : edge_t) (box : pathbox) :
    Decidable (blocker_candidate P boxes e box) := by
  unfold blocker_candidate; infer_instance

/-- The distance from the edge to a box of the tree in the frame rotated to
north: `ebox.Y1 - rbox.Y2`. -/
def blocker_dist (P : AutoRouteParametersType) (boxes : Nat → routebox_t) (e : edge_t)
    (box : pathbox) : Int :=
  (north_edge boxes e).Y1 - (north_bloated P boxes e box).Y2

/-- The record `struct fio_info` without the jump buffer. -/
structure fio_info where
  edge : edge_t
  maxbloat : Int
  intersect : Option pathbox
deriving DecidableEq, Repr

/-- Modelled from the spec: `kd_search` of `kdtree.c` for predicates that may
leave the search by `longjmp`; the error value is the closure at the jump. -/
def kd_search_jmp {α σ : Type} (region_in_search : BoxType → σ → Except σ Bool)
    (rectangle_in_region : α → σ → Except σ (Bool × σ)) : kdtree_t α → σ → Except σ (Nat × σ)
  | .nil, cl => .ok (0, cl)
  | .leaf x, cl =>
    match rectangle_in_region x cl with
    | .ok r => .ok (if r.1 then 1 else 0, r.2)
    | .error j => .error j
  | .node region lo hi, cl =>
    match region_in_search region cl with
    | .error j => .error j
    | .ok false => .ok (0, cl)
    | .ok true =>
      match kd_search_jmp region_in_search rectangle_in_region lo cl with
      | .error j => .error j
      | .ok r1 =>
        match kd_search_jmp region_in_search rectangle_in_region hi r1.2 with
        | .error j => .error j
        | .ok r2 => .ok (r1.1 + r2.1, r2.2)

/-- `fio_check` (autoroute.c 1597-1628); the `longjmp` is the error value, with
the closure after `fio->intersect = rb`. -/
def fio_check (P : AutoRouteParametersType) (boxes : Nat → routebox_t)
    (region_or_box : BoxType ⊕ pathbox) (fio : fio_info) : Except fio_info Bool :=
  let ebox := ROTATEBOX_TO_NORTH (fio.edge.rb.rb boxes).box fio.edge.expand_dir
  let rbox := ROTATEBOX_TO_NORTH
    (match region_or_box with
      | .inl region => bloat_box region fio.maxbloat
      | .inr box => bloat_routebox P (box.rb boxes)) fio.edge.expand_dir
  if rbox.X2 ≤ ebox.X1 then .ok false
  else if rbox.X1 ≥ ebox.X2 then .ok false
  else if rbox.Y1 > ebox.Y1 then .ok false
  else if rbox.Y2 < ebox.Y1 then .ok false
  else match region_or_box with
    | .inl _ => .ok true
    | .inr rb =>
      if rb = nonorphan_parent fio.edge.rb then .ok false
      else .error { fio with intersect := some rb }

/-- `FindIntersectingObstacle` (autoroute.c 1639-1646). -/
def FindIntersectingObstacle (P : AutoRouteParametersType) (boxes : Nat → routebox_t)
    (kdtree : kdtree_t pathbox) (e : edge_t) (maxbloat : Int) : Option pathbox :=
  match kd_search_jmp (fun region fio => fio_check P boxes (.inl region) fio)
      (fun box fio => (fio_check P boxes (.inr box) fio).map (fun r => (r, fio))) kdtree
      { edge := e, maxbloat := maxbloat, intersect := none } with
  | .ok r => r.2.intersect
  | .error fio => fio.intersect

/-- The invariant of the search of `FindBlocker` for the edge `e`, over the
boxes dealt with so far: without a blocker none of them qualifies, and a
blocker is one of them, qualifies, is at distance `min_dist`, and none of them
that qualifies is nearer. -/
def FindBlocker_inv (P : AutoRouteParametersType) (boxes : Nat → routebox_t) (e : edge_t)
    (maxbloat : Int) (fbi : FindBlocker_info) (seen : List pathbox) : Prop :=
  fbi.expansion_edge = e ∧ fbi.maxbloat = maxbloat ∧
  (fbi.blocker = none → ∀ x ∈ seen, ¬ blocker_candidate P boxes e x) ∧
  (∀ b, fbi.blocker = some b → b ∈ seen ∧ blocker_candidate P boxes e b ∧
    fbi.min_dist = blocker_dist P boxes e b ∧
    ∀ x ∈ seen, blocker_candidate P boxes e x → blocker_dist P boxes e b ≤ blocker_dist P boxes e x)

/-- Five boxes of a board on layer group 0: a source pin, two lines above it,
a pin far to the right, and a line of the pin's own subnet (`RouteOne` has set
its source flag) that is not fixed and reaches down to the pin. -/
def blockerBoxes : Nat → routebox_t := fun p =>
  if p = 0 then
    { box := ⟨100, 100, 110, 110⟩, group := 0, type := .PIN,
      flags := { fixed := true, source := true }, augStyle := ⟨goodStyle, true⟩ }
  else if p = 1 then
    { box := ⟨90, 40, 130, 60⟩, group := 0, type := .LINE, flags := { fixed := true },
      augStyle := ⟨goodStyle, true⟩ }
  else if p = 2 then
    { box := ⟨90, 70, 130, 80⟩, group := 0, type := .LINE, flags := { fixed := true },
      augStyle := ⟨goodStyle, true⟩ }
  else if p = 3 then
    { box := ⟨300, 0, 310, 10⟩, group := 0, type := .PIN, flags := { fixed := true },
      augStyle := ⟨goodStyle, true⟩ }
  else
    { box := ⟨105, 80, 108, 90⟩, group := 0, type := .LINE, flags := { source := true },
      augStyle := ⟨goodStyle, true⟩ }

/-- The edge on the north side of the source pin. -/
def blockerEdge : edge_t := { rb := .board 0, cost := 0, expand_dir := 0 }

/-- A layer tree with the source pin, the two lines above it and the far pin. -/
def blockerTree : kdtree_t pathbox :=
  .node ⟨90, 0, 310, 110⟩
    (.node ⟨90, 40, 130, 110⟩ (.leaf (.board 0)) (.leaf (.board 1)))
    (.node ⟨90, 0, 310, 80⟩ (.leaf (.board 2)) (.leaf (.board 3)))

/-! ## Drawing the route: `RD_DrawLine` and `RD_DrawManhattanLine` -/

/-- Modelled from the spec: `point_in_box` of `box.h`, which is not among the
sources; a box is closed on the top and left and open on the bottom and
right. -/
def point_in_box (box : BoxType) (X Y : Int) : Bool :=
  decide (X ≥ box.X1) && decide (Y ≥ box.Y1) && decide (X < box.X2) && decide (Y < box.Y2)

/-- `RD_DrawLine` (autoroute.c 1911-1953): the route boxes it makes, none for a
segment of length zero and one otherwise.  The assertions are left out, and so
are the rings, the tree and the via space that the new box is added to. -/
def RD_DrawLine (P : AutoRouteParametersType) (X1 Y1 X2 Y2 : Int) (halfthick : Int)
    (group : Nat) (is_bad is_45 : Bool) : List routebox_t :=
  if X1 = X2 ∧ Y1 = Y2 then []
  else
    [{ box := ⟨min X1 X2 - halfthick, min Y1 Y2 - halfthick, max X1 X2 + halfthick,
         max Y1 Y2 + halfthick⟩
       group := group
       type := .LINE
       flags :=
        { fixed := false, is_odd := P.is_odd, is_bad := is_bad, nonstraight := is_45
          bl_to_ur := is_45 && (decide (min X1 X2 = X1) != decide (min Y1 Y2 = Y1)) }
       augStyle := P.augStyle }]

/-- The knee of `RD_DrawManhattanLine` (autoroute.c 1961-1966). -/
def RD_DrawManhattanLine_knee (bbox : BoxType) (start end_ : PointType) : PointType :=
  if point_in_box bbox end_.X start.Y then { start with X := end_.X }
  else { start with Y := end_.Y }

/-- `RD_DrawManhattanLine` (autoroute.c 1954-1997): the route boxes it makes,
in the order of the calls of `RD_DrawLine`.  The test of the source is
`if (1 || !AutoRouteParameters.is_smoothing)`. -/
def RD_DrawManhattanLine (P : AutoRouteParametersType) (bbox : BoxType)
    (start end_ : PointType) (halfthick : Int) (group : Nat) (is_bad : Bool) :
    List routebox_t :=
  let knee := RD_DrawManhattanLine_knee bbox start end_
  if true ∨ ¬ P.is_smoothing = true then
    -- draw standard manhattan paths
    RD_DrawLine P start.X start.Y knee.X knee.Y halfthick group is_bad false ++
    RD_DrawLine P knee.X knee.Y end_.X end_.Y halfthick group is_bad false
  else
    -- draw 45-degree path across knee
    let len45 := min |start.X - end_.X| |start.Y - end_.Y|
    let kneestart : PointType :=
      if knee.X = start.X then
        { knee with Y := knee.Y + (if knee.Y > start.Y then -len45 else len45) }
      else { knee with X := knee.X + (if knee.X > start.X then -len45 else len45) }
    let kneeend : PointType :=
      if knee.X = end_.X then
        { knee with Y := knee.Y + (if knee.Y > end_.Y then -len45 else len45) }
      else { knee with X := knee.X + (if knee.X > end_.X then -len45 else len45) }
    RD_DrawLine P start.X start.Y kneestart.X kneestart.Y halfthick group is_bad false ++
    RD_DrawLine P kneestart.X kneestart.Y kneeend.X kneeend.Y halfthick group is_bad true ++
    RD_DrawLine P kneeend.X kneeend.Y end_.X end_.Y halfthick group is_bad false

/-- The parameters of the smoothing pass `6` for a net of style `goodStyle`. -/
def smoothingParameters : AutoRouteParametersType :=
  InitAutoRouteParameters 6 ⟨goodStyle, true⟩ false true

/-! ## The rings of a net

A route box is on four doubly linked rings.  Route boxes are referred to by
index, and the links of all boxes are kept in one table per ring. -/

/-- The enumeration `boxlist`. -/
inductive boxlist
  | NET | SUBNET | ORIGINAL | DIFFERENT_NET
deriving DecidableEq, Repr

/-- The record `struct routebox_list`: the two links of a box on one ring. -/
structure routebox_list where
  next : Nat
  prev : Nat
deriving DecidableEq, Repr

/-- The fields `same_net`, `same_subnet`, `original_subnet` and `different_net`
of all route boxes. -/
structure netlists where
  same_net : Nat → routebox_list
  same_subnet : Nat → routebox_list
  original_subnet : Nat → routebox_list
  different_net : Nat → routebox_list

/-- The table of one ring. -/
def netlists.table (L : netlists) : boxlist → Nat → routebox_list
  | .NET => L.same_net
  | .SUBNET => L.same_subnet
  | .ORIGINAL => L.original_subnet
  | .DIFFERENT_NET => L.different_net

/-- `__select_list` (autoroute.c 378-395), read: the links of `r` on the ring. -/
def __select_list (L : netlists) (r : Nat) (which : boxlist) : routebox_list :=
  L.table which r

/-- An assignment through the pointer that `__select_list` returns. -/
def netlists.store (L : netlists) (r : Nat) (which : boxlist) (rl : routebox_list) : netlists :=
  match which with
  | .NET => { L with same_net := fun u => if u = r then rl else L.same_net u }
  | .SUBNET => { L with same_subnet := fun u => if u = r then rl else L.same_subnet u }
  | .ORIGINAL => { L with original_subnet := fun u => if u = r then rl else L.original_subnet u }
  | .DIFFERENT_NET => { L with different_net := fun u => if u = r then rl else L.different_net u }

/-- `RemoveFromNet` (autoroute.c 431-451). -/
def RemoveFromNet (L : netlists) (a : Nat) (which : boxlist) : netlists :=
  let al := __select_list L a which
  let an := al.next
  let ap := al.prev
  if an = a ∨ ap = a then L
  else
    let L := L.store an which { __select_list L an which with prev := ap }
    let L := L.store ap which { __select_list L ap which with next := an }
    L.store a which { next := a, prev := a }

/-- The macro `LIST_LOOP` (autoroute.c 107-115) on the ring whose links the
function `next` reads from the state: the command is run on `x`, with the next
box saved before, until the next box is `init`.  The first argument bounds the
number of rounds; there is no result when it is used up. -/
def LIST_LOOP {σ : Type} (next : σ → Nat → Nat) (command : Nat → σ → σ) (init : Nat) :
    Nat → Nat → σ → Option σ
  | 0, _, _ => none
  | fuel + 1, x, s =>
    let __next_one__ := next s x
    let s := command x s
    if __next_one__ = init then some s else LIST_LOOP next command init fuel __next_one__ s

/-- `ResetSubnet` (autoroute.c 965-971). -/
def ResetSubnet (L : netlists) (net : Nat) (fuel : Nat) : Option netlists :=
  LIST_LOOP (fun L x => (L.same_net x).next)
    (fun rb L => L.store rb .SUBNET (L.original_subnet rb)) net fuel net L

/-- The command of the rip-up loop of `RouteAll` (autoroute.c 2775-2788) on the
box `p`: a box that is not fixed is taken off the same-net and the same-subnet
ring.  The via space and the layer tree, which the box is also removed from,
are left out. -/
def RouteAll_ripup_command (boxes : Nat → routebox_t) (p : Nat) (L : netlists) : netlists :=
  if (boxes p).flags.fixed = false then RemoveFromNet (RemoveFromNet L p .NET) p .SUBNET
  else L

/-- The rip-up of `RouteAll` for one net in a pass `i > 0`
(autoroute.c 2772-2791): the loop over the same-net ring that takes every box
that is not fixed off the rings, and then `ResetSubnet`. -/
def RouteAll_ripup (boxes : Nat → routebox_t) (L : netlists) (net : Nat) (fuel : Nat) :
    Option netlists :=
  match LIST_LOOP (fun L x => (L.same_net x).next) (RouteAll_ripup_command boxes) net fuel net
      L with
  | some L => ResetSubnet L net fuel
  | none => none

/-- Two boxes are linked to each other on a ring: the second is the next of
the first and the first is the previous of the second. -/
def Link (lk : Nat → routebox_list) (a b : Nat) : Prop := (lk a).next = b ∧ (lk b).prev = a

/-- The links of a table are those of rings: next and previous undo each
other. -/
def ring_links (lk : Nat → routebox_list) : Prop :=
  ∀ u, (lk (lk u).next).prev = u ∧ (lk (lk u).prev).next = u

/-- What `RemoveFromNet` does to the table of its ring. -/
def unlink (lk : Nat → routebox_list) (a : Nat) : Nat → routebox_list :=
  if (lk a).next = a ∨ (lk a).prev = a then lk
  else fun u =>
    { next := if u = a then a else if u = (lk a).prev then (lk a).next else (lk u).next
      prev := if u = a then a else if u = (lk a).next then (lk a).prev else (lk u).prev }

/-- Three boxes of one net: a fixed pin, a line laid down by the router, and a
second fixed pin. -/
def ringBoxes : Nat → routebox_t := fun p =>
  if p = 1 then
    { box := ⟨10, 0, 50, 10⟩, group := 0, type := .LINE, flags := {},
      augStyle := ⟨goodStyle, true⟩ }
  else
    { box := ⟨(50 : Int) * p, 0, 50 * p + 10, 10⟩, group := 0, type := .PIN,
      flags := { fixed := true }, augStyle := ⟨goodStyle, true⟩ }

/-- The rings of the three boxes after a pass that has joined the two pins by
the line: the same-net ring is `0, 1, 2`, the line is on the same-subnet ring
of pin `0`, and every box is alone on its original-subnet ring. -/
def ringLists : netlists :=
  { same_net := fun u =>
      if u = 0 then ⟨1, 2⟩ else if u = 1 then ⟨2, 0⟩ else if u = 2 then ⟨0, 1⟩ else ⟨u, u⟩
    same_subnet := fun u => if u = 0 then ⟨1, 1⟩ else if u = 1 then ⟨0, 0⟩ else ⟨u, u⟩
    original_subnet := fun u => ⟨u, u⟩
    different_net := fun u => ⟨u, u⟩ }

/-- Two states of the search with the same board boxes and the same
`touched_vec`. -/
def same_touched (s s2 : routeone_state) : Prop :=
  s2.boxes = s.boxes ∧ s2.touched_vec = s.touched_vec

/-- The invariant of the main loop of `RouteOne` for the touched flags: a box
of the board that has the flag had it before the search or is in
`touched_vec`. -/
def TouchInv (boxes : Nat → routebox_t) (s : routeone_state) : Prop :=
  ∀ q, (s.boxes q).flags.touched = true → (boxes q).flags.touched = true ∨ q ∈ s.touched_vec

/-- `share_edge` (autoroute.c 1456-1464). -/
def share_edge (child parent : BoxType) : Bool :=
  (decide (child.X1 = parent.X2) || decide (child.X2 = parent.X1) ||
   decide (child.Y1 = parent.Y2) || decide (child.Y2 = parent.Y1)) &&
  ((decide (parent.X1 ≤ child.X1) && decide (child.X2 ≤ parent.X2)) ||
   (decide (parent.Y1 ≤ child.Y1) && decide (child.Y2 ≤ parent.Y2)))

/-- `edge_intersect` (autoroute.c 1466-1472). -/
def edge_intersect (child parent : BoxType) : Bool :=
  decide (child.X1 ≤ parent.X2) && decide (child.X2 ≥ parent.X1) &&
  decide (child.Y1 ≤ parent.Y2) && decide (child.Y2 ≥ parent.Y1)

/-- `MergeNets` (autoroute.c 409-429); every assignment goes through the
pointer to the links of the box as they are at that moment. -/
def MergeNets (L : netlists) (a b : Nat) (which : boxlist) : netlists :=
  let an := (__select_list L a which).next
  let bn := (__select_list L b which).next
  let L := L.store b which { __select_list L b which with next := an }
  let L := L.store an which { __select_list L an which with prev := b }
  let L := L.store a which { __select_list L a which with next := bn }
  L.store bn which { __select_list L bn which with prev := a }

/-- What `MergeNets` does to the table of its ring. -/
def splice (lk : Nat → routebox_list) (a b : Nat) : Nat → routebox_list :=
  fun u =>
    { next := if u = a then (lk b).next else if u = b then (lk a).next else (lk u).next
      prev := if u = (lk b).next then a else if u = (lk a).next then b else (lk u).prev }

/-- The table after an assignment to the `next` link of the box `r`. -/
def set_next (lk : Nat → routebox_list) (r v : Nat) : Nat → routebox_list :=
  fun u => if u = r then { lk r with next := v } else lk u

/-- The table after an assignment to the `prev` link of the box `r`. -/
def set_prev (lk : Nat → routebox_list) (r v : Nat) : Nat → routebox_list :=
  fun u => if u = r then { lk r with prev := v } else lk u

/-- Modelled from the spec: the macro `ROTATEBOX_FROM_NORTH` of `box.h`, which
is not among the sources; it undoes `ROTATEBOX_TO_NORTH`. -/
def ROTATEBOX_FROM_NORTH (box : BoxType) (dir : Nat) : BoxType :=
  match dir with
  | 1 => { X1 := -box.Y2, Y1 := box.X1, X2 := -box.Y1, Y2 := box.X2 }
  | 2 => { X1 := -box.X2, Y1 := -box.Y2, X2 := -box.X1, Y2 := -box.Y1 }
  | 3 => { X1 := box.Y1, Y1 := -box.X2, X2 := box.Y2, Y2 := -box.X1 }
  | _ => box

/-- The record `struct broken_boxes`. -/
structure broken_boxes where
  left : BoxType
  center : BoxType
  right : BoxType
  is_valid_left : Bool
  is_valid_center : Bool
  is_valid_right : Bool
deriving DecidableEq, Repr

/-- `break_box_edge` (autoroute.c 1418-1454); the assertions are left out. -/
def break_box_edge (P : AutoRouteParametersType) (original : BoxType) (which_edge : Nat)
    (breaker : routebox_t) : broken_boxes :=
  let origbox := ROTATEBOX_TO_NORTH original which_edge
  let breakbox := ROTATEBOX_TO_NORTH (bloat_routebox P breaker) which_edge
  let left : BoxType :=
    { X1 := origbox.X1, Y1 := origbox.Y1, X2 := breakbox.X1, Y2 := origbox.Y1 }
  let center : BoxType :=
    { X1 := max breakbox.X1 origbox.X1, Y1 := origbox.Y1,
      X2 := min breakbox.X2 origbox.X2, Y2 := origbox.Y1 }
  let right : BoxType :=
    { X1 := breakbox.X2, Y1 := origbox.Y1, X2 := origbox.X2, Y2 := origbox.Y1 }
  { left := ROTATEBOX_FROM_NORTH left which_edge
    center := ROTATEBOX_FROM_NORTH center which_edge
    right := ROTATEBOX_FROM_NORTH right which_edge
    is_valid_left := decide (left.X1 < left.X2)
    is_valid_center := decide (center.X1 < center.X2)
    is_valid_right := decide (right.X1 < right.X2) }

/-- A coordinate along the edge lies on a piece of the edge, in the frame
rotated to north. -/
def on_piece (piece : BoxType) (x : Int) : Prop := piece.X1 ≤ x ∧ x < piece.X2

instance (piece : BoxType) (x : Int) : Decidable (on_piece piece x) := by
  unfold on_piece; infer_instance

/-- A line that is fixed, for use as a breaker. -/
def breakerLine : routebox_t :=
  { box := ⟨120, 40, 150, 60⟩, group := 0, type := .LINE, flags := { fixed := true },
    augStyle := ⟨goodStyle, true⟩ }

/-- The interval of the cells of column (or row) `i` of the 3x3 decomposition
of the interval `lo..hi` around `a1..a2`. -/
def cell_interval (lo hi a1 a2 : Int) (i : Nat) : Int × Int :=
  match i with
  | 0 => (lo, min hi a1)
  | 1 => (max lo a1, min hi a2)
  | _ => (max lo a2, hi)

/-- Modelled from the spec: `shrink_box` of `box.h`, which is not among the
sources; the inverse of `bloat_box`. -/
def shrink_box (b : BoxType) (d : Int) : BoxType :=
  { X1 := b.X1 + d, Y1 := b.Y1 + d, X2 := b.X2 - d, Y2 := b.Y2 - d }

/-- The end points of the line that `IronDownAllUnfixedPaths` creates for a
route box of type `LINE` (autoroute.c 2875-2891): the box is shrunk by the half
thickness of its style, and `X1` and `X2` are swapped if `bl_to_ur` is set. -/
def IronDownAllUnfixedPaths_line (p : routebox_t) : PointType × PointType :=
  let halfwidth := HALF_THICK p.augStyle.style.Thick
  let b := shrink_box p.box halfwidth
  let b := if p.flags.bl_to_ur = true then { b with X1 := b.X2, X2 := b.X1 } else b
  (⟨b.X1, b.Y1⟩, ⟨b.X2, b.Y2⟩)

/-- The macro `BLOAT` (autoroute.c 90-93): the keepaway of a style plus the
larger of its via radius and its line half thickness. -/
def BLOAT (style : RouteStyleType) : Int :=
  style.Keepaway + HALF_THICK (max style.Thick style.Diameter)

/-- The value of `rd->max_bloat` after `CreateRouteData`: it starts as the
bloat of the default style (autoroute.c 770) and is raised to the bloat of the
style of every route box of a net (autoroute.c 869-878). -/
def CreateRouteData_max_bloat (defaultStyle : RouteStyleType) (styles : List RouteStyleType) :
    Int :=
  styles.foldl (fun max_bloat style => max max_bloat (BLOAT style)) (BLOAT defaultStyle)

/-- A style with thick lines and a small keepaway. -/
def thickStyle : RouteStyleType := { Thick := 40, Diameter := 40, Hole := 20, Keepaway := 10 }

/-- A style with thin lines and a large keepaway. -/
def wideStyle : RouteStyleType := { Thick := 10, Diameter := 10, Hole := 5, Keepaway := 20 }

/-- The parameters of pass `0` for a net of style `thickStyle`. -/
def thickParameters : AutoRouteParametersType :=
  InitAutoRouteParameters 0 ⟨thickStyle, true⟩ true false

/-- Two boxes on layer group 0: a source pin of style `thickStyle` and, up and
to the right of it, a line of style `wideStyle`. -/
def bloatBoxes : Nat → routebox_t := fun p =>
  if p = 0 then
    { box := ⟨100, 100, 110, 110⟩, group := 0, type := .PIN,
      flags := { fixed := true, source := true }, augStyle := ⟨thickStyle, true⟩ }
  else
    { box := ⟨145, 40, 160, 60⟩, group := 0, type := .LINE, flags := { fixed := true },
      augStyle := ⟨wideStyle, true⟩ }

/-- A layer tree with the line under a region that is the box of the line. -/
def bloatTree : kdtree_t pathbox := .node ⟨145, 40, 160, 60⟩ (.leaf (.board 1)) .nil

/-! ## The neighbour search of the placer -/

/-- The record `struct kd_neighbor_info`. -/
structure kd_neighbor_info where
  neighbor : Option BoxType
  trap : BoxType
  search_dir : Nat
deriving DecidableEq, Repr

/-- `__kd_find_neighbor_reg_in_sea` (autoplace.c 240-256). -/
def __kd_find_neighbor_reg_in_sea (region : BoxType) (ni : kd_neighbor_info) : Bool :=
  let query := ROTATEBOX_TO_NORTH region ni.search_dir
  decide (query.Y2 > ni.trap.Y1) && decide (query.Y1 < ni.trap.Y2) &&
  decide (query.X2 + ni.trap.Y2 > ni.trap.X1 + query.Y1) &&
  decide (query.X1 + query.Y1 < ni.trap.X2 + ni.trap.Y2)

/-- `__kd_find_neighbor_rect_in_reg` (autoplace.c 257-279). -/
def __kd_find_neighbor_rect_in_reg (box : BoxType) (ni : kd_neighbor_info) :
    Bool × kd_neighbor_info :=
  let query := ROTATEBOX_TO_NORTH box ni.search_dir
  let r := decide (query.Y2 > ni.trap.Y1) && decide (query.Y1 < ni.trap.Y2) &&
    decide (query.X2 + ni.trap.Y2 > ni.trap.X1 + query.Y1) &&
    decide (query.X1 + query.Y1 < ni.trap.X2 + ni.trap.Y2)
  let r := r && decide (query.Y2 ≤ ni.trap.Y2)
  if r then (r, { ni with trap := { ni.trap with Y1 := query.Y2 }, neighbor := some box })
  else (r, ni)

/-- `kd_find_neighbor` (autoplace.c 283-308); `MaxWidth` and `MaxHeight` are
those of the board. -/
def kd_find_neighbor (MaxWidth MaxHeight : Int) (kdtree : kdtree_t BoxType) (box : BoxType)
    (search_direction : Nat) : Option BoxType :=
  let bbox := ROTATEBOX_TO_NORTH ⟨0, 0, MaxWidth, MaxHeight⟩ search_direction
  let trap := ROTATEBOX_TO_NORTH box search_direction
  let trap := { trap with Y2 := trap.Y1 }
  let trap := { trap with Y1 := bbox.Y1 }
  (kd_search __kd_find_neighbor_reg_in_sea __kd_find_neighbor_rect_in_reg kdtree
    { neighbor := none, trap := trap, search_dir := search_direction }).2.neighbor

/-- The step from one pass of `RouteAll` to the next (autoroute.c 2760-2834):
a pass is given by its index and the router state it starts on.  The earlier
pass `a` is a routing pass, the later pass `b` starts on the state that the
body of `a` leaves, and its index is `limit` when the body of `a` ended with
`conflict_subnets == 0` and the next index otherwise. -/
def PassStep {σ : Type} (passBody : Nat → Bool → Bool → σ → σ × routeall_status)
    (limit : Nat) (a b : Nat × σ) : Prop :=
  a.1 < limit ∧
  b.2 = (passBody a.1 (decide (a.1 < limit)) (a.1 == limit) a.2).1 ∧
  b.1 = if (passBody a.1 (decide (a.1 < limit)) (a.1 == limit) a.2).2.conflict_subnets = 0
        then limit else a.1 + 1

/-- The record of a pass that is given by its index and the state it starts
on: the flags are `i < limit` and `i == limit`, the counters are those the
body of the pass returns on that state. -/
def PassRecord_of {σ : Type} (passBody : Nat → Bool → Bool → σ → σ × routeall_status)
    (limit : Nat) (p : Nat × σ) : PassRecord :=
  { i := p.1, with_conflicts := decide (p.1 < limit), is_smoothing := (p.1 == limit),
    ras := (passBody p.1 (decide (p.1 < limit)) (p.1 == limit) p.2).2 }

/-- A pass body for three subnets that keeps the list of the passes it was
called for as its state; with conflicts allowed, pass `i` ends with `2 - i`
conflicts. -/
def countBody : Nat → Bool → Bool → List (Nat × Bool × Bool) →
    List (Nat × Bool × Bool) × routeall_status :=
  fun i with_conflicts is_smoothing s =>
    (s ++ [(i, with_conflicts, is_smoothing)],
     { total_subnets := 3,
       routed_subnets := if with_conflicts then 1 + (i : Int) else 3,
       conflict_subnets := if with_conflicts then 2 - (i : Int) else 0 })

/-- The parameters of pass `1` for a net of style `goodStyle`. -/
def pass1Parameters : AutoRouteParametersType :=
  InitAutoRouteParameters 1 ⟨goodStyle, true⟩ true false

/-- The state after `e->rb->underlying->flags.touched = 1` and
`vector_append (touched_vec, e->rb->underlying)` (autoroute.c 2366-2367) for
the underlying box `u`. -/
def touch_underlying (s : routeone_state) (u : Nat) : routeone_state :=
  { s with
    boxes := fun q => if q = u then
        { s.boxes u with flags := { (s.boxes u).flags with touched := true } }
      else s.boxes q
    touched_vec := u :: s.touched_vec }

/-- The state after the test for a target (autoroute.c 2369-2370) that
follows the touch of the underlying box `u` of the interior edge `e`. -/
def touch_target (s : routeone_state) (e : edge_t) (u : Nat) : routeone_state :=
  if (s.boxes u).flags.target = true then best_path_candidate (touch_underlying s u) e u
  else touch_underlying s u

/-- A state of the main loop of `RouteOne` in pass `1` on the boxes
`searchBoxes`, with the flags `RouteOne` sets for the net of the pins `0` and
`1`, whose work heap holds one interior edge over the box `u`, made by
`CreateEdgeWithConflicts` from the north edge of the source pin. -/
def touchState (u : Nat) : routeone_state :=
  { boxes := RouteOne_flags searchBoxes searchInput,
    workheap := [CreateEdgeWithConflicts pass1Parameters (RouteOne_flags searchBoxes searchInput)
      u (CreateEdge (.board 0) 0 0) 0],
    best_path := none, best_target := none, best_cost := 0, area_vec := [],
    touched_vec := [], created := [] }

/-- The inputs of an iteration in which `BreakEdges` finds nothing in the way
of the four edges it is given. -/
def touchStep : expand_input :=
  { searchStep none with
    break_inputs := [⟨false, none, none, none, none, false, 0⟩,
      ⟨false, none, none, none, none, false, 0⟩, ⟨false, none, none, none, none, false, 0⟩,
      ⟨false, none, none, none, none, false, 0⟩] }

/-- Modelled from the spec: `box_intersect` of `box.h`, which is not among the
sources; two half-open boxes have a point in common. -/
def box_intersect (a b : BoxType) : Bool :=
  decide (a.X1 < b.X2) && decide (b.X1 < a.X2) && decide (a.Y1 < b.Y2) && decide (b.Y1 < a.Y2)

/-- The record `struct foib_info` without the jump buffer. -/
structure foib_info where
  box : BoxType
  maxbloat : Int
  intersect : Option pathbox
deriving DecidableEq, Repr

/-- `foib_check` (autoroute.c 1657-1673); the `longjmp` is the error value,
with the closure after `foib->intersect = rb`. -/
def foib_check (P : AutoRouteParametersType) (boxes : Nat → routebox_t)
    (region_or_box : BoxType ⊕ pathbox) (foib : foib_info) : Except foib_info Bool :=
  let rbox := match region_or_box with
    | .inl region => bloat_box region foib.maxbloat
    | .inr box => bloat_routebox P (box.rb boxes)
  if box_intersect rbox foib.box = false then .ok false
  else match region_or_box with
    | .inl _ => .ok true
    | .inr rb => .error { foib with intersect := some rb }

/-- `FindOneInBox` (autoroute.c 1684-1691). -/
def FindOneInBox (P : AutoRouteParametersType) (boxes : Nat → routebox_t)
    (kdtree : kdtree_t pathbox) (box : BoxType) (maxbloat : Int) : Option pathbox :=
  match kd_search_jmp (fun region foib => foib_check P boxes (.inl region) foib)
      (fun rb foib => (foib_check P boxes (.inr rb) foib).map (fun r => (r, foib))) kdtree
      { box := box, maxbloat := maxbloat, intersect := none } with
  | .ok r => r.2.intersect
  | .error foib => foib.intersect

/-- Three boxes of a board on layer group 0: a pin, a fixed line of the pin's
subnet that ends on the pin, and a second pin of the same net far to the
right that is not connected yet. -/
def ownSubnetBoxes : Nat → routebox_t := fun p =>
  if p = 0 then
    { box := ⟨100, 100, 110, 110⟩, group := 0, type := .PIN, flags := { fixed := true },
      augStyle := ⟨goodStyle, true⟩ }
  else if p = 1 then
    { box := ⟨104, 60, 107, 105⟩, group := 0, type := .LINE, flags := { fixed := true },
      augStyle := ⟨goodStyle, true⟩ }
  else
    { box := ⟨300, 0, 310, 10⟩, group := 0, type := .PIN, flags := { fixed := true },
      augStyle := ⟨goodStyle, true⟩ }

/-- Three boxes of a board on layer group 0: a pin, a line of another net laid
down earlier in pass `0`, which is not fixed and keeps the keepaway of 10 from
the pin, and a second pin of the net of the first pin far to the right. -/
def otherNetBoxes : Nat → routebox_t := fun p =>
  if p = 0 then
    { box := ⟨100, 100, 110, 110⟩, group := 0, type := .PIN, flags := { fixed := true },
      augStyle := ⟨goodStyle, true⟩ }
  else if p = 1 then
    { box := ⟨121, 95, 160, 105⟩, group := 0, type := .LINE, flags := { },
      augStyle := ⟨goodStyle, true⟩ }
  else
    { box := ⟨300, 0, 310, 10⟩, group := 0, type := .PIN, flags := { fixed := true },
      augStyle := ⟨goodStyle, true⟩ }

/-- A call of `RouteOne` from the pin `0` for a net with the given rings. -/
def obstacleInput (same_net same_subnet : List Nat) : routeone_input :=
  { same_net := same_net, same_subnet := same_subnet, to_ := none, source_cost := fun _ _ => 0
    break_inputs := [], iterations := [] }

/-- The layer tree of the board `ownSubnetBoxes`. -/
def ownSubnetTree : kdtree_t pathbox :=
  .node ⟨100, 0, 310, 110⟩
    (.node ⟨100, 60, 110, 110⟩ (.leaf (.board 0)) (.leaf (.board 1))) (.leaf (.board 2))

/-- The layer tree of the board `otherNetBoxes`. -/
def otherNetTree : kdtree_t pathbox :=
  .node ⟨100, 0, 310, 110⟩
    (.node ⟨100, 95, 160, 110⟩ (.leaf (.board 0)) (.leaf (.board 1))) (.leaf (.board 2))

/-! ## Theorems -/

/-- The log of the loop of `RouteAll` started at a pass `i <= limit` with
enough iterations left: it begins with pass `i`, each pass is followed by the
pass `NextPass` names, and it ends with pass `limit`, whose counters are the
result. -/
theorem RouteAll_loop_spec {σ : Type}
    (passBody : Nat → Bool → Bool → σ → σ × routeall_status) (limit : Nat) :
    ∀ (fuel i : Nat) (s : σ) (ras : routeall_status), i ≤ limit → limit + 1 ≤ fuel + i →
      (∃ rest, (RouteAll_loop passBody limit fuel i s ras).2.2 =
          { i := i, with_conflicts := decide (i < limit), is_smoothing := (i == limit),
            ras := (passBody i (decide (i < limit)) (i == limit) s).2 } :: rest) ∧
      List.Chain' (NextPass limit) (RouteAll_loop passBody limit fuel i s ras).2.2 ∧
      (RouteAll_loop passBody limit fuel i s ras).2.2.getLast? =
        some { i := limit, with_conflicts := false, is_smoothing := true,
               ras := (RouteAll_loop passBody limit fuel i s ras).1 } := by
  intro fuel
  induction fuel with
  | zero => intro i s ras hi hf; omega
  | succ fuel ih =>
    intro i s ras hi hf
    simp only [RouteAll_loop, if_pos hi]
    generalize passBody i (decide (i < limit)) (i == limit) s = r
    rcases Nat.lt_or_ge i limit with hlt | hge
    · -- a routing pass: the loop goes on
      have hi1 : (if r.2.conflict_subnets = 0 ∧ i < limit then limit - 1 else i) + 1 =
          if r.2.conflict_subnets = 0 then limit else i + 1 := by
        by_cases hc : r.2.conflict_subnets = 0
        · rw [if_pos ⟨hc, hlt⟩, if_pos hc]; omega
        · rw [if_neg (fun h => hc h.1), if_neg hc]
      rw [hi1]
      have hstep : (if r.2.conflict_subnets = 0 then limit else i + 1) ≤ limit := by
        split <;> omega
      have hfuel : limit + 1 ≤ fuel + (if r.2.conflict_subnets = 0 then limit else i + 1) := by
        split <;> omega
      obtain ⟨⟨rest, hrest⟩, hchain, hlast⟩ := ih _ r.1 r.2 hstep hfuel
      refine ⟨⟨_, rfl⟩, ?_, ?_⟩
      · rw [hrest] at hchain ⊢
        exact List.Chain'.cons ⟨hlt, rfl⟩ hchain
      · rw [hrest] at hlast ⊢
        rw [List.getLast?_cons_cons]
        exact hlast
    · -- the last pass
      have hil : i = limit := by omega
      subst hil
      have hi1 : (if r.2.conflict_subnets = 0 ∧ i < i then i - 1 else i) + 1 = i + 1 := by
        rw [if_neg (fun h => Nat.lt_irrefl i h.2)]
      rw [hi1]
      have hrest : RouteAll_loop passBody i fuel (i + 1) r.1 r.2 = (r.2, r.1, []) := by
        cases fuel with
        | zero => rfl
        | succ f => simp only [RouteAll_loop, if_neg (Nat.not_succ_le_self i)]
      rw [hrest]
      simp

/-- C1: `AutoRoute` returns `False`, without reaching `CreateRouteData` and
with the board left as it was, whenever some style `i < NUM_STYLES` has
`Thick == 0` or `Keepaway == 0`. -/
theorem AutoRoute_rejects_zero_thick_or_keepaway (NUM_STYLES : Nat)
    (routing : PCBType → Bool → Bool × PCBType) (pcb : PCBType) (selected : Bool)
    (i : Nat) (hi : i < NUM_STYLES)
    (h : (pcb.RouteStyle i).Thick = 0 ∨ (pcb.RouteStyle i).Keepaway = 0) :
    (AutoRoute NUM_STYLES routing pcb selected).changed = false ∧
    (AutoRoute NUM_STYLES routing pcb selected).routeDataBuilt = false ∧
    (AutoRoute NUM_STYLES routing pcb selected).board = pcb := by
  have hany : (List.range NUM_STYLES).any (AutoRoute_styleTest pcb) = true := by
    rw [List.any_eq_true]
    refine ⟨i, List.mem_range.mpr hi, ?_⟩
    rcases h with h | h <;> simp [AutoRoute_styleTest, h]
  simp [AutoRoute, hany]

theorem AutoRoute_rejects_zero_thick_or_keepaway_witness :
    (2 < 4 ∧ ((boardStyle2NoThick.RouteStyle 2).Thick = 0 ∨
        (boardStyle2NoThick.RouteStyle 2).Keepaway = 0)) ∧
    (AutoRoute 4 (fun b _ => (true, b)) boardStyle2NoThick false).changed = false ∧
    (AutoRoute 4 (fun b _ => (true, b)) boardStyle2NoThick false).routeDataBuilt = false ∧
    (AutoRoute 4 (fun b _ => (true, b)) boardStyle2NoThick false).board = boardStyle2NoThick :=
  ⟨⟨by decide, Or.inl rfl⟩,
    AutoRoute_rejects_zero_thick_or_keepaway 4 (fun b _ => (true, b)) boardStyle2NoThick false 2
      (by decide) (Or.inl rfl)⟩

/-- C2 (the code at the failing input): on a board whose style `0` has via
diameter `0` and drill hole `0`, and whose other styles are complete,
`AutoRoute` does not take the early return: it reaches `CreateRouteData` and
returns whatever the routing returns, here `True`. -/
theorem AutoRoute_accepts_zero_diameter_in_style0 :
    ((boardStyle0NoVia.RouteStyle 0).Diameter = 0 ∧ (boardStyle0NoVia.RouteStyle 0).Hole = 0) ∧
    (AutoRoute 4 (fun b _ => (true, b)) boardStyle0NoVia false).routeDataBuilt = true ∧
    (AutoRoute 4 (fun b _ => (true, b)) boardStyle0NoVia false).changed = true := by
  refine ⟨⟨rfl, rfl⟩, ?_, ?_⟩ <;> decide

/-- C4 (counterexample): in pass `0` the code stores `2 << 0 = 2`, not
`2 ^ min 15 0 = 1`. -/
theorem InitAutoRouteParameters_pass0_penalty :
    (InitAutoRouteParameters 0 ⟨goodStyle, true⟩ true false).LastConflictPenalty = 2 ∧
    (InitAutoRouteParameters 0 ⟨goodStyle, true⟩ true false).LastConflictPenalty ≠
      2 ^ (min 15 (2 * 0)) := by
  constructor <;> norm_num [InitAutoRouteParameters]

/-- C4 (amended): for every pass index `i`, `InitAutoRouteParameters` sets
`LastConflictPenalty` to `2 << min(15, 2i)`, that is `2 ^ (min(15, 2i) + 1)`. -/
theorem InitAutoRouteParameters_LastConflictPenalty (pass : Nat)
    (augStyle : AugmentedRouteStyleType) (with_conflicts is_smoothing : Bool) :
    (InitAutoRouteParameters pass augStyle with_conflicts is_smoothing).LastConflictPenalty =
      2 ^ (min 15 (2 * pass) + 1) := by
  simp only [InitAutoRouteParameters, Nat.shiftLeft_eq]
  rw [Nat.mul_comm pass 2, pow_succ]
  push_cast
  ring

theorem ABS_eq_abs (x : ℚ) : ABS x = |x| := by
  unfold ABS
  split
  · rename_i h; rw [abs_of_neg h]
  · rename_i h; rw [abs_of_nonneg (not_lt.mp h)]

/-- The direction penalty as a factor: `x + x * num / den = x * (1 + num / den)`. -/
theorem penalty_factor (P : AutoRouteParametersType) (x : ℚ) :
    x + (x * P.DirectionPenaltyNumerator) / P.DirectionPenaltyDenominator =
      x * (1 + P.DirectionPenaltyNumerator / P.DirectionPenaltyDenominator) := by
  ring

theorem penalty_factor_nonneg (P : AutoRouteParametersType)
    (hn : 0 ≤ P.DirectionPenaltyNumerator) (hd : 0 < P.DirectionPenaltyDenominator) :
    0 ≤ P.DirectionPenaltyNumerator / P.DirectionPenaltyDenominator :=
  div_nonneg hn (le_of_lt hd)

/-- A closed form of `cost_to_point`. -/
theorem cost_to_point_eq (P : AutoRouteParametersType)
    (hn : 0 ≤ P.DirectionPenaltyNumerator) (hd : 0 < P.DirectionPenaltyDenominator)
    (p1 : PointType) (l1 : Nat) (p2 : PointType) (l2 : Nat) :
    cost_to_point P p1 l1 p2 l2 =
      (if l1 % 2 = 1 ∧ l2 % 2 = 1 then
          |((p1.X - p2.X : Int) : ℚ)| *
            (1 + P.DirectionPenaltyNumerator / P.DirectionPenaltyDenominator)
        else |((p1.X - p2.X : Int) : ℚ)|) +
      (if l1 % 2 = 0 ∧ l2 % 2 = 0 then
          |((p1.Y - p2.Y : Int) : ℚ)| *
            (1 + P.DirectionPenaltyNumerator / P.DirectionPenaltyDenominator)
        else |((p1.Y - p2.Y : Int) : ℚ)|) +
      (if l1 ≠ l2 then P.ViaCost else 0) := by
  have hk : 0 ≤ 1 + P.DirectionPenaltyNumerator / P.DirectionPenaltyDenominator := by
    have := penalty_factor_nonneg P hn hd
    linarith
  have hx : (l1 % 2 ≠ 0 ∧ l2 % 2 ≠ 0) ↔ (l1 % 2 = 1 ∧ l2 % 2 = 1) := by omega
  have hy : (l1 % 2 ≠ 1 ∧ l2 % 2 ≠ 1) ↔ (l1 % 2 = 0 ∧ l2 % 2 = 0) := by omega
  simp only [cost_to_point, ABS_eq_abs, penalty_factor, hx, hy]
  split_ifs <;> simp only [abs_mul, abs_of_nonneg hk, add_zero]

/-- Along one axis, the distance from a coordinate to its clamp into a larger
interval is not larger than the distance to its clamp into a smaller one. -/
theorem clamp_dist_mono (x A B a b : Int) (hA : A ≤ a) (hab : a ≤ b) (hB : b ≤ B) :
    |x - (if x < A then A else if x > B - 1 then B - 1 else x)| ≤
    |x - (if x < a then a else if x > b - 1 then b - 1 else x)| := by
  split_ifs <;> simp only [abs_le, le_abs] <;> omega

theorem closest_point_dist_mono (p : PointType) (R t : BoxType) (ht : t.ordered)
    (hin : box_in_box R t = true) :
    |((p.X - (closest_point_in_box p R).X : Int) : ℚ)| ≤
      |((p.X - (closest_point_in_box p t).X : Int) : ℚ)| ∧
    |((p.Y - (closest_point_in_box p R).Y : Int) : ℚ)| ≤
      |((p.Y - (closest_point_in_box p t).Y : Int) : ℚ)| := by
  simp only [box_in_box, Bool.and_eq_true, decide_eq_true_eq] at hin
  obtain ⟨⟨⟨h1, h2⟩, h3⟩, h4⟩ := hin
  obtain ⟨ho1, ho2⟩ := ht
  constructor
  · have := clamp_dist_mono p.X R.X1 R.X2 t.X1 t.X2 h1 ho1 h2
    simp only [closest_point_in_box, ← Int.cast_abs, Int.cast_le]
    exact this
  · have := clamp_dist_mono p.Y R.Y1 R.Y2 t.Y1 t.Y2 h3 ho2 h4
    simp only [closest_point_in_box, ← Int.cast_abs, Int.cast_le]
    exact this

theorem pass0Parameters_DirectionPenalty :
    0 ≤ pass0Parameters.DirectionPenaltyNumerator ∧
    0 < pass0Parameters.DirectionPenaltyDenominator ∧ 0 ≤ pass0Parameters.ViaCost := by
  norm_num [pass0Parameters, InitAutoRouteParameters]

/-- C7: for two points on the same layer group `g` and a direction penalty
with `p_num >= 0` and `p_den > 0`, `cost_to_point` is `|dx| + |dy|` with `|dy|`
multiplied by `1 + p_num / p_den` when `g` is even and `|dx|` multiplied by it
when `g` is odd; the other delta is unscaled and no via cost is added. -/
theorem cost_to_point_same_group (P : AutoRouteParametersType)
    (hn : 0 ≤ P.DirectionPenaltyNumerator) (hd : 0 < P.DirectionPenaltyDenominator)
    (p1 p2 : PointType) (g : Nat) :
    cost_to_point P p1 g p2 g =
      if g % 2 = 0 then
        |((p1.X - p2.X : Int) : ℚ)| +
          |((p1.Y - p2.Y : Int) : ℚ)| *
            (1 + P.DirectionPenaltyNumerator / P.DirectionPenaltyDenominator)
      else
        |((p1.X - p2.X : Int) : ℚ)| *
            (1 + P.DirectionPenaltyNumerator / P.DirectionPenaltyDenominator) +
          |((p1.Y - p2.Y : Int) : ℚ)| := by
  rw [cost_to_point_eq P hn hd]
  rcases Nat.mod_two_eq_zero_or_one g with h | h
  · simp [h]
  · simp [h]

theorem cost_to_point_same_group_witness :
    (0 ≤ pass0Parameters.DirectionPenaltyNumerator ∧
      0 < pass0Parameters.DirectionPenaltyDenominator) ∧
    cost_to_point pass0Parameters ⟨0, 0⟩ 2 ⟨3, 4⟩ 2 =
      if 2 % 2 = 0 then
        |(((0 : Int) - 3 : Int) : ℚ)| +
          |(((0 : Int) - 4 : Int) : ℚ)| *
            (1 + pass0Parameters.DirectionPenaltyNumerator /
              pass0Parameters.DirectionPenaltyDenominator)
      else
        |(((0 : Int) - 3 : Int) : ℚ)| *
            (1 + pass0Parameters.DirectionPenaltyNumerator /
              pass0Parameters.DirectionPenaltyDenominator) +
          |(((0 : Int) - 4 : Int) : ℚ)| :=
  ⟨⟨pass0Parameters_DirectionPenalty.1, pass0Parameters_DirectionPenalty.2.1⟩,
    cost_to_point_same_group pass0Parameters pass0Parameters_DirectionPenalty.1
      pass0Parameters_DirectionPenalty.2.1 ⟨0, 0⟩ ⟨3, 4⟩ 2⟩

theorem cost_to_layerless_box_le (P : AutoRouteParametersType)
    (hV : 0 ≤ P.ViaCost) (hn : 0 ≤ P.DirectionPenaltyNumerator)
    (hd : 0 < P.DirectionPenaltyDenominator) (p : PointType) (g : Nat) (R : BoxType)
    (t : routebox_t) (ht : t.box.ordered) (hin : box_in_box R t.box = true) :
    cost_to_layerless_box P p g R ≤ cost_to_routebox P p g t := by
  obtain ⟨hx, hy⟩ := closest_point_dist_mono p R t.box ht hin
  have hk := penalty_factor_nonneg P hn hd
  have hxk := mul_le_mul_of_nonneg_right hx hk
  have hyk := mul_le_mul_of_nonneg_right hy hk
  have hxR := abs_nonneg ((p.X - (closest_point_in_box p R).X : Int) : ℚ)
  have hyR := abs_nonneg ((p.Y - (closest_point_in_box p R).Y : Int) : ℚ)
  simp only [cost_to_layerless_box, cost_to_routebox, cost_to_point_eq P hn hd, min_le_iff]
  by_cases hpar : g % 2 = t.group % 2
  · left
    split_ifs <;> first | omega | linarith
  · right
    split_ifs <;> first | omega | linarith

/-- C8: the region-level bound is a lower bound on the cost to every target
inside the region: for a cost point `p` on layer group `g`, a region `R` and a
target route box `t` (on any layer group) whose box has ordered coordinates
and lies in `R`, `cost_to_layerless_box p g R <= cost_to_routebox p g t`,
given `ViaCost >= 0`, a penalty numerator `>= 0` and a denominator `> 0`; hence
`__region_within_guess` accepts `R` whenever `t` is strictly cheaper than the
current guess. -/
theorem cost_to_layerless_box_lower_bound (P : AutoRouteParametersType)
    (hV : 0 ≤ P.ViaCost) (hn : 0 ≤ P.DirectionPenaltyNumerator)
    (hd : 0 < P.DirectionPenaltyDenominator) (p : PointType) (g : Nat) (R : BoxType)
    (t : routebox_t) (ht : t.box.ordered) (hin : box_in_box R t.box = true) :
    cost_to_layerless_box P p g R ≤ cost_to_routebox P p g t ∧
    ∀ mtc : mincost_target_closure, mtc.CostPoint = p → mtc.CostPointLayer = g →
      cost_to_routebox P p g t < mtc.nearest_cost → __region_within_guess P R mtc = true := by
  have hle := cost_to_layerless_box_le P hV hn hd p g R t ht hin
  refine ⟨hle, ?_⟩
  intro mtc hp hg hlt
  simp only [__region_within_guess, hp, hg]
  split
  · rfl
  · exact decide_eq_true (lt_of_le_of_lt hle hlt)

theorem cost_to_layerless_box_lower_bound_witness :
    (0 ≤ pass0Parameters.ViaCost ∧ 0 ≤ pass0Parameters.DirectionPenaltyNumerator ∧
      0 < pass0Parameters.DirectionPenaltyDenominator ∧ targetB.box.ordered ∧
      box_in_box ⟨10, 10, 60, 20⟩ targetB.box = true) ∧
    (cost_to_layerless_box pass0Parameters ⟨0, 0⟩ 0 ⟨10, 10, 60, 20⟩ ≤
        cost_to_routebox pass0Parameters ⟨0, 0⟩ 0 targetB ∧
      ∀ mtc : mincost_target_closure, mtc.CostPoint = ⟨0, 0⟩ → mtc.CostPointLayer = 0 →
        cost_to_routebox pass0Parameters ⟨0, 0⟩ 0 targetB < mtc.nearest_cost →
        __region_within_guess pass0Parameters ⟨10, 10, 60, 20⟩ mtc = true) :=
  ⟨⟨pass0Parameters_DirectionPenalty.2.2, pass0Parameters_DirectionPenalty.1,
      pass0Parameters_DirectionPenalty.2.1, by decide, by decide⟩,
    cost_to_layerless_box_lower_bound pass0Parameters pass0Parameters_DirectionPenalty.2.2
      pass0Parameters_DirectionPenalty.1 pass0Parameters_DirectionPenalty.2.1 ⟨0, 0⟩ 0
      ⟨10, 10, 60, 20⟩ targetB (by decide) (by decide)⟩

theorem found_new_guess_spec (P : AutoRouteParametersType) (x : routebox_t)
    (mtc : mincost_target_closure)
    (hgood : ∀ n, mtc.nearest = some n →
      mtc.nearest_cost = cost_to_routebox P mtc.CostPoint mtc.CostPointLayer n) :
    (__found_new_guess P x mtc).2.CostPoint = mtc.CostPoint ∧
    (__found_new_guess P x mtc).2.CostPointLayer = mtc.CostPointLayer ∧
    (∀ n, (__found_new_guess P x mtc).2.nearest = some n →
      (__found_new_guess P x mtc).2.nearest_cost =
        cost_to_routebox P mtc.CostPoint mtc.CostPointLayer n) ∧
    (mtc.nearest.isSome = true →
      (__found_new_guess P x mtc).2.nearest_cost ≤ mtc.nearest_cost) ∧
    (__found_new_guess P x mtc).2.nearest.isSome = true ∧
    ((__found_new_guess P x mtc).2.nearest = mtc.nearest ∨
      (__found_new_guess P x mtc).2.nearest = some x) ∧
    (__found_new_guess P x mtc).2.nearest_cost ≤
      cost_to_routebox P mtc.CostPoint mtc.CostPointLayer x := by
  unfold __found_new_guess
  by_cases h : (mtc.nearest.isNone ||
      decide (cost_to_routebox P mtc.CostPoint mtc.CostPointLayer x < mtc.nearest_cost)) = true
  · rw [if_pos h]
    refine ⟨rfl, rfl, ?_, ?_, rfl, Or.inr rfl, le_refl _⟩
    · intro n hn
      simp only [Option.some.injEq] at hn
      rw [hn]
    · intro hs
      simp only [Bool.or_eq_true, decide_eq_true_eq] at h
      rcases h with h | h
      · rw [Option.isNone_iff_eq_none] at h
        rw [h] at hs
        exact absurd hs (by simp)
      · exact le_of_lt h
  · rw [if_neg h]
    simp only [Bool.or_eq_true, decide_eq_true_eq, not_or, not_lt] at h
    refine ⟨rfl, rfl, hgood, fun _ => le_refl _, ?_, Or.inl rfl, h.2⟩
    simpa [Option.isSome_iff_ne_none, Option.isNone_iff_eq_none] using h.1

/-- What the target search establishes on a tree whose regions cover their
boxes: the closure keeps its cost point, its cost stays the cost of its guess,
a guess is never lost and never gets dearer, a non-empty tree always leaves a
guess, the guess is the old one or a box of the tree, and no box of the tree
is cheaper than the final guess. -/
theorem mincost_search_spec (P : AutoRouteParametersType)
    (hV : 0 ≤ P.ViaCost) (hn : 0 ≤ P.DirectionPenaltyNumerator)
    (hd : 0 < P.DirectionPenaltyDenominator) (p : PointType) (g : Nat) :
    ∀ (T : kdtree_t routebox_t) (mtc : mincost_target_closure),
      T.regionsCover (fun t => t.box) = true → (∀ t ∈ T.items, t.box.ordered) →
      mtc.CostPoint = p → mtc.CostPointLayer = g →
      (∀ n, mtc.nearest = some n → mtc.nearest_cost = cost_to_routebox P p g n) →
      (kd_search (__region_within_guess P) (__found_new_guess P) T mtc).2.CostPoint = p ∧
      (kd_search (__region_within_guess P) (__found_new_guess P) T mtc).2.CostPointLayer = g ∧
      (∀ n, (kd_search (__region_within_guess P) (__found_new_guess P) T mtc).2.nearest = some n →
        (kd_search (__region_within_guess P) (__found_new_guess P) T mtc).2.nearest_cost =
          cost_to_routebox P p g n) ∧
      (mtc.nearest.isSome = true →
        (kd_search (__region_within_guess P) (__found_new_guess P) T mtc).2.nearest.isSome = true ∧
        (kd_search (__region_within_guess P) (__found_new_guess P) T mtc).2.nearest_cost ≤
          mtc.nearest_cost) ∧
      (T.items ≠ [] →
        (kd_search (__region_within_guess P) (__found_new_guess P) T mtc).2.nearest.isSome = true) ∧
      ((kd_search (__region_within_guess P) (__found_new_guess P) T mtc).2.nearest = mtc.nearest ∨
        ∃ t ∈ T.items,
          (kd_search (__region_within_guess P) (__found_new_guess P) T mtc).2.nearest = some t) ∧
      (∀ t ∈ T.items,
        (kd_search (__region_within_guess P) (__found_new_guess P) T mtc).2.nearest.isSome = true →
        (kd_search (__region_within_guess P) (__found_new_guess P) T mtc).2.nearest_cost ≤
          cost_to_routebox P p g t) := by
  intro T
  induction T with
  | nil =>
    intro mtc _ _ hp hg hgood
    simp only [kd_search, kdtree_t.items]
    exact ⟨hp, hg, hgood, fun h => ⟨h, le_refl _⟩, fun h => absurd rfl h, Or.inl trivial,
      fun t ht => absurd ht (List.not_mem_nil t)⟩
  | leaf x =>
    intro mtc _ _ hp hg hgood
    subst hp; subst hg
    obtain ⟨h1, h2, h3, h4, h5, h6, h7⟩ := found_new_guess_spec P x mtc hgood
    simp only [kd_search, kdtree_t.items]
    refine ⟨h1, h2, h3, fun h => ⟨h5, h4 h⟩, fun _ => h5, ?_, ?_⟩
    · rcases h6 with h6 | h6
      · exact Or.inl h6
      · exact Or.inr ⟨x, List.mem_singleton.mpr rfl, h6⟩
    · intro t ht _
      rw [List.mem_singleton] at ht
      rw [ht]; exact h7
  | node region lo hi ihlo ihhi =>
    intro mtc hcover hord hp hg hgood
    simp only [kdtree_t.regionsCover, Bool.and_eq_true, List.all_eq_true] at hcover
    obtain ⟨⟨hreg, hclo⟩, hchi⟩ := hcover
    simp only [kdtree_t.items] at hord hreg ⊢
    by_cases hr : __region_within_guess P region mtc = true
    · -- the region is searched: first `lo`, then `hi` with the closure `lo` left
      simp only [kd_search, if_pos hr]
      obtain ⟨a1, a2, a3, a4, a5, a6, a7⟩ :=
        ihlo mtc hclo (fun t ht => hord t (List.mem_append_left _ ht)) hp hg hgood
      generalize (kd_search (__region_within_guess P) (__found_new_guess P) lo mtc).2 = m1
        at a1 a2 a3 a4 a5 a6 a7 ⊢
      obtain ⟨b1, b2, b3, b4, b5, b6, b7⟩ :=
        ihhi m1 hchi (fun t ht => hord t (List.mem_append_right _ ht)) a1 a2 a3
      generalize (kd_search (__region_within_guess P) (__found_new_guess P) hi m1).2 = m2
        at b1 b2 b3 b4 b5 b6 b7 ⊢
      refine ⟨b1, b2, b3, ?_, ?_, ?_, ?_⟩
      · intro h
        obtain ⟨s1, c1⟩ := a4 h
        obtain ⟨s2, c2⟩ := b4 s1
        exact ⟨s2, le_trans c2 c1⟩
      · intro hne
        by_cases hlo : lo.items = []
        · rw [hlo, List.nil_append] at hne
          exact b5 hne
        · exact (b4 (a5 hlo)).1
      · rcases b6 with b6 | ⟨t, ht, b6⟩
        · rcases a6 with a6 | ⟨t, ht, a6⟩
          · exact Or.inl (b6.trans a6)
          · exact Or.inr ⟨t, List.mem_append_left _ ht, b6.trans a6⟩
        · exact Or.inr ⟨t, List.mem_append_right _ ht, b6⟩
      · intro t ht hs
        rcases List.mem_append.mp ht with ht | ht
        · have hlo : lo.items ≠ [] := List.ne_nil_of_mem ht
          have s1 := a5 hlo
          exact le_trans (b4 s1).2 (a7 t ht s1)
        · exact b7 t ht hs
    · -- the region is pruned: its bound is not below the cost of the guess
      simp only [kd_search, if_neg hr]
      have hsome : mtc.nearest.isSome = true := by
        simp only [__region_within_guess] at hr
        by_cases hnone : mtc.nearest.isNone = true
        · rw [if_pos hnone] at hr; exact absurd rfl hr
        · cases hm : mtc.nearest with
          | none => rw [hm] at hnone; exact absurd rfl hnone
          | some _ => rfl
      have hbound : mtc.nearest_cost ≤ cost_to_layerless_box P p g region := by
        simp only [__region_within_guess] at hr
        have hnone : ¬ mtc.nearest.isNone = true := by
          intro h; rw [Option.isNone_iff_eq_none] at h; rw [h] at hsome; exact absurd hsome (by simp)
        rw [if_neg hnone, hp, hg] at hr
        simpa using hr
      refine ⟨hp, hg, hgood, fun h => ⟨h, le_refl _⟩, fun _ => hsome, Or.inl trivial, ?_⟩
      intro t ht _
      exact le_trans hbound
        (cost_to_layerless_box_le P hV hn hd p g region t (hord t ht) (hreg t ht))

/-- C9: for every cost point, layer group, non-empty tree of targets (whose
regions cover their boxes and whose boxes have ordered coordinates) and
optional initial guess, `mincost_target_to_point` returns a route box, which
is a box of the tree or the guess, such that no target in the tree is
strictly cheaper under `cost_to_routebox` from the cost point. -/
theorem mincost_target_to_point_minimal (P : AutoRouteParametersType)
    (hV : 0 ≤ P.ViaCost) (hn : 0 ≤ P.DirectionPenaltyNumerator)
    (hd : 0 < P.DirectionPenaltyDenominator) (CostPoint : PointType) (CostPointLayer : Nat)
    (targets : kdtree_t routebox_t) (target_guess : Option routebox_t)
    (hcover : targets.regionsCover (fun t => t.box) = true)
    (hord : ∀ t ∈ targets.items, t.box.ordered) (hne : targets.items ≠ []) :
    ∃ r, mincost_target_to_point P CostPoint CostPointLayer targets target_guess = some r ∧
      (r ∈ targets.items ∨ target_guess = some r) ∧
      ∀ t ∈ targets.items,
        ¬ (cost_to_routebox P CostPoint CostPointLayer t <
            cost_to_routebox P CostPoint CostPointLayer r) := by
  obtain ⟨_, _, c3, _, c5, c6, c7⟩ :=
    mincost_search_spec P hV hn hd CostPoint CostPointLayer targets
      { CostPoint := CostPoint, CostPointLayer := CostPointLayer, nearest := target_guess,
        nearest_cost := match target_guess with
          | some g => cost_to_routebox P CostPoint CostPointLayer g
          | none => 0 } hcover hord rfl rfl
      (by intro n hn'; simp only at hn'; subst hn'; rfl)
  simp only [mincost_target_to_point]
  have hs := c5 hne
  obtain ⟨r, hr⟩ := Option.isSome_iff_exists.mp hs
  refine ⟨r, hr, ?_, ?_⟩
  · rcases c6 with c6 | ⟨t, ht, c6⟩
    · right
      exact c6.symm.trans hr
    · left
      have : t = r := Option.some.inj (c6.symm.trans hr)
      rw [← this]; exact ht
  · intro t ht
    have := c7 t ht hs
    rw [c3 r hr] at this
    exact not_lt.mpr this

theorem mincost_target_to_point_minimal_witness :
    (0 ≤ pass0Parameters.ViaCost ∧ 0 ≤ pass0Parameters.DirectionPenaltyNumerator ∧
      0 < pass0Parameters.DirectionPenaltyDenominator ∧
      twoTargets.regionsCover (fun t => t.box) = true ∧
      (∀ t ∈ twoTargets.items, t.box.ordered) ∧ twoTargets.items ≠ []) ∧
    ∃ r, mincost_target_to_point pass0Parameters ⟨70, 15⟩ 0 twoTargets none = some r ∧
      (r ∈ twoTargets.items ∨ (none : Option routebox_t) = some r) ∧
      ∀ t ∈ twoTargets.items,
        ¬ (cost_to_routebox pass0Parameters ⟨70, 15⟩ 0 t <
            cost_to_routebox pass0Parameters ⟨70, 15⟩ 0 r) :=
  ⟨⟨pass0Parameters_DirectionPenalty.2.2, pass0Parameters_DirectionPenalty.1,
      pass0Parameters_DirectionPenalty.2.1, by decide, by decide, by decide⟩,
    mincost_target_to_point_minimal pass0Parameters pass0Parameters_DirectionPenalty.2.2
      pass0Parameters_DirectionPenalty.1 pass0Parameters_DirectionPenalty.2.1 ⟨70, 15⟩ 0
      twoTargets none (by decide) (by decide) (by decide)⟩

/-- C3 (the code at the failing input): an element with bounding box
`(10,10)-(13,13)` is rotated by 180 degrees about `(11,11)` to `(9,9)-(12,12)`;
the undo rotates about the centre of that box, `(10,10)`, and leaves the
element at `(8,8)-(11,11)`, not where it was. -/
theorem doPerturb_rotate180_not_undone :
    ((doPerturb oddBoard rotate180 false).Element 0).BoundingBox = ⟨9, 9, 12, 12⟩ ∧
    ((doPerturb (doPerturb oddBoard rotate180 false) rotate180 true).Element 0).BoundingBox =
      ⟨8, 8, 11, 11⟩ ∧
    ((doPerturb (doPerturb oddBoard rotate180 false) rotate180 true).Element 0).BoundingBox ≠
      (oddBoard.Element 0).BoundingBox := by
  decide

/-- C10 (the code at the failing input): at `T = 2000` the grid is 100, and
a raw shift of 200, a multiple of the grid, is snapped to 300; the magnitude
300 is not below `|200| + 100`. -/
theorem snap_to_grid_moves_grid_multiple :
    shift_grid 2000 = 100 ∧ snap_to_grid 200 (shift_grid 2000) = 300 ∧
    ¬ (|snap_to_grid 200 (shift_grid 2000)| < |(200 : Int)| + shift_grid 2000) := by
  decide

/-- What the snap of a shift component does: for a positive grid the result
is a multiple of the grid with the sign of the raw shift, and for a raw shift
other than zero its magnitude `m` satisfies `|raw| < m <= |raw| + grid`. -/
theorem snap_to_grid_spec (raw grid : Int) (hg : 0 < grid) :
    grid ∣ snap_to_grid raw grid ∧
    SGN (snap_to_grid raw grid) = SGN raw ∧
    (raw ≠ 0 → |raw| < |snap_to_grid raw grid| ∧ |snap_to_grid raw grid| ≤ |raw| + grid) ∧
    (raw = 0 → snap_to_grid raw grid = 0) := by
  have key : ∀ r : Int, 0 < r →
      (Int.tdiv r grid + 1) * grid > r ∧ (Int.tdiv r grid + 1) * grid ≤ r + grid ∧
      0 ≤ Int.tdiv r grid := by
    intro r hr
    have h1 : Int.tdiv r grid = r / grid := Int.tdiv_eq_ediv (le_of_lt hr) (le_of_lt hg)
    have h2 := Int.emod_add_ediv r grid
    have h3 := Int.emod_nonneg r (ne_of_gt hg)
    have h4 := Int.emod_lt_of_pos r hg
    have h5 : 0 ≤ r / grid := Int.ediv_nonneg (le_of_lt hr) (le_of_lt hg)
    rw [h1]
    refine ⟨?_, ?_, h5⟩ <;> nlinarith
  refine ⟨Dvd.intro_left _ rfl, ?_, ?_, ?_⟩
  · rcases lt_trichotomy raw 0 with h | h | h
    · obtain ⟨k1, k2, k3⟩ := key (-raw) (by omega)
      have hs : SGN raw = -1 := by unfold SGN; split_ifs <;> omega
      have hneg : snap_to_grid raw grid = -((Int.tdiv (-raw) grid + 1) * grid) := by
        rw [snap_to_grid, hs, Int.neg_tdiv]; ring
      rw [hneg, hs]
      unfold SGN; split_ifs <;> omega
    · subst h; simp [snap_to_grid, SGN]
    · obtain ⟨k1, k2, k3⟩ := key raw h
      have hs : SGN raw = 1 := by unfold SGN; split_ifs <;> omega
      rw [snap_to_grid, hs]
      unfold SGN; split_ifs <;> omega
  · intro hne
    rcases lt_trichotomy raw 0 with h | h | h
    · obtain ⟨k1, k2, k3⟩ := key (-raw) (by omega)
      have hs : SGN raw = -1 := by unfold SGN; split_ifs <;> omega
      have hneg : snap_to_grid raw grid = -((Int.tdiv (-raw) grid + 1) * grid) := by
        rw [snap_to_grid, hs, Int.neg_tdiv]; ring
      rw [hneg, abs_neg, abs_of_neg h, abs_of_pos (by omega)]
      omega
    · exact absurd h hne
    · obtain ⟨k1, k2, k3⟩ := key raw h
      have hs : SGN raw = 1 := by unfold SGN; split_ifs <;> omega
      rw [snap_to_grid, hs, abs_of_pos h, abs_of_pos (by omega)]
      omega
  · intro h0; subst h0; simp [snap_to_grid, SGN]

theorem snap_to_grid_spec_witness :
    (0 : Int) < 100 ∧
    ((100 : Int) ∣ snap_to_grid (-250) 100 ∧
    SGN (snap_to_grid (-250) 100) = SGN (-250) ∧
    ((-250 : Int) ≠ 0 → |(-250 : Int)| < |snap_to_grid (-250) 100| ∧
      |snap_to_grid (-250) 100| ≤ |(-250 : Int)| + 100) ∧
    ((-250 : Int) = 0 → snap_to_grid (-250) 100 = 0)) :=
  ⟨by decide, snap_to_grid_spec (-250) 100 (by decide)⟩

/-! ### `RouteOne` without conflicts -/

theorem route_parent_good (boxes : Nat → routebox_t) :
    ∀ b : pathbox, GoodBox boxes b → GoodBox boxes (route_parent b) := by
  intro b
  induction b with
  | board p => intro h; exact h
  | expansion rb u parent ih =>
    intro h
    unfold route_parent
    split
    · exact ih ⟨h.1.2, h.2⟩
    · exact h

theorem CreateExpansionArea_good (P : AutoRouteParametersType) (boxes : Nat → routebox_t)
    (area : BoxType) (group : Nat) (parent : pathbox) (h : GoodBox boxes parent) :
    GoodBox boxes (CreateExpansionArea P area group parent) := by
  have hp := route_parent_good boxes parent h
  exact ⟨⟨rfl, hp.1⟩, hp.2⟩

theorem set_is_via_good (boxes : Nat → routebox_t) (b : pathbox) (h : GoodBox boxes b) :
    GoodBox boxes b.set_is_via := by
  cases b with
  | board p => exact h
  | expansion rb u parent => exact h

theorem clear_orphan_good (boxes : Nat → routebox_t) (b : pathbox) (h : GoodBox boxes b) :
    GoodBox boxes b.clear_orphan := by
  cases b with
  | board p => exact h
  | expansion rb u parent => exact h

theorem copy_source_good (boxes : Nat → routebox_t) (src : routebox_flags) (b : pathbox)
    (h : GoodBox boxes b) : GoodBox boxes (b.copy_source src) := by
  cases b with
  | board p => exact h
  | expansion rb u parent => exact h

theorem parent_good (boxes : Nat → routebox_t) (b : pathbox) (h : GoodBox boxes b) :
    GoodBox boxes b.parent := by
  cases b with
  | board p => exact h
  | expansion rb u parent => exact ⟨h.1.2, h.2⟩

theorem CreateViaEdge_good (P : AutoRouteParametersType) (boxes : Nat → routebox_t)
    (area : BoxType) (group : Nat) (parent : pathbox) (c : conflict_t) (cost : ℚ)
    (h : GoodBox boxes parent) :
    GoodEdge boxes (CreateViaEdge P area group parent c cost) :=
  ⟨set_is_via_good boxes _ (CreateExpansionArea_good P boxes area group parent h), rfl⟩

theorem add_or_destroy_edge_inv (boxes : Nat → routebox_t) (s : routeone_state) (e : edge_t)
    (hs : SearchInv boxes s) (he : GoodEdge boxes e) :
    SearchInv boxes (add_or_destroy_edge s e) := by
  unfold add_or_destroy_edge
  split
  · refine ⟨hs.1, ?_, hs.2.2.1, hs.2.2.2⟩
    intro x hx
    rcases List.mem_cons.mp hx with hx | hx
    · rw [hx]; exact he
    · exact hs.2.1 x hx
  · exact hs

theorem best_path_candidate_inv (boxes : Nat → routebox_t) (s : routeone_state) (e : edge_t)
    (t : Nat) (hs : SearchInv boxes s) (he : GoodBox boxes e.rb) :
    SearchInv boxes (best_path_candidate s e t) := by
  unfold best_path_candidate
  split
  · refine ⟨hs.1, hs.2.1, ?_, hs.2.2.2⟩
    intro b hb
    simp only [Option.some.injEq] at hb
    rw [← hb]; exact he
  · exact hs

theorem created_inv (boxes : Nat → routebox_t) (s : routeone_state) (b : pathbox)
    (hs : SearchInv boxes s) (hb : GoodBox boxes b) :
    SearchInv boxes { s with created := b :: s.created } := by
  refine ⟨hs.1, hs.2.1, hs.2.2.1, ?_⟩
  intro x hx
  rcases List.mem_cons.mp hx with hx | hx
  · rw [hx]; exact hb
  · exact hs.2.2.2 x hx

theorem BreakEdges_clip_good (P : AutoRouteParametersType) (boxes : Nat → routebox_t)
    (clip : Option new_edge) (e : edge_t) (he : GoodEdge boxes e) :
    GoodEdge boxes (BreakEdges_clip P boxes clip e).1 ∧
    ∀ b ∈ (BreakEdges_clip P boxes clip e).2, GoodBox boxes b := by
  cases clip with
  | none => exact ⟨he, fun b hb => absurd hb (List.not_mem_nil b)⟩
  | some c =>
    have hg : GoodBox boxes ((CreateExpansionArea P c.box (e.rb.rb boxes).group
        (route_parent e.rb)).copy_source (e.rb.rb boxes).flags) :=
      copy_source_good boxes _ _
        (CreateExpansionArea_good P boxes _ _ _ (route_parent_good boxes _ he.1))
    refine ⟨⟨hg, rfl⟩, ?_⟩
    intro b hb
    simp only [BreakEdges_clip, List.mem_singleton] at hb
    rw [hb]; exact hg

theorem BreakEdges_piece_good (P : AutoRouteParametersType) (boxes : Nat → routebox_t)
    (e : edge_t) (piece : Option new_edge) (he : GoodEdge boxes e) :
    ∀ x ∈ BreakEdges_piece P boxes e piece, GoodEdge boxes x := by
  cases piece with
  | none => intro x hx; exact absurd hx (List.not_mem_nil x)
  | some c =>
    intro x hx
    simp only [BreakEdges_piece, List.mem_singleton] at hx
    rw [hx]
    exact ⟨copy_source_good boxes _ _
      (CreateExpansionArea_good P boxes _ _ _ (route_parent_good boxes _ he.1)), rfl⟩

theorem BreakEdges_center_nil (P : AutoRouteParametersType) (boxes : Nat → routebox_t)
    (o : break_input) (rb : obstacle) (e : edge_t) (hwc : P.with_conflicts = false) :
    BreakEdges_center P boxes o rb e = [] := by
  cases rb with
  | area box => rfl
  | board q =>
    simp only [BreakEdges_center, hwc]
    rw [if_neg]
    simp

theorem BreakEdges_good (P : AutoRouteParametersType) (boxes : Nat → routebox_t)
    (hwc : P.with_conflicts = false) :
    ∀ (os : List break_input) (edge_vec broken_vec : List edge_t) (created : List pathbox),
      (∀ e ∈ edge_vec, GoodEdge boxes e) → (∀ e ∈ broken_vec, GoodEdge boxes e) →
      (∀ b ∈ created, GoodBox boxes b) →
      (∀ e ∈ (BreakEdges P boxes os edge_vec broken_vec created).1, GoodEdge boxes e) ∧
      (∀ b ∈ (BreakEdges P boxes os edge_vec broken_vec created).2, GoodBox boxes b) := by
  intro os
  induction os with
  | nil => intro edge_vec broken_vec created _ h2 h3; exact ⟨h2, h3⟩
  | cons o os ih =>
    intro edge_vec broken_vec created h1 h2 h3
    cases edge_vec with
    | nil => exact ⟨h2, h3⟩
    | cons e0 edge_vec =>
      have he0 : GoodEdge boxes e0 := h1 e0 (List.mem_cons_self _ _)
      have hrest : ∀ e ∈ edge_vec, GoodEdge boxes e :=
        fun e he => h1 e (List.mem_cons_of_mem _ he)
      obtain ⟨hc1, hc2⟩ := BreakEdges_clip_good P boxes o.clip e0 he0
      have hcreated : ∀ b ∈ (BreakEdges_clip P boxes o.clip e0).2 ++ created,
          GoodBox boxes b := by
        intro b hb
        rcases List.mem_append.mp hb with hb | hb
        · exact hc2 b hb
        · exact h3 b hb
      simp only [BreakEdges]
      split
      · exact ih edge_vec broken_vec created hrest h2 h3
      · split
        · refine ih edge_vec _ _ hrest ?_ hcreated
          intro e he
          rcases List.mem_cons.mp he with he | he
          · rw [he]; exact hc1
          · exact h2 e he
        · rename_i rb _
          rw [BreakEdges_center_nil P boxes o rb _ hwc]
          have hpieces : ∀ x ∈ BreakEdges_piece P boxes (BreakEdges_clip P boxes o.clip e0).1 o.left ++
              BreakEdges_piece P boxes (BreakEdges_clip P boxes o.clip e0).1 o.right,
              GoodEdge boxes x := by
            intro x hx
            rcases List.mem_append.mp hx with hx | hx
            · exact BreakEdges_piece_good P boxes _ _ hc1 x hx
            · exact BreakEdges_piece_good P boxes _ _ hc1 x hx
          refine ih _ _ _ ?_ ?_ ?_
          · intro e he
            rcases List.mem_append.mp he with he | he
            · exact hpieces e he
            · exact hrest e he
          · simpa using h2
          · intro b hb
            simp only [List.map_nil, List.nil_append] at hb
            rcases List.mem_append.mp hb with hb | hb
            · obtain ⟨x, hx, hxb⟩ := List.mem_map.mp hb
              rw [← hxb]; exact (hpieces x hx).1
            · exact hcreated b hb

theorem add_via_sites_inv (P : AutoRouteParametersType) (active : Nat → Bool)
    (boxes : Nat → routebox_t) (within : pathbox) (level : conflict_t)
    (hw : GoodBox boxes within) :
    ∀ (sites : List via_site) (s : routeone_state), SearchInv boxes s →
      SearchInv boxes (add_via_sites P active sites within level s) := by
  intro sites
  induction sites with
  | nil => intro s hs; exact hs
  | cons v sites ih =>
    intro s hs
    simp only [add_via_sites]
    split
    · exact ih s hs
    · split
      · exact ih s hs
      · split
        · exact ih s hs
        · have hne := CreateViaEdge_good P boxes v.area v.group within level v.cost hw
          exact ih _ (add_or_destroy_edge_inv boxes _ _ (created_inv boxes s _ hs hne.1) hne)

theorem foldl_inv {α : Type} (boxes : Nat → routebox_t)
    (f : routeone_state → α → routeone_state)
    (hf : ∀ s a, SearchInv boxes s → SearchInv boxes (f s a)) :
    ∀ (l : List α) (s : routeone_state), SearchInv boxes s → SearchInv boxes (l.foldl f s) := by
  intro l
  induction l with
  | nil => intro s hs; exact hs
  | cons a l ih => intro s hs; exact ih _ (hf s a hs)

theorem expand_via_cell_inv (P : AutoRouteParametersType) (boxes : Nat → routebox_t)
    (hwc : P.with_conflicts = false) (o : expand_input) (e : edge_t) (he : GoodEdge boxes e)
    (intersecting : obstacle) (s : routeone_state) (ij : Nat × Nat)
    (hs : SearchInv boxes s) :
    SearchInv boxes (expand_via_cell P o e intersecting s ij) := by
  simp only [expand_via_cell]
  split
  · exact hs
  · split
    · cases intersecting with
      | area box => exact hs
      | board q =>
        simp only [hwc]
        split
        · exact hs
        · exact hs
    · have hne := CreateViaEdge_good P boxes
        (via_cell (e.rb.rb s.boxes).box (bloat_routebox P (intersecting.rb s.boxes)) ij.1 ij.2)
        (e.rb.rb s.boxes).group e.rb.parent e.via_conflict_level (o.via_cost ij.1 ij.2)
        (parent_good boxes _ he.1)
      exact add_or_destroy_edge_inv boxes _ _ (created_inv boxes s _ hs hne.1) hne

theorem expand_via_inv (P : AutoRouteParametersType) (boxes : Nat → routebox_t)
    (hwc : P.with_conflicts = false) (o : expand_input) (e : edge_t) (he : GoodEdge boxes e)
    (s : routeone_state) (hs : SearchInv boxes s) :
    SearchInv boxes (expand_via P o e s) := by
  simp only [expand_via]
  split
  · refine foldl_inv boxes _ ?_ _ _ ⟨hs.1, hs.2.1, hs.2.2.1, hs.2.2.2⟩
    intro s1 i hs1
    exact add_or_destroy_edge_inv boxes _ _ hs1 ⟨clear_orphan_good boxes _ he.1, rfl⟩
  · exact foldl_inv boxes _
      (fun s1 ij hs1 => expand_via_cell_inv P boxes hwc o e he _ s1 ij hs1) _ _ hs

theorem expand_piece_inv (P : AutoRouteParametersType) (boxes : Nat → routebox_t)
    (group : Nat) (top_parent : pathbox) (htop : GoodBox boxes top_parent) (dir : Nat)
    (piece : Option new_edge) (s : routeone_state) (hs : SearchInv boxes s) :
    SearchInv boxes (expand_piece P group top_parent dir piece s) := by
  cases piece with
  | none => exact hs
  | some c =>
    have hb := CreateExpansionArea_good P boxes c.box group top_parent htop
    exact add_or_destroy_edge_inv boxes _ _ (created_inv boxes s _ hs hb) ⟨hb, rfl⟩

theorem expand_blocker_inv (P : AutoRouteParametersType) (boxes : Nat → routebox_t)
    (hwc : P.with_conflicts = false) (o : expand_input) (group : Nat) (top_parent : pathbox)
    (htop : GoodBox boxes top_parent) (dir : Nat) (next : obstacle) (s : routeone_state)
    (hs : SearchInv boxes s) :
    SearchInv boxes (expand_blocker P o group top_parent dir next s) := by
  simp only [expand_blocker, hwc]
  split
  · cases next with
    | area box => exact hs
    | board q =>
      have hb := CreateExpansionArea_good P boxes (s.boxes q).box group top_parent htop
      exact best_path_candidate_inv boxes _ _ q (created_inv boxes s _ hs hb) hb
  · split
    · exact hs
    · simpa using hs

theorem expand_area_inv (P : AutoRouteParametersType) (active : Nat → Bool)
    (boxes : Nat → routebox_t) (o : expand_input) (e : edge_t) (nrb : pathbox)
    (hn : GoodBox boxes nrb) (s : routeone_state) (hs : SearchInv boxes s) :
    SearchInv boxes (expand_area P active o e nrb s) := by
  simp only [expand_area]
  have h1 : SearchInv boxes
      ([1, 3].foldl (fun s i => add_or_destroy_edge s
          (CreateEdge nrb (o.side_cost i) ((e.expand_dir + i) % 4)))
        { s with created := nrb :: s.created, area_vec := nrb :: s.area_vec }) := by
    refine foldl_inv boxes _ ?_ _ _ ?_
    · intro s1 i hs1
      exact add_or_destroy_edge_inv boxes _ _ hs1 ⟨hn, rfl⟩
    · have := created_inv boxes s nrb hs hn
      exact ⟨this.1, this.2.1, this.2.2.1, this.2.2.2⟩
  split
  · exact add_via_sites_inv P active boxes nrb _ hn _ _ h1
  · exact h1

theorem expand_edge_inv (P : AutoRouteParametersType) (active : Nat → Bool)
    (boxes : Nat → routebox_t) (hwc : P.with_conflicts = false) (o : expand_input)
    (e : edge_t) (he : GoodEdge boxes e) (s : routeone_state) (hs : SearchInv boxes s) :
    SearchInv boxes (expand_edge P active o e s) := by
  simp only [expand_edge]
  split
  · exact hs
  · generalize hnrb : (CreateExpansionArea P
        (match o.next with
          | some _ => o.limited_region
          | none => o.infinity_region) (e.rb.rb s.boxes).group e.rb).clear_orphan = nrb
    have hn : GoodBox boxes nrb := by
      rw [← hnrb]
      exact clear_orphan_good boxes _ (CreateExpansionArea_good P boxes _ _ _ he.1)
    have htop : GoodBox boxes (if o.has_area = true then nrb else e.rb) := by
      split
      · exact hn
      · exact he.1
    have hs1 : SearchInv boxes (if o.has_area = true then expand_area P active o e nrb s else s) := by
      split
      · exact expand_area_inv P active boxes o e nrb hn s hs
      · exact hs
    split
    · exact hs1
    · exact expand_blocker_inv P boxes hwc o _ _ htop _ _ _
        (expand_piece_inv P boxes _ _ htop _ _ _ (expand_piece_inv P boxes _ _ htop _ _ _ hs1))

theorem heap_remove_smallest_mem :
    ∀ (l : List edge_t) (e : edge_t) (rest : List edge_t),
      heap_remove_smallest l = some (e, rest) → e ∈ l ∧ ∀ x ∈ rest, x ∈ l := by
  intro l
  induction l with
  | nil => intro e rest h; simp [heap_remove_smallest] at h
  | cons a l ih =>
    intro e rest h
    simp only [heap_remove_smallest] at h
    cases hr : heap_remove_smallest l with
    | none =>
      rw [hr] at h
      simp only [Option.some.injEq, Prod.mk.injEq] at h
      obtain ⟨h1, h2⟩ := h
      subst h1; subst h2
      exact ⟨List.mem_cons_self _ _, fun x hx => absurd hx (List.not_mem_nil x)⟩
    | some mr =>
      obtain ⟨m, rest1⟩ := mr
      rw [hr] at h
      obtain ⟨hm, hrest1⟩ := ih m rest1 hr
      simp only at h
      split at h
      · simp only [Option.some.injEq, Prod.mk.injEq] at h
        obtain ⟨h1, h2⟩ := h
        subst h1; subst h2
        exact ⟨List.mem_cons_self _ _, fun x hx => List.mem_cons_of_mem _ hx⟩
      · simp only [Option.some.injEq, Prod.mk.injEq] at h
        obtain ⟨h1, h2⟩ := h
        subst h1; subst h2
        refine ⟨List.mem_cons_of_mem _ hm, ?_⟩
        intro x hx
        rcases List.mem_cons.mp hx with hx | hx
        · rw [hx]; exact List.mem_cons_self _ _
        · exact List.mem_cons_of_mem _ (hrest1 x hx)

theorem RouteOne_iteration_inv (P : AutoRouteParametersType) (active : Nat → Bool)
    (boxes : Nat → routebox_t) (hwc : P.with_conflicts = false) (s : routeone_state)
    (o : expand_input) (hs : SearchInv boxes s) :
    SearchInv boxes (RouteOne_iteration P active s o) := by
  unfold RouteOne_iteration
  cases hr : heap_remove_smallest s.workheap with
  | none => exact hs
  | some er =>
    obtain ⟨e, heap⟩ := er
    obtain ⟨hmem, hheap⟩ := heap_remove_smallest_mem _ _ _ hr
    have he : GoodEdge boxes e := hs.2.1 e hmem
    have hs1 : SearchInv boxes { s with workheap := heap } :=
      ⟨hs.1, fun x hx => hs.2.1 x (hheap x hx), hs.2.2.1, hs.2.2.2⟩
    simp only
    split
    · exact hs1
    · rw [if_neg (by rw [he.2]; simp)]
      split
      · exact expand_via_inv P boxes hwc o e he _ hs1
      · exact expand_edge_inv P active boxes hwc o e he _ hs1

theorem path_had_conflicts_good (P : AutoRouteParametersType) (boxes : Nat → routebox_t) :
    ∀ b : pathbox, GoodBox boxes b → path_had_conflicts P boxes b = some false := by
  intro b
  induction b with
  | board p =>
    intro h
    have h2 : (boxes p).flags.source = true := h.2
    simp only [path_had_conflicts]
    rw [if_pos h2]
  | expansion rb u parent ih =>
    intro h
    obtain ⟨⟨hu, hp⟩, hsrc⟩ := h
    subst hu
    simp only [path_had_conflicts]
    split
    · rfl
    · exact ih ⟨hp, hsrc⟩

theorem RouteOne_source_vec_good (boxes : Nat → routebox_t) (active : Nat → Bool)
    (source_cost : Nat → Nat → ℚ) :
    ∀ (ring : List Nat), ∀ e ∈ RouteOne_source_vec boxes active source_cost ring,
      GoodEdge boxes e := by
  intro ring
  induction ring with
  | nil => intro e he; exact absurd he (List.not_mem_nil e)
  | cons p ring ih =>
    intro e he
    simp only [RouteOne_source_vec] at he
    split at he
    · rename_i hp
      rcases List.mem_append.mp he with he | he
      · exact ih e he
      · simp only [List.mem_cons, List.mem_singleton, List.not_mem_nil, or_false] at he
        rcases he with he | he | he | he <;> rw [he] <;> exact ⟨⟨trivial, hp.1⟩, rfl⟩
    · exact ih e he

theorem RouteOne_status_good (P : AutoRouteParametersType) (boxes : Nat → routebox_t)
    (s : routeone_state) (hs : SearchInv boxes s) :
    (RouteOne_status P s).found_route = true →
      (RouteOne_status P s).route_had_conflicts = some false := by
  unfold RouteOne_status
  cases hbp : s.best_path with
  | none => intro h; exact absurd h (by simp)
  | some best =>
    intro _
    simp only
    rw [hs.1]
    exact path_had_conflicts_good P boxes best (hs.2.2.1 best hbp)

/-- With conflicts not permitted, no route box that `RouteOne` creates has an
underlying box, and a route that is found is reported without conflicts. -/
theorem RouteOne_without_conflicts (P : AutoRouteParametersType) (active : Nat → Bool)
    (boxes : Nat → routebox_t) (i : routeone_input) (hwc : P.with_conflicts = false) :
    (∀ b ∈ (RouteOne P active boxes i).created, b.underlying = none) ∧
    ((RouteOne P active boxes i).status.found_route = true →
      (RouteOne P active boxes i).status.route_had_conflicts = some false) := by
  unfold RouteOne
  simp only
  split
  · exact ⟨fun b hb => absurd hb (List.not_mem_nil b), fun h => absurd h (by simp)⟩
  · have hbreak := BreakEdges_good P (RouteOne_flags boxes i) hwc i.break_inputs
      (RouteOne_source_vec (RouteOne_flags boxes i) active i.source_cost i.same_subnet) [] []
      (RouteOne_source_vec_good _ _ _ _) (fun e he => absurd he (List.not_mem_nil e))
      (fun b hb => absurd hb (List.not_mem_nil b))
    have hinv := foldl_inv (RouteOne_flags boxes i) (RouteOne_iteration P active)
      (fun s o hs => RouteOne_iteration_inv P active _ hwc s o hs) i.iterations
      { boxes := RouteOne_flags boxes i, workheap := (BreakEdges P (RouteOne_flags boxes i)
          i.break_inputs (RouteOne_source_vec (RouteOne_flags boxes i) active i.source_cost
            i.same_subnet) [] []).1,
        best_path := none, best_target := none, best_cost := 0, area_vec := [],
        touched_vec := [],
        created := (BreakEdges P (RouteOne_flags boxes i)
          i.break_inputs (RouteOne_source_vec (RouteOne_flags boxes i) active i.source_cost
            i.same_subnet) [] []).2 }
      ⟨rfl, hbreak.1, fun b hb => absurd hb (by simp), hbreak.2⟩
    obtain ⟨hboxes, _, hbest, hcreated⟩ := hinv
    constructor
    · intro b hb
      have := (hcreated b hb).1
      cases b with
      | board p => rfl
      | expansion rb u parent => exact this.1
    · exact RouteOne_status_good P _ _ ⟨hboxes, ‹_›, hbest, hcreated⟩

theorem RouteAll_count_conflicts (ras : routeall_status) (ros : routeone_status)
    (h : ros.found_route = true → ros.route_had_conflicts = some false) :
    (RouteAll_count ras ros).conflict_subnets = ras.conflict_subnets := by
  unfold RouteAll_count
  split
  · rename_i hf
    rw [h hf]
    simp
  · rfl

theorem RouteAll_calls_conflicts (P : AutoRouteParametersType) (active : Nat → Bool)
    (hwc : P.with_conflicts = false) :
    ∀ (calls : List ((Nat → routebox_t) × routeone_input)) (r : routeall_status),
      (calls.foldl (fun ras c => RouteAll_count ras (RouteOne P active c.1 c.2).status)
        r).conflict_subnets = r.conflict_subnets := by
  intro calls
  induction calls with
  | nil => intro r; rfl
  | cons c calls ih =>
    intro r
    rw [List.foldl_cons, ih]
    exact RouteAll_count_conflicts _ _ (RouteOne_without_conflicts P active c.1 c.2 hwc).2

theorem RouteAll_net_conflicts (active : Nat → Bool) (i : Nat) (is_smoothing : Bool)
    (ras : routeall_status) (net : net_input) :
    (RouteAll_net active i false is_smoothing ras net).conflict_subnets =
      ras.conflict_subnets := by
  unfold RouteAll_net
  simp only
  rw [RouteAll_calls_conflicts _ active rfl]

theorem RouteAll_passBody_conflicts (active : Nat → Bool) (script : Nat → List net_input)
    (i : Nat) (is_smoothing : Bool) (s : Unit) :
    (RouteAll_passBody active script i false is_smoothing s).2.conflict_subnets = 0 := by
  unfold RouteAll_passBody
  simp only
  have key : ∀ (nets : List net_input) (r : routeall_status),
      (nets.foldl (RouteAll_net active i false is_smoothing) r).conflict_subnets =
        r.conflict_subnets := by
    intro nets
    induction nets with
    | nil => intro r; rfl
    | cons n nets ih =>
      intro r
      rw [List.foldl_cons, ih]
      exact RouteAll_net_conflicts active i is_smoothing r n
  rw [key]

/-- The counters of every executed pass are those its pass body returned for
the flags of the pass. -/
theorem RouteAll_loop_records {σ : Type}
    (passBody : Nat → Bool → Bool → σ → σ × routeall_status) (limit : Nat) :
    ∀ (fuel i : Nat) (s : σ) (ras : routeall_status),
      ∀ r ∈ (RouteAll_loop passBody limit fuel i s ras).2.2,
        ∃ s1, r.ras = (passBody r.i r.with_conflicts r.is_smoothing s1).2 := by
  intro fuel
  induction fuel with
  | zero => intro i s ras r hr; exact absurd hr (List.not_mem_nil r)
  | succ fuel ih =>
    intro i s ras r hr
    simp only [RouteAll_loop] at hr
    split at hr
    · rcases List.mem_cons.mp hr with hr | hr
      · exact ⟨s, by rw [hr]⟩
      · exact ih _ _ _ r hr
    · exact absurd hr (List.not_mem_nil r)

/-- C6: when `with_conflicts` is false, no route box that `RouteOne` creates
has an underlying box, and every route `RouteOne` finds is reported with
`route_had_conflicts == False`; the last pass of `RouteAll` is run with
`with_conflicts` false, and `conflict_subnets` is 0 after it. -/
theorem no_conflicts_without_with_conflicts (P : AutoRouteParametersType)
    (active : Nat → Bool) (boxes : Nat → routebox_t) (i : routeone_input)
    (script : Nat → List net_input) (hwc : P.with_conflicts = false) :
    (∀ b ∈ (RouteOne P active boxes i).created, b.underlying = none) ∧
    ((RouteOne P active boxes i).status.found_route = true →
      (RouteOne P active boxes i).status.route_had_conflicts = some false) ∧
    (∃ ras, (RouteAll (RouteAll_passBody active script) ()).2.2.getLast? =
      some { i := 6, with_conflicts := false, is_smoothing := true, ras := ras }) ∧
    (RouteAll (RouteAll_passBody active script) ()).1.conflict_subnets = 0 := by
  obtain ⟨h1, h2⟩ := RouteOne_without_conflicts P active boxes i hwc
  obtain ⟨_, _, hlast⟩ :=
    RouteAll_loop_spec (RouteAll_passBody active script) 6 7 0 () ⟨0, 0, 0⟩
      (by decide) (by decide)
  refine ⟨h1, h2, ⟨_, hlast⟩, ?_⟩
  obtain ⟨s1, hs1⟩ := RouteAll_loop_records (RouteAll_passBody active script) 6 7 0 ()
    ⟨0, 0, 0⟩ _ (List.mem_of_getLast?_eq_some hlast)
  have hs2 : (RouteAll (RouteAll_passBody active script) ()).1 =
      (RouteAll_passBody active script 6 false true s1).2 := hs1
  rw [hs2]
  exact RouteAll_passBody_conflicts active script 6 true s1

theorem no_conflicts_without_with_conflicts_witness :
    (InitAutoRouteParameters 6 ⟨goodStyle, true⟩ false true).with_conflicts = false ∧
    ((∀ b ∈ (RouteOne (InitAutoRouteParameters 6 ⟨goodStyle, true⟩ false true)
        (fun _ => true) searchBoxes searchInput).created, b.underlying = none) ∧
    ((RouteOne (InitAutoRouteParameters 6 ⟨goodStyle, true⟩ false true)
        (fun _ => true) searchBoxes searchInput).status.found_route = true →
      (RouteOne (InitAutoRouteParameters 6 ⟨goodStyle, true⟩ false true)
        (fun _ => true) searchBoxes searchInput).status.route_had_conflicts = some false) ∧
    (∃ ras, (RouteAll (RouteAll_passBody (fun _ => true) searchScript) ()).2.2.getLast? =
      some { i := 6, with_conflicts := false, is_smoothing := true, ras := ras }) ∧
    (RouteAll (RouteAll_passBody (fun _ => true) searchScript) ()).1.conflict_subnets = 0) :=
  ⟨rfl, no_conflicts_without_with_conflicts
    (InitAutoRouteParameters 6 ⟨goodStyle, true⟩ false true) (fun _ => true) searchBoxes
    searchInput searchScript rfl⟩

theorem MoveElementLowLevel_back (e : ElementType) (DX DY : Int) :
    MoveElementLowLevel (MoveElementLowLevel e DX DY) (-DX) (-DY) = e := by
  cases e with
  | mk bb side pins pads =>
    cases bb
    simp [MoveElementLowLevel]

/-- The flip of an element (mirror, then move back) changes its side and
nothing else. -/
theorem flip_eq (H : Int) (e : ElementType) :
    MoveElementLowLevel (MirrorElementCoordinates H e 0) 0
        (e.BoundingBox.Y1 - (MirrorElementCoordinates H e 0).BoundingBox.Y1) =
      { e with ONSOLDER := !e.ONSOLDER } := by
  cases e with
  | mk bb side pins pads =>
    cases bb
    simp only [MoveElementLowLevel, MirrorElementCoordinates, ElementType.mk.injEq,
      BoxType.mk.injEq, and_true, true_and]
    refine ⟨by omega, by omega, by omega, by omega⟩

theorem doPerturb_ROTATE_flip (s : PlacerBoard) (element : Nat) (undo : Bool) :
    doPerturb_ROTATE s element 0 undo =
      s.setElement element { s.Element element with ONSOLDER := !(s.Element element).ONSOLDER } := by
  cases undo <;> simp [doPerturb_ROTATE, flip_eq]

theorem doPerturb_ROTATE_flip_of (s : PlacerBoard) (element rotate : Nat) (undo : Bool)
    (h : rotate % 256 = 0) :
    doPerturb_ROTATE s element rotate undo =
      s.setElement element { s.Element element with ONSOLDER := !(s.Element element).ONSOLDER } := by
  cases undo <;> simp [doPerturb_ROTATE, flip_eq, h]

theorem setElement_Element (s : PlacerBoard) (i : Nat) (e : ElementType) (j : Nat) :
    (s.setElement i e).Element j = if j = i then e else s.Element j := rfl

/-- Where the undo of `doPerturb` does restore the board: after a SHIFT, a
flip (`ROTATE` with `rotate = 0`) or an EXCHANGE, `doPerturb (pt, False)`
followed by `doPerturb (pt, True)` leaves every element as it was. -/
theorem doPerturb_undo_restores (s : PlacerBoard) (pt : PerturbationType)
    (h : pt.which = .ROTATE → pt.rotate % 256 = 0) :
    (doPerturb (doPerturb s pt false) pt true).Element = s.Element := by
  funext j
  cases hw : pt.which with
  | SHIFT =>
    simp only [doPerturb, hw, setElement_Element, if_true, Bool.false_eq_true, if_false]
    split
    · rename_i hj
      rw [hj]; exact MoveElementLowLevel_back _ _ _
    · rfl
  | ROTATE =>
    have h0 := h hw
    simp only [doPerturb, hw, doPerturb_ROTATE_flip_of _ _ _ _ h0, setElement_Element, if_true]
    split
    · rename_i hj
      rw [hj]
      cases s.Element pt.element
      simp
    · rfl
  | EXCHANGE =>
    simp only [doPerturb, hw, doPerturb_ROTATE_flip, setElement_Element]
    by_cases hab : pt.other = pt.element
    · simp only [hab, if_true, ne_eq, not_true_eq_false, if_false, setElement_Element]
      split
      · rename_i hj
        rw [hj]
        cases s.Element pt.element with
        | mk bb side pins pads => cases bb; simp [MoveElementLowLevel]
      · rfl
    · have hba : ¬ pt.element = pt.other := fun h => hab h.symm
      by_cases hside : (s.Element pt.element).ONSOLDER = (s.Element pt.other).ONSOLDER
      · simp [hab, hba, hside, MoveElementLowLevel, setElement_Element]
        split
        · rename_i hj; rw [hj]
          generalize s.Element pt.element = E at hside ⊢
          generalize s.Element pt.other = O at hside ⊢
          obtain ⟨⟨_, _, _, _⟩, _, _, _⟩ := E
          obtain ⟨⟨_, _, _, _⟩, _, _, _⟩ := O
          simp only [ElementType.mk.injEq, BoxType.mk.injEq, Bool.not_not] at hside ⊢
          repeat' (first | trivial | omega | apply And.intro)
        · split
          · rename_i hj; rw [hj]
            generalize s.Element pt.element = E at hside ⊢
            generalize s.Element pt.other = O at hside ⊢
            obtain ⟨⟨_, _, _, _⟩, _, _, _⟩ := E
            obtain ⟨⟨_, _, _, _⟩, _, _, _⟩ := O
            simp only [ElementType.mk.injEq, BoxType.mk.injEq, Bool.not_not] at hside ⊢
            repeat' (first | trivial | omega | apply And.intro | exact hside.symm)
          · rfl
      · simp [hab, hba, hside, MoveElementLowLevel, setElement_Element]
        split
        · rename_i hj; rw [hj]
          generalize s.Element pt.element = E at hside ⊢
          generalize s.Element pt.other = O at hside ⊢
          obtain ⟨⟨_, _, _, _⟩, _, _, _⟩ := E
          obtain ⟨⟨_, _, _, _⟩, _, _, _⟩ := O
          simp only [ElementType.mk.injEq, BoxType.mk.injEq, Bool.not_not] at hside ⊢
          repeat' (first | trivial | omega | apply And.intro)
        · split
          · rename_i hj; rw [hj]
            generalize s.Element pt.element = E at hside ⊢
            generalize s.Element pt.other = O at hside ⊢
            obtain ⟨⟨_, _, _, _⟩, _, _, _⟩ := E
            obtain ⟨⟨_, _, _, _⟩, _, _, _⟩ := O
            simp only [ElementType.mk.injEq, BoxType.mk.injEq, Bool.not_not] at hside ⊢
            repeat' (first | trivial | omega | apply And.intro)
          · rfl

/-! ### The placer: `createPerturbation` -/


/-- Every perturbation that `createPerturbation` returns has one of its
three shapes. -/
theorem createPerturbation_shape (board : PlacerBoard) (raw : ℚ → Int → Nat → Int)
    (selected : List Nat) (T : ℚ) :
    ∀ (n : Nat) (draws : List Nat), draws.length ≤ n → ∀ pt : PerturbationType,
      createPerturbation board raw selected T draws = some pt →
      perturbation_shape board raw selected T pt := by
  intro n
  induction n with
  | zero =>
    intro draws hlen pt h
    have : draws = [] := List.length_eq_zero.mp (Nat.le_zero.mp hlen)
    subst this
    simp [createPerturbation] at h
  | succ n ih =>
    intro draws hlen pt h
    match draws, hlen, h with
    | [], _, h => simp [createPerturbation] at h
    | [_], _, h => simp [createPerturbation] at h
    | [_, _], _, h => simp [createPerturbation] at h
    | r0 :: r1 :: r2 :: rest, hlen, h =>
      rw [createPerturbation] at h
      simp only at h
      split at h
      · -- shift
        cases rest with
        | nil => simp [createPerturbation_SHIFT] at h
        | cons r3 rest =>
          simp only [createPerturbation_SHIFT, Option.some.injEq] at h
          subst h
          exact ⟨⟨r0, rfl⟩, Or.inl ⟨_, _, rfl, rfl, rfl⟩⟩
      · -- rotate
        simp only [Option.some.injEq] at h
        subst h
        exact ⟨⟨r0, rfl⟩, Or.inr (Or.inl ⟨r2, rfl, rfl⟩)⟩
      · -- exchange
        rename_i hne0 hne1
        split at h
        · refine ih rest ?_ pt h
          simp only [List.length_cons] at hlen
          omega
        · rename_i hok
          simp only [Option.some.injEq] at h
          subst h
          refine ⟨⟨r0, rfl⟩, Or.inr (Or.inr ⟨r2, rfl, ?_, rfl, hok⟩)⟩
          by_contra hlen1
          have h2 : (if selected.length > 1 then 3 else 2) = 2 := if_neg hlen1
          rw [h2] at hne0 hne1
          rcases Nat.mod_two_eq_zero_or_one r1 with h0 | h1
          · exact hne0 h0
          · exact hne1 h1

/-! ### The placer: the annealing loop -/

/-- The cutoff for good moves is `20 * PtrN`. -/
theorem good_move_cutoff_eq (PtrN : Nat) : good_move_cutoff PtrN = 20 * (PtrN : Int) := by
  unfold good_move_cutoff
  have h : CostParameter.m * (PtrN : ℚ) = (((20 * (PtrN : Int)) : Int) : ℚ) := by
    simp [CostParameter]
  rw [h, Int.floor_intCast]

/-- One iteration of the annealing loop adds one to `moves`, at most one to
`good_moves`, and then tests for the end of the stage. -/
theorem anneal_iteration_spec (PtrN : Nat) (s : anneal_state) (o : move_outcome) :
    ∃ s1 : anneal_state, s1.T = s.T ∧ s1.moves = s.moves + 1 ∧
      s.good_moves ≤ s1.good_moves ∧ s1.good_moves ≤ s.good_moves + 1 ∧
      anneal_iteration PtrN s o =
        if s1.good_moves ≥ good_move_cutoff PtrN ∨ s1.moves ≥ move_cutoff PtrN then
          if anneal_is_end ⟨s1.T, s1.good_moves, s1.moves⟩ then
            (s1, some ⟨s1.T, s1.good_moves, s1.moves⟩, true)
          else
            ({ s1 with moves := 0, good_moves := 0, T := s1.T * CostParameter.gamma },
              some ⟨s1.T, s1.good_moves, s1.moves⟩, false)
        else (s1, none, false) := by
  cases o
  · exact ⟨{ s with good_moves := s.good_moves + 1, steps := s.steps + 1, moves := s.moves + 1 },
      rfl, rfl, by simp, by simp, rfl⟩
  · exact ⟨{ s with steps := s.steps + 1, moves := s.moves + 1 }, rfl, rfl, by simp, by simp, rfl⟩
  · exact ⟨{ s with moves := s.moves + 1 }, rfl, rfl, by simp, by simp, rfl⟩

/-- A stage of the annealing comes to its end, and the loop stops there or,
if the next stage does, later. -/
theorem anneal_stage_terminates (PtrN : Nat) (outcomes : Nat → move_outcome) (T : ℚ)
    (hnext : ¬ T < 5 → ∀ (s1 : anneal_state) (k1 : Nat),
      s1.T = T * CostParameter.gamma → s1.good_moves = 0 → s1.moves = 0 →
      ∃ n, ∀ fuel, n ≤ fuel → ∃ s2 log,
        anneal_loop PtrN outcomes fuel k1 s1 = some (s2, log) ∧
        anneal_log_ok PtrN (T * CostParameter.gamma) s2 log) :
    ∀ (j : Nat) (s : anneal_state) (k : Nat), s.T = T → s.moves < move_cutoff PtrN →
      s.good_moves < good_move_cutoff PtrN → move_cutoff PtrN - s.moves ≤ (j : Int) →
      ∃ n, ∀ fuel, n ≤ fuel → ∃ s2 log,
        anneal_loop PtrN outcomes fuel k s = some (s2, log) ∧ anneal_log_ok PtrN T s2 log := by
  intro j
  induction j with
  | zero =>
    intro s k _ hm _ hj
    simp only [Nat.cast_zero] at hj
    omega
  | succ j ih =>
    intro s k hT hm hg hj
    obtain ⟨s1, h1T, h1m, h1g, h1g2, hit⟩ := anneal_iteration_spec PtrN s (outcomes k)
    by_cases hstage : s1.good_moves ≥ good_move_cutoff PtrN ∨ s1.moves ≥ move_cutoff PtrN
    · rw [if_pos hstage] at hit
      have hb : s1.moves ≤ move_cutoff PtrN := by omega
      by_cases hend : anneal_is_end ⟨s1.T, s1.good_moves, s1.moves⟩
      · rw [if_pos hend] at hit
        refine ⟨1, fun fuel hfuel => ?_⟩
        obtain ⟨f, rfl⟩ : ∃ f, fuel = f + 1 := ⟨fuel - 1, by omega⟩
        refine ⟨s1, [⟨s1.T, s1.good_moves, s1.moves⟩], ?_, ?_⟩
        · simp only [anneal_loop, hit, if_true]
        · refine ⟨?_, ?_, List.chain'_singleton _, ⟨_, rfl, hend, rfl, rfl, rfl⟩⟩
          · simp [h1T, hT]
          · intro e he
            simp only [List.mem_singleton] at he
            subst he
            exact ⟨hb, hstage⟩
      · rw [if_neg hend] at hit
        have hT5 : ¬ T < 5 := by
          intro h5
          exact hend (Or.inl (by show s1.T < 5; rw [h1T, hT]; exact h5))
        obtain ⟨n, hn⟩ := hnext hT5
          { s1 with moves := 0, good_moves := 0, T := s1.T * CostParameter.gamma } (k + 1)
          (by show s1.T * CostParameter.gamma = T * CostParameter.gamma; rw [h1T, hT]) rfl rfl
        refine ⟨n + 1, fun fuel hfuel => ?_⟩
        obtain ⟨f, rfl⟩ : ∃ f, fuel = f + 1 := ⟨fuel - 1, by omega⟩
        obtain ⟨s2, log, hrun, hhead, hall, hchain, e, hlast, hlast2⟩ := hn f (by omega)
        refine ⟨s2, ⟨s1.T, s1.good_moves, s1.moves⟩ :: log, ?_, ?_⟩
        · simp only [anneal_loop, hit, hrun]
          simp
        · refine ⟨?_, ?_, ?_, ⟨e, ?_, hlast2⟩⟩
          · simp [h1T, hT]
          · intro e1 he1
            rcases List.mem_cons.mp he1 with h | h
            · subst h
              exact ⟨hb, hstage⟩
            · exact hall e1 h
          · rw [List.chain'_cons']
            refine ⟨?_, hchain⟩
            intro y hy
            refine ⟨hend, ?_⟩
            rw [Option.mem_def] at hy
            rw [hy] at hhead
            simp only [Option.map_some', Option.some.injEq] at hhead
            rw [hhead, h1T, hT]
          · cases log with
            | nil => simp at hlast
            | cons a l => rw [List.getLast?_cons_cons]; exact hlast
    · rw [if_neg hstage] at hit
      have hns : ¬ s1.good_moves ≥ good_move_cutoff PtrN ∧ ¬ s1.moves ≥ move_cutoff PtrN :=
        not_or.mp hstage
      obtain ⟨n, hn⟩ := ih s1 (k + 1) (h1T.trans hT) (by omega) (by omega)
        (by push_cast at hj ⊢; omega)
      refine ⟨n + 1, fun fuel hfuel => ?_⟩
      obtain ⟨f, rfl⟩ : ∃ f, fuel = f + 1 := ⟨fuel - 1, by omega⟩
      obtain ⟨s2, log, hrun, hok⟩ := hn f (by omega)
      refine ⟨s2, log, ?_, hok⟩
      simp only [anneal_loop, hit, hrun]
      simp

/-- The annealing loop stops when started at the beginning of a stage whose
temperature falls below 5 after `K` further stages. -/
theorem anneal_loop_stops (PtrN : Nat) (hN : 1 ≤ PtrN) (outcomes : Nat → move_outcome) :
    ∀ (K : Nat) (T : ℚ), T * CostParameter.gamma ^ K < 5 →
      ∀ (s : anneal_state) (k : Nat), s.T = T → s.good_moves = 0 → s.moves = 0 →
      ∃ n, ∀ fuel, n ≤ fuel → ∃ s2 log,
        anneal_loop PtrN outcomes fuel k s = some (s2, log) ∧ anneal_log_ok PtrN T s2 log := by
  have hG : good_move_cutoff PtrN = 20 * (PtrN : Int) := good_move_cutoff_eq PtrN
  have hC : move_cutoff PtrN = 2 * (20 * (PtrN : Int)) := by rw [move_cutoff, hG]
  intro K
  induction K with
  | zero =>
    intro T hT s k hs hg hm
    rw [pow_zero, mul_one] at hT
    exact anneal_stage_terminates PtrN outcomes T (fun h => absurd hT h) (40 * PtrN) s k hs
      (by rw [hm, hC]; omega) (by rw [hg, hG]; omega) (by rw [hm, hC]; push_cast; omega)
  | succ K ih =>
    intro T hT s k hs hg hm
    refine anneal_stage_terminates PtrN outcomes T
      (fun _ s1 k1 h1 h2 h3 => ih (T * CostParameter.gamma) ?_ s1 k1 h1 h2 h3) (40 * PtrN) s k hs
      (by rw [hm, hC]; omega) (by rw [hg, hG]; omega) (by rw [hm, hC]; push_cast; omega)
    rw [mul_assoc, ← pow_succ']
    exact hT

/-- C11: a SHIFT perturbation that `createPerturbation` returns for an
element whose bounding box is no wider and no taller than the board keeps the
bounding box on the board: `0 <= X1 + DX`, `X2 + DX <= MaxWidth`,
`0 <= Y1 + DY` and `Y2 + DY <= MaxHeight`. -/
theorem createPerturbation_SHIFT_on_board (board : PlacerBoard) (raw : ℚ → Int → Nat → Int)
    (selected : List Nat) (T : ℚ) (draws : List Nat) (pt : PerturbationType)
    (h : createPerturbation board raw selected T draws = some pt)
    (hk : pt.which = perturbation_kind.SHIFT)
    (hw : (board.Element pt.element).BoundingBox.X2 - (board.Element pt.element).BoundingBox.X1
      ≤ board.MaxWidth)
    (hh : (board.Element pt.element).BoundingBox.Y2 - (board.Element pt.element).BoundingBox.Y1
      ≤ board.MaxHeight) :
    0 ≤ (board.Element pt.element).BoundingBox.X1 + pt.DX ∧
    (board.Element pt.element).BoundingBox.X2 + pt.DX ≤ board.MaxWidth ∧
    0 ≤ (board.Element pt.element).BoundingBox.Y1 + pt.DY ∧
    (board.Element pt.element).BoundingBox.Y2 + pt.DY ≤ board.MaxHeight := by
  obtain ⟨_, hs | hs | hs⟩ := createPerturbation_shape board raw selected T _ draws (le_refl _) pt h
  · obtain ⟨r2, r3, _, hDX, hDY⟩ := hs
    rw [hDX, hDY]
    simp only [limit_shift]
    refine ⟨?_, ?_, ?_, ?_⟩ <;> omega
  · obtain ⟨_, hr, _⟩ := hs
    rw [hk] at hr
    exact absurd hr (by decide)
  · obtain ⟨_, hr, _⟩ := hs
    rw [hk] at hr
    exact absurd hr (by decide)

/-- C11 (witness): on the board of 1000 by 1000 at `T = 2000`, the element
at `(300,100)-(400,200)` with raw shifts 734 and -423: the snapped shifts 800
and -500 are limited to 600 and -100. -/
theorem createPerturbation_SHIFT_on_board_witness :
    createPerturbation placerBoard rawShift [0, 1, 2] 2000 [1, 0, 1234, 77] =
      some { element := 1, which := .SHIFT, DX := 600, DY := -100, rotate := 0, other := 0 } ∧
    0 ≤ (300 : Int) + 600 ∧ (400 : Int) + 600 ≤ 1000 ∧ 0 ≤ (100 : Int) + -100 ∧
    (200 : Int) + -100 ≤ 1000 :=
  have h : createPerturbation placerBoard rawShift [0, 1, 2] 2000 [1, 0, 1234, 77] =
      some { element := 1, which := .SHIFT, DX := 600, DY := -100, rotate := 0, other := 0 } := by
    have hg : shift_grid 2000 = 100 := by norm_num [shift_grid, CostParameter]
    simp only [createPerturbation, createPerturbation_SHIFT, hg]
    decide
  ⟨h, createPerturbation_SHIFT_on_board placerBoard rawShift [0, 1, 2] 2000 [1, 0, 1234, 77]
    { element := 1, which := .SHIFT, DX := 600, DY := -100, rotate := 0, other := 0 } h rfl
    (by decide) (by decide)⟩

/-- C12 (the code at the failing input): the element 1 of the example board
has two pins and two pads; `isSMD` is `PadN != 0`, so the ROTATE perturbation
drawn with `random () & 3 = 0` has `rotate = 0`, the flip to the other side. -/
theorem createPerturbation_flips_element_with_pins :
    (placerBoard.Element 1).PinN = 2 ∧ (placerBoard.Element 1).PadN = 2 ∧
    createPerturbation placerBoard rawShift [0, 1, 2] 2000 [1, 1, 4] =
      some { element := 1, which := .ROTATE, DX := 0, DY := 0, rotate := 0, other := 0 } := by
  refine ⟨rfl, rfl, ?_⟩
  rfl

/-- C13: an EXCHANGE perturbation that `createPerturbation` returns never
pairs a component that has pins with a partner on the solder side, in either
role; and a draw of such a pair is dropped: the result is that of
`createPerturbation` on the draws that follow. -/
theorem createPerturbation_EXCHANGE_sides (board : PlacerBoard) (raw : ℚ → Int → Nat → Int)
    (selected : List Nat) (T : ℚ) :
    (∀ (draws : List Nat) (pt : PerturbationType),
      createPerturbation board raw selected T draws = some pt →
      pt.which = perturbation_kind.EXCHANGE →
      ¬ ((board.Element pt.element).PinN ≠ 0 ∧ (board.Element pt.other).ONSOLDER = true) ∧
      ¬ ((board.Element pt.other).PinN ≠ 0 ∧ (board.Element pt.element).ONSOLDER = true)) ∧
    (∀ (r0 r1 r2 : Nat) (rest : List Nat), 1 < selected.length → r1 % 3 = 2 →
      (((board.Element (selected.getD (r0 % selected.length) 0)).PinN ≠ 0 ∧
        (board.Element (createPerturbation_other selected
          (selected.getD (r0 % selected.length) 0) r2)).ONSOLDER = true) ∨
       ((board.Element (createPerturbation_other selected
          (selected.getD (r0 % selected.length) 0) r2)).PinN ≠ 0 ∧
        (board.Element (selected.getD (r0 % selected.length) 0)).ONSOLDER = true)) →
      createPerturbation board raw selected T (r0 :: r1 :: r2 :: rest) =
        createPerturbation board raw selected T rest) := by
  constructor
  · intro draws pt h hk
    obtain ⟨_, hs | hs | hs⟩ :=
      createPerturbation_shape board raw selected T _ draws (le_refl _) pt h
    · obtain ⟨_, _, hr, _⟩ := hs
      rw [hk] at hr
      exact absurd hr (by decide)
    · obtain ⟨_, hr, _⟩ := hs
      rw [hk] at hr
      exact absurd hr (by decide)
    · obtain ⟨_, _, _, _, hok⟩ := hs
      exact not_or.mp hok
  · intro r0 r1 r2 rest hlen hr1 hbad
    rw [createPerturbation]
    simp only
    rw [if_pos hlen, hr1]
    exact if_pos hbad

/-- C13 (witness): on the example board the exchange of element 0, which has
pins, with element 1, on the component side, is returned; the draw of element
0 with the solder side element 2 is dropped and the next draws give a
rotation. -/
theorem createPerturbation_EXCHANGE_sides_witness :
    (createPerturbation placerBoard rawShift [0, 1, 2] 2000 [0, 2, 1] =
      some { element := 0, which := .EXCHANGE, DX := 0, DY := 0, rotate := 0, other := 1 } ∧
     ¬ ((placerBoard.Element 0).PinN ≠ 0 ∧ (placerBoard.Element 1).ONSOLDER = true) ∧
     ¬ ((placerBoard.Element 1).PinN ≠ 0 ∧ (placerBoard.Element 0).ONSOLDER = true)) ∧
    createPerturbation placerBoard rawShift [0, 1, 2] 2000 [0, 2, 0, 1, 1, 5] =
      createPerturbation placerBoard rawShift [0, 1, 2] 2000 [1, 1, 5] :=
  ⟨⟨rfl, (createPerturbation_EXCHANGE_sides placerBoard rawShift [0, 1, 2] 2000).1 [0, 2, 1]
      { element := 0, which := .EXCHANGE, DX := 0, DY := 0, rotate := 0, other := 1 } rfl rfl⟩,
    (createPerturbation_EXCHANGE_sides placerBoard rawShift [0, 1, 2] 2000).2 0 2 0 [1, 1, 5]
      (by decide) (by decide) (by decide)⟩

/-- The out-of-bounds term after the elements of a list, from any start. -/
theorem ComputeCost_delta3_foldl (MaxWidth MaxHeight : Int) (elements : List ElementType) :
    ∀ delta3 : ℚ,
    elements.foldl (ComputeCost_delta3_step MaxWidth MaxHeight) delta3 =
      delta3 + CostParameter.out_of_bounds_penalty *
        ((elements.filter (fun element => ¬ (element.PinN = 0 ∧ element.PadN = 0) ∧
          out_of_bounds MaxWidth MaxHeight element)).length : ℚ) := by
  induction elements with
  | nil => intro delta3; simp
  | cons e l ih =>
    intro delta3
    rw [List.foldl_cons, ih, List.filter_cons]
    unfold ComputeCost_delta3_step
    by_cases h1 : e.PinN = 0 ∧ e.PadN = 0
    · rw [if_pos h1]
      simp [h1]
    · rw [if_neg h1]
      by_cases h2 : out_of_bounds MaxWidth MaxHeight e
      · rw [if_pos h2]
        simp [h1, h2]
        ring
      · rw [if_neg h2]
        simp [h1, h2]

/-- C15 (counterexample): a board whose only component has neither pins nor
pads and lies off the board has an out-of-bounds term of 0, not of one
penalty. -/
theorem ComputeCost_delta3_skips_bare_element :
    out_of_bounds 1000 1000 bareElement ∧
    ComputeCost_delta3 1000 1000 [bareElement] = 0 ∧
    ComputeCost_delta3 1000 1000 [bareElement] ≠
      CostParameter.out_of_bounds_penalty *
        (([bareElement].filter (fun element => out_of_bounds 1000 1000 element)).length : ℚ) := by
  refine ⟨by decide, ?_, ?_⟩ <;>
    norm_num [ComputeCost_delta3, ComputeCost_delta3_step, bareElement, out_of_bounds,
      CostParameter]

/-- C15 (amended): the out-of-bounds term of `ComputeCost` is
`out_of_bounds_penalty = 1e6` times the number of components that have at
least one pin or pad and whose bounding box escapes the board. -/
theorem ComputeCost_delta3_eq (MaxWidth MaxHeight : Int) (elements : List ElementType) :
    ComputeCost_delta3 MaxWidth MaxHeight elements =
      1000000 * ((elements.filter (fun element =>
        ¬ (element.PinN = 0 ∧ element.PadN = 0) ∧
          (element.BoundingBox.X1 < 0 ∨ element.BoundingBox.Y1 < 0 ∨
           element.BoundingBox.X2 ≥ MaxWidth ∨ element.BoundingBox.Y2 ≥ MaxHeight))).length : ℚ) := by
  rw [ComputeCost_delta3, ComputeCost_delta3_foldl, zero_add]
  rfl

/-! ### Searches of the layer tree -/

/-- A search of the tree keeps an invariant of the closure and the boxes dealt
with so far, if every step of it does: a box given to the box predicate, and
the boxes below a region that the region predicate turns down. -/
theorem kd_search_inv {α σ : Type} (boxOf : α → BoxType)
    (region_in_search : BoxType → σ → Bool) (rectangle_in_region : α → σ → Bool × σ)
    (good : α → Prop) (Inv : σ → List α → Prop)
    (hleaf : ∀ x cl S, good x → Inv cl S → Inv (rectangle_in_region x cl).2 (S ++ [x]))
    (hprune : ∀ region items cl S, (∀ x ∈ items, good x) →
      (∀ x ∈ items, box_in_box region (boxOf x) = true) →
      region_in_search region cl = false → Inv cl S → Inv cl (S ++ items)) :
    ∀ (T : kdtree_t α) (cl : σ) (S : List α), T.regionsCover boxOf = true →
      (∀ x ∈ T.items, good x) → Inv cl S →
      Inv (kd_search region_in_search rectangle_in_region T cl).2 (S ++ T.items) := by
  intro T
  induction T with
  | nil =>
    intro cl S _ _ h
    simpa [kd_search, kdtree_t.items] using h
  | leaf x =>
    intro cl S _ hg h
    simp only [kd_search, kdtree_t.items]
    exact hleaf x cl S (hg x (by simp [kdtree_t.items])) h
  | node region lo hi ihlo ihhi =>
    intro cl S hcover hg h
    simp only [kdtree_t.regionsCover, Bool.and_eq_true, List.all_eq_true] at hcover
    obtain ⟨⟨hreg, hclo⟩, hchi⟩ := hcover
    simp only [kdtree_t.items] at hg hreg ⊢
    by_cases hr : region_in_search region cl = true
    · simp only [kd_search, hr, if_true]
      rw [← List.append_assoc]
      exact ihhi _ _ hchi (fun x hx => hg x (List.mem_append_right _ hx))
        (ihlo cl S hclo (fun x hx => hg x (List.mem_append_left _ hx)) h)
    · simp only [kd_search, hr]
      exact hprune region _ cl S hg hreg (by simpa using hr) h

/-- The rotation to north keeps one box inside another. -/
theorem ROTATEBOX_TO_NORTH_mono (outer inner : BoxType) (dir : Nat)
    (h : box_in_box outer inner = true) :
    (ROTATEBOX_TO_NORTH outer dir).X1 ≤ (ROTATEBOX_TO_NORTH inner dir).X1 ∧
    (ROTATEBOX_TO_NORTH inner dir).X2 ≤ (ROTATEBOX_TO_NORTH outer dir).X2 ∧
    (ROTATEBOX_TO_NORTH outer dir).Y1 ≤ (ROTATEBOX_TO_NORTH inner dir).Y1 ∧
    (ROTATEBOX_TO_NORTH inner dir).Y2 ≤ (ROTATEBOX_TO_NORTH outer dir).Y2 := by
  simp only [box_in_box, Bool.and_eq_true, decide_eq_true_eq] at h
  obtain ⟨⟨⟨h1, h2⟩, h3⟩, h4⟩ := h
  unfold ROTATEBOX_TO_NORTH
  split <;> refine ⟨?_, ?_, ?_, ?_⟩ <;> first | omega | (simp only; omega)

/-- The bloated region of a node, rotated to north, contains the bloated box,
rotated to north, of every box below the node that is bloated by no more than
`maxbloat`. -/
theorem north_bloated_in_region (P : AutoRouteParametersType) (boxes : Nat → routebox_t)
    (e : edge_t) (maxbloat : Int) (region : BoxType) (x : pathbox)
    (hgood : box_in_box (bloat_box (x.rb boxes).box maxbloat) (bloat_routebox P (x.rb boxes)) = true)
    (hreg : box_in_box region (x.rb boxes).box = true) :
    (ROTATEBOX_TO_NORTH (bloat_box region maxbloat) e.expand_dir).X1 ≤
      (north_bloated P boxes e x).X1 ∧
    (north_bloated P boxes e x).X2 ≤
      (ROTATEBOX_TO_NORTH (bloat_box region maxbloat) e.expand_dir).X2 ∧
    (ROTATEBOX_TO_NORTH (bloat_box region maxbloat) e.expand_dir).Y1 ≤
      (north_bloated P boxes e x).Y1 ∧
    (north_bloated P boxes e x).Y2 ≤
      (ROTATEBOX_TO_NORTH (bloat_box region maxbloat) e.expand_dir).Y2 := by
  apply ROTATEBOX_TO_NORTH_mono
  simp only [box_in_box, bloat_box, Bool.and_eq_true, decide_eq_true_eq] at hgood hreg ⊢
  refine ⟨⟨⟨?_, ?_⟩, ?_⟩, ?_⟩ <;> omega

/-- The invariant of `FindBlocker` extends to boxes that do not qualify or are
farther than the blocker found so far. -/
theorem FindBlocker_inv_extend (P : AutoRouteParametersType) (boxes : Nat → routebox_t)
    (e : edge_t) (maxbloat : Int) (fbi : FindBlocker_info) (seen items : List pathbox)
    (h : FindBlocker_inv P boxes e maxbloat fbi seen)
    (hitems : ∀ x ∈ items, ¬ blocker_candidate P boxes e x ∨
      (fbi.blocker ≠ none ∧ fbi.min_dist < blocker_dist P boxes e x)) :
    FindBlocker_inv P boxes e maxbloat fbi (seen ++ items) := by
  obtain ⟨h1, h2, h3, h4⟩ := h
  refine ⟨h1, h2, ?_, ?_⟩
  · intro hb x hx
    rcases List.mem_append.mp hx with hx | hx
    · exact h3 hb x hx
    · rcases hitems x hx with hc | hc
      · exact hc
      · exact absurd hb hc.1
  · intro b hb
    obtain ⟨hb1, hb2, hb3, hb4⟩ := h4 b hb
    refine ⟨List.mem_append_left _ hb1, hb2, hb3, ?_⟩
    intro x hx hcx
    rcases List.mem_append.mp hx with hx | hx
    · exact hb4 x hx hcx
    · rcases hitems x hx with hc | hc
      · exact absurd hcx hc
      · rw [← hb3]; exact le_of_lt hc.2

/-- The box predicate of `FindBlocker` keeps the invariant. -/
theorem FindBlocker_checkbox_box (P : AutoRouteParametersType) (boxes : Nat → routebox_t)
    (e : edge_t) (maxbloat : Int) (x : pathbox) (fbi : FindBlocker_info) (seen : List pathbox)
    (h : FindBlocker_inv P boxes e maxbloat fbi seen) :
    FindBlocker_inv P boxes e maxbloat (__FindBlocker_checkbox P boxes (.inr x) fbi).2
      (seen ++ [x]) := by
  have he : fbi.expansion_edge = e := h.1
  have hskip : ∀ (_ : ¬ blocker_candidate P boxes e x ∨
      (fbi.blocker ≠ none ∧ fbi.min_dist < blocker_dist P boxes e x)),
      FindBlocker_inv P boxes e maxbloat fbi (seen ++ [x]) := by
    intro hx
    refine FindBlocker_inv_extend P boxes e maxbloat fbi seen [x] h ?_
    intro y hy
    rw [List.mem_singleton] at hy
    rw [hy]; exact hx
  cases fbi with
  | mk e0 mb bl md =>
  obtain rfl : e = e0 := he.symm
  change FindBlocker_inv P boxes e maxbloat
    (if (north_bloated P boxes e x).X2 < (north_edge boxes e).X1 then (false, ⟨e, mb, bl, md⟩)
      else if (north_bloated P boxes e x).X1 > (north_edge boxes e).X2 then
        (false, ⟨e, mb, bl, md⟩)
      else if (north_bloated P boxes e x).Y1 > (north_edge boxes e).Y1 then
        (false, ⟨e, mb, bl, md⟩)
      else if bl ≠ none ∧ (north_bloated P boxes e x).Y2 < (north_edge boxes e).Y1 - md then
        (false, ⟨e, mb, bl, md⟩)
      else if (north_bloated P boxes e x).X2 = (north_edge boxes e).X1 ∨
          (north_bloated P boxes e x).X1 = (north_edge boxes e).X2 then (false, ⟨e, mb, bl, md⟩)
      else if x = nonorphan_parent e.rb then (false, ⟨e, mb, bl, md⟩)
      else (true, ⟨e, mb, some x, (north_edge boxes e).Y1 - (north_bloated P boxes e x).Y2⟩)).2
    (seen ++ [x])
  have hskip2 : ∀ (_ : ¬ blocker_candidate P boxes e x ∨
      (bl ≠ none ∧ md < blocker_dist P boxes e x)),
      FindBlocker_inv P boxes e maxbloat ⟨e, mb, bl, md⟩ (seen ++ [x]) := hskip
  split_ifs with c1 c2 c3 c4 c5 c6
  · exact hskip2 (Or.inl (fun hc => by have := hc.2.1; omega))
  · exact hskip2 (Or.inl (fun hc => by have := hc.2.2.1; omega))
  · exact hskip2 (Or.inl (fun hc => by have := hc.2.2.2; omega))
  · exact hskip2 (Or.inr ⟨c4.1, by unfold blocker_dist; omega⟩)
  · exact hskip2 (Or.inl (fun hc => by have := hc.2.1; have := hc.2.2.1; omega))
  · exact hskip2 (Or.inl (fun hc => hc.1 c6))
  · obtain ⟨h1, h2, h3, h4⟩ := h
    have h3b : bl = none → ∀ y ∈ seen, ¬ blocker_candidate P boxes e y := h3
    have h4b : ∀ b, bl = some b → b ∈ seen ∧ blocker_candidate P boxes e b ∧
        md = blocker_dist P boxes e b ∧ ∀ y ∈ seen, blocker_candidate P boxes e y →
          blocker_dist P boxes e b ≤ blocker_dist P boxes e y := h4
    have hcand : blocker_candidate P boxes e x :=
      ⟨c6, by omega, by omega, by omega⟩
    have hnear : ∀ y ∈ seen, blocker_candidate P boxes e y →
        blocker_dist P boxes e x ≤ blocker_dist P boxes e y := by
      intro y hy hcy
      cases hb : bl with
      | none => exact absurd hcy (h3b hb y hy)
      | some b =>
        obtain ⟨_, _, hb3, hb4⟩ := h4b b hb
        have hle := hb4 y hy hcy
        have c4b : ¬ (north_bloated P boxes e x).Y2 < (north_edge boxes e).Y1 - md :=
          fun hlt => c4 ⟨by rw [hb]; simp, hlt⟩
        unfold blocker_dist at hb3 hle ⊢
        omega
    refine ⟨rfl, h2, fun hb => absurd hb (by simp), ?_⟩
    intro b hb
    have hb2 : some x = some b := hb
    simp only [Option.some.injEq] at hb2
    subst hb2
    refine ⟨by simp, hcand, rfl, ?_⟩
    intro y hy hcy
    rcases List.mem_append.mp hy with hy | hy
    · exact hnear y hy hcy
    · rw [List.mem_singleton] at hy
      rw [hy]

/-- A region that the region predicate of `FindBlocker` turns down has no box
below it that qualifies and is as near as the blocker found so far. -/
theorem FindBlocker_checkbox_region (P : AutoRouteParametersType) (boxes : Nat → routebox_t)
    (e : edge_t) (maxbloat : Int) (region : BoxType) (items : List pathbox)
    (fbi : FindBlocker_info) (seen : List pathbox)
    (hgood : ∀ x ∈ items,
      box_in_box (bloat_box (x.rb boxes).box maxbloat) (bloat_routebox P (x.rb boxes)) = true)
    (hreg : ∀ x ∈ items, box_in_box region (x.rb boxes).box = true)
    (hr : (__FindBlocker_checkbox P boxes (.inl region) fbi).1 = false)
    (h : FindBlocker_inv P boxes e maxbloat fbi seen) :
    FindBlocker_inv P boxes e maxbloat fbi (seen ++ items) := by
  have he : fbi.expansion_edge = e := h.1
  have hm : fbi.maxbloat = maxbloat := h.2.1
  refine FindBlocker_inv_extend P boxes e maxbloat fbi seen items h ?_
  intro x hx
  obtain ⟨m1, m2, m3, m4⟩ :=
    north_bloated_in_region P boxes e maxbloat region x (hgood x hx) (hreg x hx)
  cases fbi with
  | mk e0 mb bl md =>
  obtain rfl : e = e0 := he.symm
  obtain rfl : maxbloat = mb := hm.symm
  have hr2 : (if (ROTATEBOX_TO_NORTH (bloat_box region maxbloat) e.expand_dir).X2 <
        (north_edge boxes e).X1 then (false, (⟨e, maxbloat, bl, md⟩ : FindBlocker_info))
      else if (ROTATEBOX_TO_NORTH (bloat_box region maxbloat) e.expand_dir).X1 >
        (north_edge boxes e).X2 then (false, ⟨e, maxbloat, bl, md⟩)
      else if (ROTATEBOX_TO_NORTH (bloat_box region maxbloat) e.expand_dir).Y1 >
        (north_edge boxes e).Y1 then (false, ⟨e, maxbloat, bl, md⟩)
      else if bl ≠ none ∧
          (ROTATEBOX_TO_NORTH (bloat_box region maxbloat) e.expand_dir).Y2 <
            (north_edge boxes e).Y1 - md then (false, ⟨e, maxbloat, bl, md⟩)
      else (true, ⟨e, maxbloat, bl, md⟩)).1 = false := hr
  show ¬ blocker_candidate P boxes e x ∨ (bl ≠ none ∧ md < blocker_dist P boxes e x)
  split_ifs at hr2 with c1 c2 c3 c4
  · exact Or.inl (fun hc => by have := hc.2.1; omega)
  · exact Or.inl (fun hc => by have := hc.2.2.1; omega)
  · exact Or.inl (fun hc => by have := hc.2.2.2; omega)
  · exact Or.inr ⟨c4.1, by unfold blocker_dist; omega⟩

/-- C16: for a tree whose node regions contain the boxes below them and whose
boxes are bloated by no more than `maxbloat`, `FindBlocker` returns a nearest
qualifying box: a returned box is a box of the tree that qualifies (it is not
the non-orphan parent of the edge and, rotated to north, its bloated box
overlaps the column of the edge by more than touching and starts at or above
the edge), no qualifying box of the tree has a smaller distance
`ebox.Y1 - rbox.Y2`, and the result is `NULL` exactly if no box of the tree
qualifies. -/
theorem FindBlocker_nearest (P : AutoRouteParametersType) (boxes : Nat → routebox_t)
    (kdtree : kdtree_t pathbox) (e : edge_t) (maxbloat : Int)
    (hcover : kdtree.regionsCover (fun x => (x.rb boxes).box) = true)
    (hbloat : ∀ x ∈ kdtree.items,
      box_in_box (bloat_box (x.rb boxes).box maxbloat) (bloat_routebox P (x.rb boxes)) = true) :
    (∀ b, FindBlocker P boxes kdtree e maxbloat = some b →
      b ∈ kdtree.items ∧ blocker_candidate P boxes e b ∧
      ∀ x ∈ kdtree.items, blocker_candidate P boxes e x →
        blocker_dist P boxes e b ≤ blocker_dist P boxes e x) ∧
    (FindBlocker P boxes kdtree e maxbloat = none ↔
      ∀ x ∈ kdtree.items, ¬ blocker_candidate P boxes e x) := by
  have hinv := kd_search_inv (fun x : pathbox => (x.rb boxes).box)
    (fun region fbi => (__FindBlocker_checkbox P boxes (.inl region) fbi).1)
    (fun box fbi => __FindBlocker_checkbox P boxes (.inr box) fbi)
    (fun x => box_in_box (bloat_box (x.rb boxes).box maxbloat)
      (bloat_routebox P (x.rb boxes)) = true)
    (FindBlocker_inv P boxes e maxbloat)
    (fun x cl S _ h => FindBlocker_checkbox_box P boxes e maxbloat x cl S h)
    (fun region items cl S hg hreg hr h =>
      FindBlocker_checkbox_region P boxes e maxbloat region items cl S hg hreg hr h)
    kdtree { expansion_edge := e, maxbloat := maxbloat, blocker := none, min_dist := 0 } []
    hcover hbloat
    ⟨rfl, rfl, fun _ x hx => absurd hx (List.not_mem_nil x), fun b hb => by simp at hb⟩
  rw [List.nil_append] at hinv
  obtain ⟨_, _, h3, h4⟩ := hinv
  refine ⟨?_, ?_⟩
  · intro b hb
    obtain ⟨hb1, hb2, _, hb4⟩ := h4 b hb
    exact ⟨hb1, hb2, hb4⟩
  · constructor
    · exact h3
    · intro hnone
      cases hb : FindBlocker P boxes kdtree e maxbloat with
      | none => rfl
      | some b => exact absurd (h4 b hb).2.1 (hnone b (h4 b hb).1)

/-- C16 (witness): above the source pin the line at `y = 70..80` is nearer
than the line at `y = 40..60`, and the pin itself is skipped as parent. -/
theorem FindBlocker_nearest_witness :
    FindBlocker pass0Parameters blockerBoxes blockerTree blockerEdge 15 = some (.board 2) ∧
    ((∀ b, FindBlocker pass0Parameters blockerBoxes blockerTree blockerEdge 15 = some b →
      b ∈ blockerTree.items ∧ blocker_candidate pass0Parameters blockerBoxes blockerEdge b ∧
      ∀ x ∈ blockerTree.items, blocker_candidate pass0Parameters blockerBoxes blockerEdge x →
        blocker_dist pass0Parameters blockerBoxes blockerEdge b ≤
          blocker_dist pass0Parameters blockerBoxes blockerEdge x) ∧
    (FindBlocker pass0Parameters blockerBoxes blockerTree blockerEdge 15 = none ↔
      ∀ x ∈ blockerTree.items, ¬ blocker_candidate pass0Parameters blockerBoxes blockerEdge x)) :=
  ⟨by decide, FindBlocker_nearest pass0Parameters blockerBoxes blockerTree blockerEdge 15
    (by decide) (by decide)⟩

/-- A search that does not jump leaves the closure as it was. -/
theorem kd_search_jmp_fio_ok (P : AutoRouteParametersType) (boxes : Nat → routebox_t) :
    ∀ (T : kdtree_t pathbox) (fio : fio_info) (r : Nat × fio_info),
      kd_search_jmp (fun region fio => fio_check P boxes (.inl region) fio)
        (fun box fio => (fio_check P boxes (.inr box) fio).map (fun r => (r, fio))) T fio =
          .ok r → r.2 = fio := by
  intro T
  induction T with
  | nil =>
    intro fio r h
    simp only [kd_search_jmp, Except.ok.injEq] at h
    rw [← h]
  | leaf x =>
    intro fio r h
    simp only [kd_search_jmp] at h
    cases hc : fio_check P boxes (.inr x) fio with
    | error j2 => rw [hc] at h; simp [Except.map] at h
    | ok b =>
      rw [hc] at h
      simp only [Except.map, Except.ok.injEq] at h
      rw [← h]
  | node region lo hi ihlo ihhi =>
    intro fio r h
    simp only [kd_search_jmp] at h
    cases hc : fio_check P boxes (.inl region) fio with
    | error j2 => rw [hc] at h; simp at h
    | ok b =>
      rw [hc] at h
      cases b with
      | false =>
        simp only [Except.ok.injEq] at h
        rw [← h]
      | true =>
        simp only at h
        cases h1 : kd_search_jmp (fun region fio => fio_check P boxes (.inl region) fio)
          (fun box fio => (fio_check P boxes (.inr box) fio).map (fun r => (r, fio))) lo fio with
        | error j2 => rw [h1] at h; simp at h
        | ok r1 =>
          rw [h1] at h
          simp only at h
          have e1 := ihlo fio r1 h1
          cases h2 : kd_search_jmp (fun region fio => fio_check P boxes (.inl region) fio)
            (fun box fio => (fio_check P boxes (.inr box) fio).map (fun r => (r, fio))) hi
            r1.2 with
          | error j2 => rw [h2] at h; simp at h
          | ok r2 =>
            rw [h2] at h
            simp only [Except.ok.injEq] at h
            have e2 := ihhi r1.2 r2 h2
            rw [← h]
            exact e2.trans e1

/-- A search that jumps out has stored a box of the tree that `fio_check`
jumped on. -/
theorem kd_search_jmp_fio (P : AutoRouteParametersType) (boxes : Nat → routebox_t) :
    ∀ (T : kdtree_t pathbox) (fio j : fio_info),
      kd_search_jmp (fun region fio => fio_check P boxes (.inl region) fio)
        (fun box fio => (fio_check P boxes (.inr box) fio).map (fun r => (r, fio))) T fio =
          .error j →
      ∃ x ∈ T.items, fio_check P boxes (.inr x) fio = .error j := by
  have hok := kd_search_jmp_fio_ok P boxes
  intro T
  induction T with
  | nil =>
    intro fio j h
    simp [kd_search_jmp] at h
  | leaf x =>
    intro fio j h
    simp only [kd_search_jmp] at h
    cases hc : fio_check P boxes (.inr x) fio with
    | error j2 =>
      rw [hc] at h
      simp only [Except.map, Except.error.injEq] at h
      exact ⟨x, by simp [kdtree_t.items], by rw [← h]; exact hc⟩
    | ok b => rw [hc] at h; simp [Except.map] at h
  | node region lo hi ihlo ihhi =>
    intro fio j h
    simp only [kd_search_jmp] at h
    cases hc : fio_check P boxes (.inl region) fio with
    | error j2 =>
      exfalso
      unfold fio_check at hc
      simp only at hc
      split_ifs at hc
    | ok b =>
      rw [hc] at h
      cases b with
      | false => simp at h
      | true =>
        simp only at h
        cases h1 : kd_search_jmp (fun region fio => fio_check P boxes (.inl region) fio)
          (fun box fio => (fio_check P boxes (.inr box) fio).map (fun r => (r, fio))) lo fio with
        | error j2 =>
          rw [h1] at h
          simp only [Except.error.injEq] at h
          obtain ⟨x, hx, hx2⟩ := ihlo fio j2 h1
          exact ⟨x, by simp [kdtree_t.items, hx], by rw [← h]; exact hx2⟩
        | ok r1 =>
          rw [h1] at h
          simp only at h
          have e1 := hok lo fio r1 h1
          cases h2 : kd_search_jmp (fun region fio => fio_check P boxes (.inl region) fio)
            (fun box fio => (fio_check P boxes (.inr box) fio).map (fun r => (r, fio))) hi
            r1.2 with
          | error j2 =>
            rw [h2] at h
            simp only [Except.error.injEq] at h
            obtain ⟨x, hx, hx2⟩ := ihhi r1.2 j2 h2
            rw [e1] at hx2
            exact ⟨x, by simp [kdtree_t.items, hx], by rw [← h]; exact hx2⟩
          | ok r2 => rw [h2] at h; simp at h

/-- C17 (amended): every box that `FindIntersectingObstacle` returns is a box
of the tree other than the non-orphan parent of the edge, and in the frame
rotated to north its bloated box overlaps the column of the edge by more than
touching and spans the line of the edge: `rbox.Y1 <= ebox.Y1 <= rbox.Y2`. -/
theorem FindIntersectingObstacle_intersects (P : AutoRouteParametersType)
    (boxes : Nat → routebox_t) (kdtree : kdtree_t pathbox) (e : edge_t) (maxbloat : Int)
    (rb : pathbox) (h : FindIntersectingObstacle P boxes kdtree e maxbloat = some rb) :
    rb ∈ kdtree.items ∧ rb ≠ nonorphan_parent e.rb ∧
    (north_bloated P boxes e rb).X2 > (north_edge boxes e).X1 ∧
    (north_bloated P boxes e rb).X1 < (north_edge boxes e).X2 ∧
    (north_bloated P boxes e rb).Y1 ≤ (north_edge boxes e).Y1 ∧
    (north_edge boxes e).Y1 ≤ (north_bloated P boxes e rb).Y2 := by
  unfold FindIntersectingObstacle at h
  cases hs : kd_search_jmp (fun region fio => fio_check P boxes (.inl region) fio)
      (fun box fio => (fio_check P boxes (.inr box) fio).map (fun r => (r, fio))) kdtree
      { edge := e, maxbloat := maxbloat, intersect := none } with
  | ok r =>
    rw [hs] at h
    have hr := kd_search_jmp_fio_ok P boxes kdtree _ r hs
    simp only [hr] at h
    exact absurd h (by simp)
  | error j =>
    rw [hs] at h
    simp only at h
    obtain ⟨x, hx, hjump⟩ := kd_search_jmp_fio P boxes kdtree _ j hs
    have hjump2 : (if (north_bloated P boxes e x).X2 ≤ (north_edge boxes e).X1 then .ok false
        else if (north_bloated P boxes e x).X1 ≥ (north_edge boxes e).X2 then .ok false
        else if (north_bloated P boxes e x).Y1 > (north_edge boxes e).Y1 then .ok false
        else if (north_bloated P boxes e x).Y2 < (north_edge boxes e).Y1 then .ok false
        else if x = nonorphan_parent e.rb then .ok false
        else .error { edge := e, maxbloat := maxbloat, intersect := some x } :
          Except fio_info Bool) = .error j := hjump
    split_ifs at hjump2 with c1 c2 c3 c4 c5
    simp only [Except.error.injEq] at hjump2
    rw [← hjump2] at h
    simp only [Option.some.injEq] at h
    subst h
    exact ⟨hx, c5, by omega, by omega, by omega, by omega⟩

/-! ### Drawing the route -/

/-- C18 (counterexample): in the smoothing pass the connection from `(0,0)` to
`(10,5)` is drawn as two orthogonal segments, by way of the knee `(10,0)`;
none of them has the `nonstraight` flag. -/
theorem RD_DrawManhattanLine_smoothing_two_segments :
    smoothingParameters.is_smoothing = true ∧
    (RD_DrawManhattanLine smoothingParameters ⟨0, 0, 20, 20⟩ ⟨0, 0⟩ ⟨10, 5⟩ 5 0 false).map
      (fun rb => (rb.box, rb.flags.nonstraight)) =
      [(⟨-5, -5, 15, 5⟩, false), (⟨5, -5, 15, 10⟩, false)] := by
  constructor
  · rfl
  · decide

/-- A segment that `RD_DrawLine` draws along an axis is a line without the
`nonstraight` flag whose box is as wide or as high as the bloat on both sides. -/
theorem RD_DrawLine_ortho (P : AutoRouteParametersType) (X1 Y1 X2 Y2 halfthick : Int)
    (group : Nat) (is_bad : Bool) (hortho : X1 = X2 ∨ Y1 = Y2) (rb : routebox_t)
    (hrb : rb ∈ RD_DrawLine P X1 Y1 X2 Y2 halfthick group is_bad false) :
    rb.flags.nonstraight = false ∧ rb.type = routebox_type.LINE ∧
    (rb.box.X2 - rb.box.X1 = 2 * halfthick ∨ rb.box.Y2 - rb.box.Y1 = 2 * halfthick) := by
  unfold RD_DrawLine at hrb
  split_ifs at hrb with hz
  · exact absurd hrb (List.not_mem_nil rb)
  · rw [List.mem_singleton] at hrb
    subst hrb
    refine ⟨rfl, rfl, ?_⟩
    simp only
    rcases hortho with h | h
    · left; subst h; simp only [min_self, max_self]; omega
    · right; subst h; simp only [min_self, max_self]; omega

/-- A segment of non-zero length is drawn as one line. -/
theorem RD_DrawLine_length (P : AutoRouteParametersType) (X1 Y1 X2 Y2 halfthick : Int)
    (group : Nat) (is_bad is_45 : Bool) (h : ¬ (X1 = X2 ∧ Y1 = Y2)) :
    (RD_DrawLine P X1 Y1 X2 Y2 halfthick group is_bad is_45).length = 1 := by
  unfold RD_DrawLine
  rw [if_neg h]
  rfl

/-- C18 (amended): in every pass, the smoothing pass included,
`RD_DrawManhattanLine` draws the orthogonal segments from the start to the
knee and from the knee to the end, where the knee is `(end.X, start.Y)` if
that point is in the box and `(start.X, end.Y)` otherwise; no segment has the
`nonstraight` flag, and there are exactly two segments when the start and the
end differ in both coordinates. -/
theorem RD_DrawManhattanLine_orthogonal (P : AutoRouteParametersType) (bbox : BoxType)
    (start end_ : PointType) (halfthick : Int) (group : Nat) (is_bad : Bool) :
    RD_DrawManhattanLine P bbox start end_ halfthick group is_bad =
      RD_DrawLine P start.X start.Y (RD_DrawManhattanLine_knee bbox start end_).X
        (RD_DrawManhattanLine_knee bbox start end_).Y halfthick group is_bad false ++
      RD_DrawLine P (RD_DrawManhattanLine_knee bbox start end_).X
        (RD_DrawManhattanLine_knee bbox start end_).Y end_.X end_.Y halfthick group is_bad false ∧
    (RD_DrawManhattanLine_knee bbox start end_ =
      if point_in_box bbox end_.X start.Y then ⟨end_.X, start.Y⟩ else ⟨start.X, end_.Y⟩) ∧
    (∀ rb ∈ RD_DrawManhattanLine P bbox start end_ halfthick group is_bad,
      rb.flags.nonstraight = false ∧ rb.type = routebox_type.LINE ∧
      (rb.box.X2 - rb.box.X1 = 2 * halfthick ∨ rb.box.Y2 - rb.box.Y1 = 2 * halfthick)) ∧
    (start.X ≠ end_.X → start.Y ≠ end_.Y →
      (RD_DrawManhattanLine P bbox start end_ halfthick group is_bad).length = 2) := by
  have h0 : RD_DrawManhattanLine P bbox start end_ halfthick group is_bad =
      RD_DrawLine P start.X start.Y (RD_DrawManhattanLine_knee bbox start end_).X
        (RD_DrawManhattanLine_knee bbox start end_).Y halfthick group is_bad false ++
      RD_DrawLine P (RD_DrawManhattanLine_knee bbox start end_).X
        (RD_DrawManhattanLine_knee bbox start end_).Y end_.X end_.Y halfthick group is_bad
        false := by
    unfold RD_DrawManhattanLine
    simp only
    rw [if_pos (Or.inl trivial)]
  have hk : RD_DrawManhattanLine_knee bbox start end_ =
      if point_in_box bbox end_.X start.Y then ⟨end_.X, start.Y⟩ else ⟨start.X, end_.Y⟩ := by
    unfold RD_DrawManhattanLine_knee
    split_ifs <;> rfl
  refine ⟨h0, hk, ?_, ?_⟩
  · intro rb hrb
    rw [h0, hk] at hrb
    rcases List.mem_append.mp hrb with h | h
    · refine RD_DrawLine_ortho P _ _ _ _ halfthick group is_bad ?_ rb h
      split_ifs
      · exact Or.inr rfl
      · exact Or.inl rfl
    · refine RD_DrawLine_ortho P _ _ _ _ halfthick group is_bad ?_ rb h
      split_ifs
      · exact Or.inl rfl
      · exact Or.inr rfl
  · intro hx hy
    rw [h0, hk, List.length_append, RD_DrawLine_length, RD_DrawLine_length]
    · split_ifs
      · exact fun h => hy h.2
      · exact fun h => hx h.1
    · split_ifs
      · exact fun h => hx h.1
      · exact fun h => hy h.2

/-- C18 (witness): the two segments from `(0,0)` to `(10,5)` in the smoothing
pass. -/
theorem RD_DrawManhattanLine_orthogonal_witness :
    (RD_DrawManhattanLine smoothingParameters ⟨0, 0, 20, 20⟩ ⟨0, 0⟩ ⟨10, 5⟩ 5 0 false).length = 2 :=
  (RD_DrawManhattanLine_orthogonal smoothingParameters ⟨0, 0, 20, 20⟩ ⟨0, 0⟩ ⟨10, 5⟩ 5 0
    false).2.2.2 (by decide) (by decide)

/-! ### The rings of a net and the rip-up -/

/-- Reading a table after an assignment. -/
theorem table_store (L : netlists) (r : Nat) (which which2 : boxlist) (rl : routebox_list)
    (u : Nat) :
    (L.store r which rl).table which2 u =
      if which2 = which ∧ u = r then rl else L.table which2 u := by
  cases which <;> cases which2 <;> simp [netlists.store, netlists.table]

/-- The table of the ring after `RemoveFromNet`, and the tables of the other
rings. -/
theorem RemoveFromNet_table (L : netlists) (a : Nat) (which which2 : boxlist) :
    (RemoveFromNet L a which).table which2 =
      if which2 = which then unlink (L.table which) a else L.table which2 := by
  unfold RemoveFromNet unlink __select_list
  by_cases h : (L.table which a).next = a ∨ (L.table which a).prev = a
  · simp only [h, if_true]
    split_ifs with h2
    · rw [h2]
    · rfl
  · simp only [h, if_false]
    funext u
    simp only [table_store, __select_list]
    by_cases h2 : which2 = which
    · subst h2
      simp only [true_and, if_true]
      push_neg at h
      by_cases h3 : u = a
      · simp [h3]
      · simp only [h3, if_false]
        by_cases h4 : u = (L.table which2 a).prev
        · by_cases h5 : u = (L.table which2 a).next
          · simp [← h4, ← h5]
          · simp [← h4, h5]
        · by_cases h5 : u = (L.table which2 a).next
          · simp [h4, ← h5]
          · simp [h4, h5]
    · simp [h2]

/-- A box that `RemoveFromNet` takes off a ring is left alone on it. -/
theorem unlink_self (lk : Nat → routebox_list) (a : Nat) (h : ring_links lk) :
    unlink lk a a = { next := a, prev := a } := by
  unfold unlink
  by_cases hc : (lk a).next = a ∨ (lk a).prev = a
  · rw [if_pos hc]
    have h1 := (h a).1
    have h2 := (h a).2
    rcases hc with hc | hc
    · rw [hc] at h1
      cases hl : lk a with
      | mk n p => rw [hl] at hc h1; simp only at hc h1; rw [hc, h1]
    · rw [hc] at h2
      cases hl : lk a with
      | mk n p => rw [hl] at hc h2; simp only at hc h2; rw [hc, h2]
  · rw [if_neg hc]
    simp

/-- The links of a box that is neither the removed box nor one of its two
neighbours stay as they are. -/
theorem unlink_other (lk : Nat → routebox_list) (a u : Nat) (h1 : u ≠ a)
    (h2 : u ≠ (lk a).prev) (h3 : u ≠ (lk a).next) : unlink lk a u = lk u := by
  unfold unlink
  split_ifs
  · rfl
  · simp [h1, h2, h3]

/-- A box that is alone on a ring stays so when another box is removed. -/
theorem unlink_single (lk : Nat → routebox_list) (a q : Nat) (h : ring_links lk)
    (hq : lk q = { next := q, prev := q }) : unlink lk a q = { next := q, prev := q } := by
  by_cases h1 : q = a
  · rw [h1]; exact unlink_self lk a h
  · have h2 : q ≠ (lk a).prev := by
      intro he
      have := (h a).2
      rw [← he, hq] at this
      exact h1 this
    have h3 : q ≠ (lk a).next := by
      intro he
      have := (h a).1
      rw [← he, hq] at this
      exact h1 this
    rw [unlink_other lk a q h1 h2 h3, hq]

/-- The links stay those of rings when a box is removed. -/
theorem unlink_ring_links (lk : Nat → routebox_list) (a : Nat) (h : ring_links lk) :
    ring_links (unlink lk a) := by
  unfold unlink
  by_cases hc : (lk a).next = a ∨ (lk a).prev = a
  · rw [if_pos hc]; exact h
  · rw [if_neg hc]
    push_neg at hc
    obtain ⟨hn, hp⟩ := hc
    have ha := h a
    intro u
    have hu := h u
    simp only
    by_cases h1 : u = a
    · subst h1
      simp
    · simp only [h1, if_false]
      constructor
      · by_cases h2 : u = (lk a).prev
        · simp only [h2, if_true]
          rw [if_neg hn]
        · simp only [h2, if_false]
          have h3 : (lk u).next ≠ a := by
            intro he
            have := hu.1
            rw [he] at this
            exact h2 this.symm
          rw [if_neg h3]
          by_cases h4 : (lk u).next = (lk a).next
          · exfalso
            have e1 := hu.1
            rw [h4, ha.1] at e1
            exact h1 e1.symm
          · rw [if_neg h4]; exact hu.1
      · by_cases h2 : u = (lk a).next
        · simp only [h2, if_true]
          rw [if_neg hp]
        · simp only [h2, if_false]
          have h3 : (lk u).prev ≠ a := by
            intro he
            have := hu.2
            rw [he] at this
            exact h2 this.symm
          rw [if_neg h3]
          by_cases h4 : (lk u).prev = (lk a).prev
          · exfalso
            have e1 := hu.2
            rw [h4, ha.2] at e1
            exact h1 e1.symm
          · rw [if_neg h4]; exact hu.2

/-- The links of a table after the removal of a box that is not alone. -/
theorem unlink_apply (lk : Nat → routebox_list) (a u : Nat) (hn : (lk a).next ≠ a)
    (hp : (lk a).prev ≠ a) :
    (unlink lk a u).next =
      (if u = a then a else if u = (lk a).prev then (lk a).next else (lk u).next) ∧
    (unlink lk a u).prev =
      (if u = a then a else if u = (lk a).next then (lk a).prev else (lk u).prev) := by
  unfold unlink
  rw [if_neg (by push_neg; exact ⟨hn, hp⟩)]
  exact ⟨rfl, rfl⟩

/-- A chain of links stays one in a table that has the same next links, but
for the last box, and the same previous links, but for the first. -/
theorem chain_link_congr (lk lk2 : Nat → routebox_list) :
    ∀ (l : List Nat) (a : Nat), List.Chain (Link lk) a l →
      (∀ u ∈ (a :: l).dropLast, (lk2 u).next = (lk u).next) →
      (∀ v ∈ l, (lk2 v).prev = (lk v).prev) → List.Chain (Link lk2) a l := by
  intro l
  induction l with
  | nil => intro a _ _ _; exact List.Chain.nil
  | cons b l ih =>
    intro a hc hnext hprev
    rw [List.chain_cons] at hc ⊢
    obtain ⟨hab, hc2⟩ := hc
    have hd : (a :: b :: l).dropLast = a :: (b :: l).dropLast := rfl
    rw [hd] at hnext
    refine ⟨⟨?_, ?_⟩, ih b hc2 ?_ ?_⟩
    · rw [hnext a (List.mem_cons_self _ _)]; exact hab.1
    · rw [hprev b (List.mem_cons_self _ _)]; exact hab.2
    · intro u hu; exact hnext u (List.mem_cons_of_mem _ hu)
    · intro v hv; exact hprev v (List.mem_cons_of_mem _ hv)

/-- The previous box of a box on a chain is the box before it. -/
theorem chain_prev_mem (lk : Nat → routebox_list) (x : Nat) (t : List Nat) :
    ∀ (pre : List Nat) (a0 : Nat), List.Chain (Link lk) a0 (pre ++ x :: t) →
      (lk x).prev ∈ a0 :: pre := by
  intro pre
  induction pre with
  | nil =>
    intro a0 hc
    rw [List.nil_append, List.chain_cons] at hc
    rw [hc.1.2]
    exact List.mem_cons_self _ _
  | cons b pre ih =>
    intro a0 hc
    rw [List.cons_append, List.chain_cons] at hc
    exact List.mem_cons_of_mem _ (ih b hc.2)

/-- The next box of a box on a chain is the box after it. -/
theorem chain_next_eq (lk : Nat → routebox_list) (x an : Nat) (t : List Nat) :
    ∀ (pre : List Nat) (a0 : Nat), List.Chain (Link lk) a0 (pre ++ x :: an :: t) →
      (lk x).next = an := by
  intro pre
  induction pre with
  | nil =>
    intro a0 hc
    rw [List.nil_append, List.chain_cons, List.chain_cons] at hc
    exact hc.2.1.1
  | cons b pre ih =>
    intro a0 hc
    rw [List.cons_append, List.chain_cons] at hc
    exact ih b hc.2

/-- The removal of a box from a chain of distinct boxes links the box before
it to the box after it and leaves the rest of the chain as it is. -/
theorem unlink_chain (lk : Nat → routebox_list) (x an : Nat) (tl : List Nat) :
    ∀ (pre : List Nat) (a0 : Nat), List.Chain (Link lk) a0 (pre ++ x :: an :: tl) →
      x ∉ a0 :: pre → x ∉ an :: tl → (a0 :: pre).Nodup → an ∉ pre →
      (∀ u ∈ (an :: tl).dropLast, u ∉ a0 :: pre) → an ∉ tl →
      List.Chain (Link (unlink lk x)) a0 (pre ++ an :: tl) := by
  intro pre
  induction pre with
  | nil =>
    intro a0 hc hx1 hx2 _ _ hdisj han
    have hnext := chain_next_eq lk x an tl [] a0 hc
    rw [List.nil_append, List.chain_cons, List.chain_cons] at hc
    obtain ⟨h1, h2, h3⟩ := hc
    have hxa : x ≠ a0 := fun h => hx1 (by rw [h]; exact List.mem_cons_self _ _)
    have hxn : x ≠ an := fun h => hx2 (by rw [h]; exact List.mem_cons_self _ _)
    have hn : (lk x).next ≠ x := by rw [hnext]; exact fun h => hxn h.symm
    have hp : (lk x).prev ≠ x := by rw [h1.2]; exact fun h => hxa h.symm
    rw [List.nil_append, List.chain_cons]
    refine ⟨⟨?_, ?_⟩, chain_link_congr lk _ tl an h3 ?_ ?_⟩
    · rw [(unlink_apply lk x a0 hn hp).1, if_neg (Ne.symm hxa), h1.2, if_pos rfl, hnext]
    · rw [(unlink_apply lk x an hn hp).2, if_neg (Ne.symm hxn), hnext, if_pos rfl, h1.2]
    · intro u hu
      have hux : u ≠ x := fun h => hx2 (by rw [← h]; exact List.dropLast_subset _ hu)
      have hua : u ≠ a0 := fun h => hdisj u hu (by rw [h]; exact List.mem_cons_self _ _)
      rw [(unlink_apply lk x u hn hp).1, if_neg hux, h1.2, if_neg hua]
    · intro v hv
      have hvx : v ≠ x := fun h => hx2 (by rw [← h]; exact List.mem_cons_of_mem _ hv)
      have hvn : v ≠ an := fun h => han (by rw [← h]; exact hv)
      rw [(unlink_apply lk x v hn hp).2, if_neg hvx, hnext, if_neg hvn]
  | cons b pre ih =>
    intro a0 hc hx1 hx2 hnd hanp hdisj han
    have hnext := chain_next_eq lk x an tl (b :: pre) a0 hc
    rw [List.cons_append, List.chain_cons] at hc
    obtain ⟨h1, h2⟩ := hc
    have hprev := chain_prev_mem lk x (an :: tl) pre b h2
    have hxa : x ≠ a0 := fun h => hx1 (by rw [h]; exact List.mem_cons_self _ _)
    have hxb : x ∉ b :: pre := fun h => hx1 (List.mem_cons_of_mem _ h)
    have hxn : x ≠ an := fun h => hx2 (by rw [h]; exact List.mem_cons_self _ _)
    have hn : (lk x).next ≠ x := by rw [hnext]; exact fun h => hxn h.symm
    have hp : (lk x).prev ≠ x := fun h => hxb (by rw [← h]; exact hprev)
    rw [List.nodup_cons] at hnd
    rw [List.cons_append, List.chain_cons]
    refine ⟨⟨?_, ?_⟩, ih b h2 hxb hx2 hnd.2 (fun h => hanp (List.mem_cons_of_mem _ h))
      (fun u hu h => hdisj u hu (List.mem_cons_of_mem _ h)) han⟩
    · have ha0 : a0 ≠ (lk x).prev := fun h => hnd.1 (by rw [h]; exact hprev)
      rw [(unlink_apply lk x a0 hn hp).1, if_neg (Ne.symm hxa), if_neg ha0]
      exact h1.1
    · have hbx : b ≠ x := fun h => hxb (by rw [← h]; exact List.mem_cons_self _ _)
      have hbn : b ≠ an := fun h => hanp (by rw [← h]; exact List.mem_cons_self _ _)
      rw [(unlink_apply lk x b hn hp).2, if_neg hbx, hnext, if_neg hbn]
      exact h1.2

/-- A box that is not alone on a ring is alone after its removal. -/
theorem unlink_self_of_ne (lk : Nat → routebox_list) (a : Nat) (hn : (lk a).next ≠ a)
    (hp : (lk a).prev ≠ a) : unlink lk a a = { next := a, prev := a } := by
  unfold unlink
  rw [if_neg (by push_neg; exact ⟨hn, hp⟩)]
  simp

/-- The tables after the command of the rip-up loop. -/
theorem RouteAll_ripup_command_tables (boxes : Nat → routebox_t) (p : Nat) (L : netlists) :
    (RouteAll_ripup_command boxes p L).same_net =
      (if (boxes p).flags.fixed = false then unlink L.same_net p else L.same_net) ∧
    (RouteAll_ripup_command boxes p L).same_subnet =
      (if (boxes p).flags.fixed = false then unlink L.same_subnet p else L.same_subnet) ∧
    (RouteAll_ripup_command boxes p L).original_subnet = L.original_subnet := by
  unfold RouteAll_ripup_command
  by_cases h : (boxes p).flags.fixed = false
  · simp only [h, if_true]
    have e1 := RemoveFromNet_table (RemoveFromNet L p .NET) p .SUBNET .NET
    have e2 := RemoveFromNet_table (RemoveFromNet L p .NET) p .SUBNET .SUBNET
    have e3 := RemoveFromNet_table (RemoveFromNet L p .NET) p .SUBNET .ORIGINAL
    have f1 := RemoveFromNet_table L p .NET .NET
    have f2 := RemoveFromNet_table L p .NET .SUBNET
    have f3 := RemoveFromNet_table L p .NET .ORIGINAL
    simp only [netlists.table, if_true, reduceCtorEq, if_false] at e1 e2 e3 f1 f2 f3
    refine ⟨by rw [e1, f1], by rw [e2, f2], by rw [e3, f3]⟩
  · refine ⟨?_, ?_, ?_⟩ <;> simp only [if_neg h]

/-- One round of `LIST_LOOP`. -/
theorem LIST_LOOP_succ {σ : Type} (next : σ → Nat → Nat) (command : Nat → σ → σ) (init : Nat)
    (fuel x : Nat) (s : σ) :
    LIST_LOOP next command init (fuel + 1) x s =
      if next s x = init then some (command x s)
      else LIST_LOOP next command init fuel (next s x) (command x s) := rfl

/-- One round of the rip-up loop on a box of the ring other than `net`: the
box stays on the ring if it is fixed and is taken off both rings otherwise. -/
theorem RouteAll_ripup_step (boxes : Nat → routebox_t) (net : Nat) (rest kept : List Nat)
    (x : Nat) (L : netlists)
    (hc : List.Chain (Link L.same_net) net (kept ++ x :: (rest ++ [net])))
    (hnd : (net :: (kept ++ x :: rest)).Nodup) (hsub : ring_links L.same_subnet) :
    (L.same_net x).next = (rest ++ [net]).headD net ∧
    List.Chain (Link (RouteAll_ripup_command boxes x L).same_net) net
      ((kept ++ [x].filter (fun p => (boxes p).flags.fixed)) ++ (rest ++ [net])) ∧
    ring_links (RouteAll_ripup_command boxes x L).same_subnet ∧
    ((boxes x).flags.fixed = false →
      (RouteAll_ripup_command boxes x L).same_net x = { next := x, prev := x } ∧
      (RouteAll_ripup_command boxes x L).same_subnet x = { next := x, prev := x }) ∧
    (∀ q, q ∉ net :: (kept ++ x :: rest) →
      (RouteAll_ripup_command boxes x L).same_net q = L.same_net q) ∧
    (∀ q, L.same_subnet q = { next := q, prev := q } →
      (RouteAll_ripup_command boxes x L).same_subnet q = { next := q, prev := q }) ∧
    (RouteAll_ripup_command boxes x L).original_subnet = L.original_subnet := by
  obtain ⟨t1, t2, t3⟩ := RouteAll_ripup_command_tables boxes x L
  obtain ⟨an, tl, htl⟩ : ∃ an tl, rest ++ [net] = an :: tl := by
    cases rest with
    | nil => exact ⟨net, [], rfl⟩
    | cons y r => exact ⟨y, r ++ [net], rfl⟩
  rw [htl] at hc ⊢
  have hnext : (L.same_net x).next = an := chain_next_eq L.same_net x an tl kept net hc
  have hprev : (L.same_net x).prev ∈ net :: kept := chain_prev_mem L.same_net x (an :: tl) kept net hc
  have hnd2 : (net :: kept).Nodup ∧ x ∉ net :: kept ∧ x ∉ rest ∧ (∀ u ∈ rest, u ∉ net :: kept) ∧
      rest.Nodup := by
    obtain ⟨hnet, h2⟩ := List.nodup_cons.mp hnd
    obtain ⟨hk, hxr, hdis⟩ := List.nodup_append.mp h2
    obtain ⟨hxrest, hrest⟩ := List.nodup_cons.mp hxr
    refine ⟨List.nodup_cons.mpr ⟨fun h => hnet (List.mem_append_left _ h), hk⟩, ?_, hxrest, ?_,
      hrest⟩
    · intro h
      rcases List.mem_cons.mp h with h | h
      · exact hnet (List.mem_append_right _ (by rw [← h]; exact List.mem_cons_self _ _))
      · exact hdis h (List.mem_cons_self _ _)
    · intro u hu h
      rcases List.mem_cons.mp h with h | h
      · exact hnet (List.mem_append_right _ (by rw [← h]; exact List.mem_cons_of_mem _ hu))
      · exact hdis h (List.mem_cons_of_mem _ hu)
  obtain ⟨n1, n2, n3, n4, n5⟩ := hnd2
  have hxtl : x ∉ an :: tl := by
    rw [← htl, List.mem_append, List.mem_singleton]
    rintro (h | h)
    · exact n3 h
    · exact n2 (by rw [h]; exact List.mem_cons_self _ _)
  have hxn : (L.same_net x).next ≠ x := by
    rw [hnext]; exact fun h => hxtl (by rw [h]; exact List.mem_cons_self _ _)
  have hxp : (L.same_net x).prev ≠ x := fun h => n2 (by rw [← h]; exact hprev)
  refine ⟨by rw [hnext]; rfl, ?_, ?_, ?_, ?_, ?_, t3⟩
  · rw [t1]
    by_cases hf : (boxes x).flags.fixed = false
    · rw [if_pos hf]
      have hfil : [x].filter (fun p => (boxes p).flags.fixed) = [] := by
        simp [List.filter, hf]
      rw [hfil, List.append_nil]
      refine unlink_chain L.same_net x an tl kept net hc n2 hxtl n1 ?_ ?_ ?_
      · intro h
        cases rest with
        | nil =>
          simp only [List.nil_append, List.cons.injEq] at htl
          rw [← htl.1] at h
          exact (List.nodup_cons.mp n1).1 h
        | cons y r =>
          simp only [List.cons_append, List.cons.injEq] at htl
          rw [← htl.1] at h
          exact n4 y (List.mem_cons_self _ _) (List.mem_cons_of_mem _ h)
      · intro u hu
        have : (an :: tl).dropLast = rest := by
          rw [← htl]; simp
        rw [this] at hu
        exact n4 u hu
      · intro h
        cases rest with
        | nil =>
          simp only [List.nil_append, List.cons.injEq] at htl
          rw [← htl.2] at h
          exact absurd h (List.not_mem_nil _)
        | cons y r =>
          simp only [List.cons_append, List.cons.injEq] at htl
          rw [← htl.1, ← htl.2, List.mem_append, List.mem_singleton] at h
          rcases h with h | h
          · exact (List.nodup_cons.mp n5).1 h
          · exact n4 y (List.mem_cons_self _ _) (by rw [h]; exact List.mem_cons_self _ _)
    · rw [if_neg hf]
      have hf2 : (boxes x).flags.fixed = true := by simpa using hf
      have hfil : [x].filter (fun p => (boxes p).flags.fixed) = [x] := by
        simp [List.filter, hf2]
      rw [hfil, List.append_assoc]
      exact hc
  · rw [t2]
    split_ifs
    · exact unlink_ring_links _ _ hsub
    · exact hsub
  · intro hf
    rw [t1, t2, if_pos hf, if_pos hf]
    exact ⟨unlink_self_of_ne _ _ hxn hxp, unlink_self _ _ hsub⟩
  · intro q hq
    rw [t1]
    split_ifs
    · have hq2 : q ≠ x ∧ q ∉ net :: kept ∧ q ∉ rest ∧ q ≠ net := by
        simp only [List.mem_cons, List.mem_append, not_or] at hq ⊢
        exact ⟨hq.2.2.1, ⟨hq.1, hq.2.1⟩, hq.2.2.2, hq.1⟩
      refine unlink_other _ _ _ hq2.1 (fun h => hq2.2.1 (by rw [h]; exact hprev)) ?_
      rw [hnext]
      intro h
      have : an ∈ rest ++ [net] := by rw [htl]; exact List.mem_cons_self _ _
      rw [← h, List.mem_append, List.mem_singleton] at this
      rcases this with h2 | h2
      · exact hq2.2.2.1 h2
      · exact hq2.2.2.2 h2
    · rfl
  · intro q hq
    rw [t2]
    split_ifs
    · exact unlink_single _ _ _ hsub hq
    · exact hq

/-- The rip-up loop from a box of the ring other than `net` to the end of the
ring: it comes to its end, the fixed boxes stay on the same-net ring in their
order, and the others are alone on both rings. -/
theorem RouteAll_ripup_loop (boxes : Nat → routebox_t) (net : Nat) :
    ∀ (rest kept : List Nat) (x : Nat) (L : netlists),
      List.Chain (Link L.same_net) net (kept ++ x :: (rest ++ [net])) →
      (net :: (kept ++ x :: rest)).Nodup → ring_links L.same_subnet →
      ∀ fuel, rest.length < fuel → ∃ L2,
        LIST_LOOP (fun L x => (L.same_net x).next) (RouteAll_ripup_command boxes) net fuel x L =
          some L2 ∧
        List.Chain (Link L2.same_net) net
          (kept ++ (x :: rest).filter (fun p => (boxes p).flags.fixed) ++ [net]) ∧
        ring_links L2.same_subnet ∧
        (∀ p ∈ x :: rest, (boxes p).flags.fixed = false →
          L2.same_net p = { next := p, prev := p } ∧
          L2.same_subnet p = { next := p, prev := p }) ∧
        (∀ q, q ∉ net :: (kept ++ x :: rest) → L2.same_net q = L.same_net q) ∧
        (∀ q, L.same_subnet q = { next := q, prev := q } →
          L2.same_subnet q = { next := q, prev := q }) ∧
        L2.original_subnet = L.original_subnet := by
  intro rest
  induction rest with
  | nil =>
    intro kept x L hc hnd hsub fuel hfuel
    obtain ⟨s1, s2, s3, s4, s5, s6, s7⟩ := RouteAll_ripup_step boxes net [] kept x L hc hnd hsub
    obtain ⟨f, rfl⟩ : ∃ f, fuel = f + 1 := ⟨fuel - 1, by omega⟩
    refine ⟨RouteAll_ripup_command boxes x L, ?_, ?_, s3, ?_, s5, s6, s7⟩
    · rw [LIST_LOOP_succ]
      exact if_pos s1
    · simpa using s2
    · intro p hp hf
      rw [List.mem_singleton] at hp
      subst hp
      exact s4 hf
  | cons y rest ih =>
    intro kept x L hc hnd hsub fuel hfuel
    obtain ⟨s1, s2, s3, s4, s5, s6, s7⟩ :=
      RouteAll_ripup_step boxes net (y :: rest) kept x L hc hnd hsub
    obtain ⟨f, rfl⟩ : ∃ f, fuel = f + 1 := ⟨fuel - 1, by omega⟩
    have hmem : ∀ q, q ∈ net :: (kept ++ [x].filter (fun p => (boxes p).flags.fixed) ++ y :: rest) →
        q ∈ net :: (kept ++ x :: y :: rest) := by
      intro q hq
      simp only [List.mem_cons, List.mem_append] at hq ⊢
      rcases hq with hq | (hq | hq) | hq
      · exact Or.inl hq
      · exact Or.inr (Or.inl hq)
      · have := List.mem_of_mem_filter hq
        rw [List.mem_singleton] at this
        exact Or.inr (Or.inr (Or.inl this))
      · exact Or.inr (Or.inr (Or.inr hq))
    have hyn : y ≠ net := by
      intro h
      have := (List.nodup_cons.mp hnd).1
      exact this (by rw [← h]; simp)
    have hnd1 : (net :: (kept ++ [x].filter (fun p => (boxes p).flags.fixed) ++ y :: rest)).Nodup := by
      refine List.Nodup.sublist ?_ hnd
      refine List.Sublist.cons₂ net ?_
      have h1 : (kept ++ [x].filter (fun p => (boxes p).flags.fixed) ++ y :: rest).Sublist
          (kept ++ [x] ++ y :: rest) :=
        List.Sublist.append (List.Sublist.append (List.Sublist.refl kept) (List.filter_sublist _))
          (List.Sublist.refl _)
      simpa using h1
    obtain ⟨L2, r1, r2, r3, r4, r5, r6, r7⟩ :=
      ih (kept ++ [x].filter (fun p => (boxes p).flags.fixed)) y (RouteAll_ripup_command boxes x L)
        s2 hnd1 s3 f (by simp only [List.length_cons] at hfuel; omega)
    refine ⟨L2, ?_, ?_, r3, ?_, ?_, ?_, r7.trans s7⟩
    · rw [LIST_LOOP_succ]
      have hy : (L.same_net x).next = y := s1
      have hne : ¬ (L.same_net x).next = net := by rw [hy]; exact hyn
      rw [if_neg hne, hy]
      exact r1
    · have e : kept ++ (x :: y :: rest).filter (fun p => (boxes p).flags.fixed) =
          kept ++ [x].filter (fun p => (boxes p).flags.fixed) ++
            (y :: rest).filter (fun p => (boxes p).flags.fixed) := by
        rw [List.append_assoc, ← List.filter_append]
        rfl
      rw [e]
      exact r2
    · intro p hp hf
      rcases List.mem_cons.mp hp with hp | hp
      · subst hp
        obtain ⟨c1, c2⟩ := s4 hf
        have hfil : [p].filter (fun p => (boxes p).flags.fixed) = [] := by
          simp [List.filter, hf]
        have hout : p ∉ net :: (kept ++ [p].filter (fun p => (boxes p).flags.fixed) ++ y :: rest) := by
          rw [hfil, List.append_nil]
          intro h
          simp only [List.mem_cons, List.mem_append] at h
          have hd := (List.nodup_append.mp (List.nodup_cons.mp hnd).2).2.2
          have hx := (List.nodup_cons.mp (List.nodup_append.mp (List.nodup_cons.mp hnd).2).2.1).1
          rcases h with h | h | h | h
          · exact (List.nodup_cons.mp hnd).1 (by rw [← h]; simp)
          · exact hd h (List.mem_cons_self _ _)
          · exact hx (by rw [h]; exact List.mem_cons_self _ _)
          · exact hx (List.mem_cons_of_mem _ h)
        exact ⟨(r5 p hout).trans c1, r6 p c2⟩
      · exact r4 p hp hf
    · intro q hq
      rw [r5 q (fun h => hq (hmem q h))]
      exact s5 q hq
    · intro q hq
      exact r6 q (s6 q hq)

/-- The loop of `ResetSubnet` from a box of the ring to the end of the ring:
it comes to its end and has copied the original-subnet links of the boxes it
went through. -/
theorem ResetSubnet_loop (net : Nat) :
    ∀ (rest : List Nat) (x : Nat) (L : netlists),
      List.Chain (Link L.same_net) x (rest ++ [net]) → net ∉ rest →
      ∀ fuel, rest.length < fuel → ∃ L2,
        LIST_LOOP (fun L x => (L.same_net x).next)
          (fun rb L => L.store rb .SUBNET (L.original_subnet rb)) net fuel x L = some L2 ∧
        L2.same_net = L.same_net ∧ L2.original_subnet = L.original_subnet ∧
        (∀ p ∈ x :: rest, L2.same_subnet p = L.original_subnet p) ∧
        (∀ q, q ∉ x :: rest → L2.same_subnet q = L.same_subnet q) := by
  have hstore : ∀ (L : netlists) (x : Nat),
      (L.store x .SUBNET (L.original_subnet x)).same_net = L.same_net ∧
      (L.store x .SUBNET (L.original_subnet x)).original_subnet = L.original_subnet ∧
      (∀ u, (L.store x .SUBNET (L.original_subnet x)).same_subnet u =
        if u = x then L.original_subnet x else L.same_subnet u) :=
    fun L x => ⟨rfl, rfl, fun _ => rfl⟩
  intro rest
  induction rest with
  | nil =>
    intro x L hc _ fuel hfuel
    obtain ⟨f, rfl⟩ : ∃ f, fuel = f + 1 := ⟨fuel - 1, by omega⟩
    rw [List.nil_append, List.chain_cons] at hc
    obtain ⟨e1, e2, e3⟩ := hstore L x
    refine ⟨L.store x .SUBNET (L.original_subnet x), ?_, e1, e2, ?_, ?_⟩
    · rw [LIST_LOOP_succ]
      exact if_pos hc.1.1
    · intro p hp
      rw [List.mem_singleton] at hp
      rw [e3, if_pos hp, hp]
    · intro q hq
      rw [e3, if_neg (fun h => hq (by rw [h]; exact List.mem_singleton.mpr rfl))]
  | cons y rest ih =>
    intro x L hc hnet fuel hfuel
    obtain ⟨f, rfl⟩ : ∃ f, fuel = f + 1 := ⟨fuel - 1, by omega⟩
    rw [List.cons_append, List.chain_cons] at hc
    obtain ⟨e1, e2, e3⟩ := hstore L x
    have hyn : ¬ (L.same_net x).next = net := by
      rw [hc.1.1]
      exact fun h => hnet (by rw [← h]; exact List.mem_cons_self _ _)
    obtain ⟨L2, r1, r2, r3, r4, r5⟩ := ih y (L.store x .SUBNET (L.original_subnet x))
      (by rw [e1]; exact hc.2) (fun h => hnet (List.mem_cons_of_mem _ h)) f
      (by simp only [List.length_cons] at hfuel; omega)
    refine ⟨L2, ?_, r2.trans e1, r3.trans e2, ?_, ?_⟩
    · rw [LIST_LOOP_succ, if_neg hyn, hc.1.1]
      exact r1
    · intro p hp
      by_cases hpy : p ∈ y :: rest
      · rw [r4 p hpy, e2]
      · rw [r5 p hpy, e3]
        rcases List.mem_cons.mp hp with h | h
        · rw [if_pos h, h]
        · exact absurd h hpy
    · intro q hq
      rw [r5 q (fun h => hq (List.mem_cons_of_mem _ h)), e3,
        if_neg (fun h => hq (by rw [h]; exact List.mem_cons_self _ _))]

/-- C19: for a net whose same-net ring is a ring of distinct boxes that starts
at a fixed box `net`, with same-subnet links that are those of rings, the
rip-up of `RouteAll` (`RemoveFromNet` on `NET` and `SUBNET` for every box that
is not fixed, then `ResetSubnet`) comes to its end, and afterwards the
same-net ring holds exactly the fixed boxes it held before, in the same cyclic
order, every box taken off is alone on the same-net and the same-subnet ring,
and the same-subnet links of every box that stays are its original-subnet
links, which have not changed. -/
theorem RouteAll_ripup_rings (boxes : Nat → routebox_t) (L : netlists) (net : Nat)
    (ring : List Nat) (hring : List.Chain (Link L.same_net) net (ring ++ [net]))
    (hnd : (net :: ring).Nodup) (hfixed : (boxes net).flags.fixed = true)
    (hsub : ring_links L.same_subnet) :
    ∀ fuel, ring.length < fuel → ∃ L2, RouteAll_ripup boxes L net fuel = some L2 ∧
      List.Chain (Link L2.same_net) net
        (ring.filter (fun p => (boxes p).flags.fixed) ++ [net]) ∧
      (∀ p ∈ ring, (boxes p).flags.fixed = false →
        L2.same_net p = { next := p, prev := p } ∧
        L2.same_subnet p = { next := p, prev := p }) ∧
      (∀ p ∈ net :: ring, (boxes p).flags.fixed = true →
        L2.same_subnet p = L2.original_subnet p) ∧
      L2.original_subnet = L.original_subnet := by
  intro fuel hfuel
  obtain ⟨f, rfl⟩ : ∃ f, fuel = f + 1 := ⟨fuel - 1, by omega⟩
  have hcmd : RouteAll_ripup_command boxes net L = L := by
    unfold RouteAll_ripup_command
    rw [if_neg (by rw [hfixed]; simp)]
  -- the rip-up loop
  have hloop : ∃ L1,
      LIST_LOOP (fun L x => (L.same_net x).next) (RouteAll_ripup_command boxes) net (f + 1) net L =
        some L1 ∧
      List.Chain (Link L1.same_net) net
        (ring.filter (fun p => (boxes p).flags.fixed) ++ [net]) ∧
      (∀ p ∈ ring, (boxes p).flags.fixed = false →
        L1.same_net p = { next := p, prev := p } ∧
        L1.same_subnet p = { next := p, prev := p }) ∧
      L1.original_subnet = L.original_subnet := by
    cases ring with
    | nil =>
      refine ⟨L, ?_, hring, fun p hp => absurd hp (List.not_mem_nil p), rfl⟩
      rw [List.nil_append, List.chain_cons] at hring
      rw [LIST_LOOP_succ, if_pos hring.1.1, hcmd]
    | cons y rest =>
      have hc : List.Chain (Link L.same_net) net ([] ++ y :: (rest ++ [net])) := hring
      obtain ⟨L1, r1, r2, _, r4, _, _, r7⟩ :=
        RouteAll_ripup_loop boxes net rest [] y L hc hnd hsub f
          (by simp only [List.length_cons] at hfuel; omega)
      refine ⟨L1, ?_, by simpa using r2, r4, r7⟩
      rw [List.cons_append, List.chain_cons] at hring
      have hyn : ¬ (L.same_net net).next = net := by
        rw [hring.1.1]
        intro h
        exact (List.nodup_cons.mp hnd).1 (by rw [← h]; exact List.mem_cons_self _ _)
      rw [LIST_LOOP_succ, if_neg hyn, hcmd, hring.1.1]
      exact r1
  obtain ⟨L1, l1, l2, l3, l4⟩ := hloop
  -- `ResetSubnet`
  have hnet : net ∉ ring.filter (fun p => (boxes p).flags.fixed) :=
    fun h => (List.nodup_cons.mp hnd).1 (List.mem_of_mem_filter h)
  obtain ⟨L2, q1, q2, q3, q4, q5⟩ :=
    ResetSubnet_loop net (ring.filter (fun p => (boxes p).flags.fixed)) net L1 l2 hnet (f + 1)
      (lt_of_le_of_lt (List.length_filter_le _ _) hfuel)
  refine ⟨L2, ?_, by rw [q2]; exact l2, ?_, ?_, q3.trans l4⟩
  · unfold RouteAll_ripup
    rw [l1]
    exact q1
  · intro p hp hf
    obtain ⟨c1, c2⟩ := l3 p hp hf
    have hout : p ∉ net :: ring.filter (fun p => (boxes p).flags.fixed) := by
      intro h
      rcases List.mem_cons.mp h with h | h
      · rw [h, hfixed] at hf
        exact absurd hf (by simp)
      · have := (List.mem_filter.mp h).2
        simp only at this
        rw [hf] at this
        exact absurd this (by simp)
    exact ⟨by rw [q2]; exact c1, by rw [q5 p hout]; exact c2⟩
  · intro p hp hf
    have hin : p ∈ net :: ring.filter (fun p => (boxes p).flags.fixed) := by
      rcases List.mem_cons.mp hp with h | h
      · rw [h]; exact List.mem_cons_self _ _
      · exact List.mem_cons_of_mem _ (List.mem_filter.mpr ⟨h, by simpa using hf⟩)
    rw [q4 p hin, q3]

/-- The same-subnet links of the example are those of rings. -/
theorem ringLists_ring_links : ring_links ringLists.same_subnet := by
  intro u
  unfold ringLists
  simp only
  by_cases h0 : u = 0
  · subst h0; simp
  · by_cases h1 : u = 1
    · subst h1; simp
    · simp [h0, h1]

/-- C19 (witness): the ring `0, 1, 2` with the line `1` not fixed; after the
rip-up the same-net ring is `0, 2`, the line is alone on both rings, and the
pins are back on their original subnets. -/
theorem RouteAll_ripup_rings_witness :
    ∃ L2, RouteAll_ripup ringBoxes ringLists 0 3 = some L2 ∧
      List.Chain (Link L2.same_net) 0
        ([1, 2].filter (fun p => (ringBoxes p).flags.fixed) ++ [0]) ∧
      (∀ p ∈ [1, 2], (ringBoxes p).flags.fixed = false →
        L2.same_net p = { next := p, prev := p } ∧
        L2.same_subnet p = { next := p, prev := p }) ∧
      (∀ p ∈ 0 :: [1, 2], (ringBoxes p).flags.fixed = true →
        L2.same_subnet p = L2.original_subnet p) ∧
      L2.original_subnet = ringLists.original_subnet :=
  RouteAll_ripup_rings ringBoxes ringLists 0 [1, 2]
    (by
      simp only [List.cons_append, List.nil_append, List.chain_cons, Link]
      exact ⟨⟨rfl, rfl⟩, ⟨rfl, rfl⟩, ⟨rfl, rfl⟩, List.Chain.nil⟩)
    (by decide) (by decide) ringLists_ring_links 3 (by decide)

/-! ### The flags after `RouteOne` -/

theorem same_touched_refl (s : routeone_state) : same_touched s s := ⟨rfl, rfl⟩

theorem same_touched_trans {s1 s2 s3 : routeone_state} (h1 : same_touched s1 s2)
    (h2 : same_touched s2 s3) : same_touched s1 s3 :=
  ⟨h2.1.trans h1.1, h2.2.trans h1.2⟩

theorem same_touched_created (s : routeone_state) (created : List pathbox) :
    same_touched s { s with created := created } := ⟨rfl, rfl⟩

theorem same_touched_area (s : routeone_state) (created area_vec : List pathbox) :
    same_touched s { s with created := created, area_vec := area_vec } := ⟨rfl, rfl⟩

theorem add_or_destroy_edge_touched (s : routeone_state) (e : edge_t) :
    same_touched s (add_or_destroy_edge s e) := by
  unfold add_or_destroy_edge
  split_ifs <;> exact ⟨rfl, rfl⟩

theorem best_path_candidate_touched (s : routeone_state) (e : edge_t) (t : Nat) :
    same_touched s (best_path_candidate s e t) := by
  unfold best_path_candidate
  split_ifs <;> exact ⟨rfl, rfl⟩

theorem foldl_touched {α : Type} (f : routeone_state → α → routeone_state)
    (hf : ∀ s a, same_touched s (f s a)) :
    ∀ (l : List α) (s : routeone_state), same_touched s (l.foldl f s) := by
  intro l
  induction l with
  | nil => intro s; exact same_touched_refl s
  | cons a l ih => intro s; exact same_touched_trans (hf s a) (ih _)

theorem add_via_sites_touched (P : AutoRouteParametersType) (active : Nat → Bool) :
    ∀ (sites : List via_site) (within : pathbox) (level : conflict_t) (s : routeone_state),
      same_touched s (add_via_sites P active sites within level s) := by
  intro sites
  induction sites with
  | nil => intro within level s; exact same_touched_refl s
  | cons v sites ih =>
    intro within level s
    simp only [add_via_sites]
    split_ifs
    all_goals
      first
      | exact ih _ _ _
      | exact same_touched_trans
          (same_touched_trans (same_touched_created s _) (add_or_destroy_edge_touched _ _)) (ih _ _ _)

theorem expand_via_cell_touched (P : AutoRouteParametersType) (o : expand_input) (e : edge_t)
    (intersecting : obstacle) (s : routeone_state) (ij : Nat × Nat) :
    same_touched s (expand_via_cell P o e intersecting s ij) := by
  unfold expand_via_cell
  simp only
  cases intersecting with
  | area b =>
    simp only
    split_ifs
    all_goals
      first
      | exact same_touched_refl s
      | exact same_touched_trans (same_touched_created s _)
          (add_or_destroy_edge_touched _ _)
  | board q =>
    simp only
    split_ifs
    all_goals
      first
      | exact same_touched_refl s
      | exact same_touched_trans (same_touched_created s _)
          (add_or_destroy_edge_touched _ _)

theorem expand_via_touched (P : AutoRouteParametersType) (o : expand_input) (e : edge_t)
    (s : routeone_state) : same_touched s (expand_via P o e s) := by
  unfold expand_via
  cases o.intersecting with
  | none =>
    simp only
    exact same_touched_trans (same_touched_area s _ _)
      (foldl_touched _ (fun s a => add_or_destroy_edge_touched _ _) _ _)
  | some x =>
    simp only
    exact foldl_touched _ (fun s a => expand_via_cell_touched P o e x s a) _ _

theorem expand_piece_touched (P : AutoRouteParametersType) (group : Nat) (top_parent : pathbox)
    (expand_dir : Nat) (piece : Option new_edge) (s : routeone_state) :
    same_touched s (expand_piece P group top_parent expand_dir piece s) := by
  unfold expand_piece
  cases piece with
  | none => exact same_touched_refl s
  | some c =>
    exact same_touched_trans (same_touched_created s _)
      (add_or_destroy_edge_touched _ _)

theorem expand_blocker_touched (P : AutoRouteParametersType) (o : expand_input) (group : Nat)
    (top_parent : pathbox) (expand_dir : Nat) (next : obstacle) (s : routeone_state) :
    same_touched s (expand_blocker P o group top_parent expand_dir next s) := by
  unfold expand_blocker
  cases next with
  | area b =>
    simp only
    split_ifs <;> exact same_touched_refl s
  | board q =>
    simp only
    split_ifs
    all_goals
      first
      | exact same_touched_refl s
      | exact same_touched_trans (same_touched_created s _)
          (best_path_candidate_touched _ _ _)
      | exact same_touched_trans (same_touched_created s _)
          (add_or_destroy_edge_touched _ _)

theorem expand_area_touched (P : AutoRouteParametersType) (active : Nat → Bool)
    (o : expand_input) (e : edge_t) (nrb : pathbox) (s : routeone_state) :
    same_touched s (expand_area P active o e nrb s) := by
  unfold expand_area
  simp only
  have h1 : same_touched s
      ([1, 3].foldl (fun s i => add_or_destroy_edge s
        (CreateEdge nrb (o.side_cost i) ((e.expand_dir + i) % 4)))
        { s with created := nrb :: s.created, area_vec := nrb :: s.area_vec }) :=
    same_touched_trans (same_touched_area s _ _)
      (foldl_touched _ (fun s a => add_or_destroy_edge_touched _ _) _ _)
  split_ifs
  · exact same_touched_trans h1 (add_via_sites_touched P active _ _ _ _)
  · exact h1

theorem expand_edge_touched (P : AutoRouteParametersType) (active : Nat → Bool)
    (o : expand_input) (e : edge_t) (s : routeone_state) :
    same_touched s (expand_edge P active o e s) := by
  unfold expand_edge
  simp only
  split_ifs with h1 h2
  · exact same_touched_refl s
  · cases o.next with
    | none => exact expand_area_touched P active o e _ s
    | some next =>
      exact same_touched_trans (expand_area_touched P active o e _ s)
        (same_touched_trans (expand_piece_touched P _ _ _ _ _)
          (same_touched_trans (expand_piece_touched P _ _ _ _ _)
            (expand_blocker_touched P o _ _ _ _ _)))
  · cases o.next with
    | none => exact same_touched_refl s
    | some next =>
      exact same_touched_trans (expand_piece_touched P _ _ _ _ _)
        (same_touched_trans (expand_piece_touched P _ _ _ _ _)
          (expand_blocker_touched P o _ _ _ _ _))

theorem TouchInv_of_same (boxes : Nat → routebox_t) {s s2 : routeone_state}
    (h : same_touched s s2) (hs : TouchInv boxes s) : TouchInv boxes s2 := by
  intro q hq
  rw [h.1] at hq
  rw [h.2]
  exact hs q hq

/-- The expansion of an interior edge keeps the invariant of the touched
flags: the box it touches is appended to `touched_vec`. -/
theorem expand_interior_touched (P : AutoRouteParametersType) (active : Nat → Bool)
    (boxes : Nat → routebox_t) (o : expand_input) (e : edge_t) (s : routeone_state)
    (hs : TouchInv boxes s) : TouchInv boxes (expand_interior P active o e s) := by
  unfold expand_interior
  cases e.rb.underlying with
  | none => exact hs
  | some u =>
    simp only
    split_ifs with h1
    · exact hs
    all_goals
      have h0 : TouchInv boxes
          { s with
            boxes := fun q => if q = u then
                { s.boxes u with flags := { (s.boxes u).flags with touched := true } }
              else s.boxes q
            touched_vec := u :: s.touched_vec } := by
        intro q hq
        by_cases hqu : q = u
        · exact Or.inr (by rw [hqu]; exact List.mem_cons_self _ _)
        · have hq2 : (s.boxes q).flags.touched = true := by
            simpa [hqu] using hq
          rcases hs q hq2 with h | h
          · exact Or.inl h
          · exact Or.inr (List.mem_cons_of_mem _ h)
    all_goals
      first
      | exact h0
      | exact TouchInv_of_same boxes (best_path_candidate_touched _ _ _) h0
      | exact TouchInv_of_same boxes
          (same_touched_trans (same_touched_created _ _)
            (foldl_touched _ (fun s a => add_or_destroy_edge_touched s a) _ _)) h0
      | exact TouchInv_of_same boxes
          (same_touched_trans (same_touched_created _ _)
            (same_touched_trans
              (foldl_touched _ (fun s a => add_or_destroy_edge_touched s a) _ _)
              (add_via_sites_touched P active _ _ _ _))) h0
      | exact TouchInv_of_same boxes
          (same_touched_trans (best_path_candidate_touched _ _ _)
            (same_touched_trans (same_touched_created _ _)
              (foldl_touched _ (fun s a => add_or_destroy_edge_touched s a) _ _))) h0
      | exact TouchInv_of_same boxes
          (same_touched_trans (best_path_candidate_touched _ _ _)
            (same_touched_trans (same_touched_created _ _)
              (same_touched_trans
                (foldl_touched _ (fun s a => add_or_destroy_edge_touched s a) _ _)
                (add_via_sites_touched P active _ _ _ _)))) h0

/-- One iteration of the main loop of `RouteOne` keeps the invariant of the
touched flags. -/
theorem RouteOne_iteration_touched (P : AutoRouteParametersType) (active : Nat → Bool)
    (boxes : Nat → routebox_t) (s : routeone_state) (o : expand_input)
    (hs : TouchInv boxes s) : TouchInv boxes (RouteOne_iteration P active s o) := by
  unfold RouteOne_iteration
  cases heap_remove_smallest s.workheap with
  | none => exact hs
  | some r =>
    obtain ⟨e, heap⟩ := r
    simp only
    have h0 : TouchInv boxes { s with workheap := heap } := hs
    split_ifs
    · exact h0
    · exact expand_interior_touched P active boxes o e _ h0
    · exact TouchInv_of_same boxes (expand_via_touched P o e _) h0
    · exact TouchInv_of_same boxes (expand_edge_touched P active o e _) h0

/-- The main loop of `RouteOne` keeps the invariant of the touched flags. -/
theorem RouteOne_loop_touched (P : AutoRouteParametersType) (active : Nat → Bool)
    (boxes : Nat → routebox_t) :
    ∀ (l : List expand_input) (s : routeone_state), TouchInv boxes s →
      TouchInv boxes (l.foldl (RouteOne_iteration P active) s) := by
  intro l
  induction l with
  | nil => intro s hs; exact hs
  | cons o l ih => intro s hs; exact ih _ (RouteOne_iteration_touched P active boxes s o hs)

/-- A change of the flags of a ring that leaves the touched flag alone. -/
theorem set_flags_touched (boxes : Nat → routebox_t) (ring : List Nat)
    (f : routebox_flags → routebox_flags) (hf : ∀ x, (f x).touched = x.touched) (q : Nat) :
    (set_flags boxes ring f q).flags.touched = (boxes q).flags.touched := by
  unfold set_flags
  split_ifs
  · exact hf _
  · rfl

/-- The set-up of `RouteOne` leaves the touched flags alone. -/
theorem RouteOne_flags_touched (boxes : Nat → routebox_t) (i : routeone_input) (q : Nat) :
    (RouteOne_flags boxes i q).flags.touched = (boxes q).flags.touched := by
  have h1 : ∀ B : Nat → routebox_t, (B q).flags.touched = (boxes q).flags.touched →
      (set_flags B i.same_net
        (fun f => if f.nonstraight = true then { f with source := false, target := false }
          else f) q).flags.touched = (boxes q).flags.touched := by
    intro B hB
    refine (set_flags_touched B _ _ ?_ q).trans hB
    intro x
    split_ifs <;> rfl
  have h2 : (set_flags (set_flags boxes i.same_net (fun f => { f with nobloat := true }))
      i.same_subnet (fun f => { f with source := true }) q).flags.touched =
      (boxes q).flags.touched := by
    refine (set_flags_touched _ _ _ ?_ q).trans (set_flags_touched _ _ _ ?_ q)
    · intro x; rfl
    · intro x; rfl
  unfold RouteOne_flags
  cases i.to_ with
  | none =>
    refine h1 _ ((set_flags_touched _ _ _ ?_ q).trans h2)
    intro x
    split_ifs <;> rfl
  | some t =>
    simp only
    split_ifs
    · refine h1 _ ((set_flags_touched _ _ _ ?_ q).trans h2)
      intro x; rfl
    · exact h1 _ h2

/-- The clean-up of `RouteOne` clears the source, target and nobloat flags of
the boxes of the net and the touched flags of the boxes of `touched_vec`, and
sets no touched flag. -/
theorem RouteOne_cleanup_flags (boxes : Nat → routebox_t) (same_net touched_vec : List Nat) :
    (∀ p ∈ same_net,
      (RouteOne_cleanup boxes same_net touched_vec p).flags.source = false ∧
      (RouteOne_cleanup boxes same_net touched_vec p).flags.target = false ∧
      (RouteOne_cleanup boxes same_net touched_vec p).flags.nobloat = false) ∧
    (∀ q ∈ touched_vec, (RouteOne_cleanup boxes same_net touched_vec q).flags.touched = false) ∧
    (∀ q, (RouteOne_cleanup boxes same_net touched_vec q).flags.touched = true →
      (boxes q).flags.touched = true ∧ q ∉ touched_vec) := by
  refine ⟨?_, ?_, ?_⟩
  · intro p hp
    unfold RouteOne_cleanup set_flags
    simp only [hp, if_true]
    split_ifs <;> exact ⟨rfl, rfl, rfl⟩
  · intro q hq
    unfold RouteOne_cleanup
    unfold set_flags
    simp only [hq, if_true]
  · intro q hq
    unfold RouteOne_cleanup at hq
    by_cases hqt : q ∈ touched_vec
    · exfalso
      unfold set_flags at hq
      simp only [hqt, if_true] at hq
      exact absurd hq (by simp)
    · refine ⟨?_, hqt⟩
      have h1 : (set_flags
          (set_flags boxes same_net
            (fun f => { f with source := false, target := false, nobloat := false }))
          touched_vec (fun f => { f with touched := false }) q).flags.touched =
          (set_flags boxes same_net
            (fun f => { f with source := false, target := false, nobloat := false })
            q).flags.touched := by
        unfold set_flags
        simp only [hqt, if_false]
      have h2 := set_flags_touched boxes same_net
        (fun f => { f with source := false, target := false, nobloat := false })
        (fun _ => rfl) q
      rw [h1, h2] at hq
      exact hq

/-- C20: on every exit path of `RouteOne` (no targets, no path found, path
found) the flags of the search are reset: no box of the same-net ring of
`from` has the source, target or nobloat flag, every box of `touched_vec`,
where the search puts the boxes whose touched flag it sets, has the flag
cleared, and a box that did not have the touched flag before the call does not
have it after the call. -/
theorem RouteOne_resets_flags (P : AutoRouteParametersType) (active : Nat → Bool)
    (boxes : Nat → routebox_t) (i : routeone_input) :
    (∀ p ∈ i.same_net,
      ((RouteOne P active boxes i).boxes p).flags.source = false ∧
      ((RouteOne P active boxes i).boxes p).flags.target = false ∧
      ((RouteOne P active boxes i).boxes p).flags.nobloat = false) ∧
    (∀ q ∈ (RouteOne P active boxes i).final.touched_vec,
      ((RouteOne P active boxes i).boxes q).flags.touched = false) ∧
    (∀ q, (boxes q).flags.touched = false →
      ((RouteOne P active boxes i).boxes q).flags.touched = false) := by
  have hinit : ∀ (heap : List edge_t) (created : List pathbox), TouchInv boxes
      { boxes := RouteOne_flags boxes i, workheap := heap, best_path := none,
        best_target := none, best_cost := 0, area_vec := [], touched_vec := [],
        created := created } := by
    intro heap created q hq
    left
    rw [← RouteOne_flags_touched boxes i q]
    exact hq
  unfold RouteOne
  simp only
  split_ifs with hn
  · obtain ⟨c1, c2, c3⟩ := RouteOne_cleanup_flags (RouteOne_flags boxes i) i.same_net []
    refine ⟨c1, fun q hq => absurd hq (List.not_mem_nil q), ?_⟩
    intro q hq
    by_contra hc
    have hc2 := (c3 q (by simpa using hc)).1
    rw [RouteOne_flags_touched, hq] at hc2
    exact absurd hc2 (by simp)
  · have hfin := RouteOne_loop_touched P active boxes i.iterations _
      (hinit (BreakEdges P (RouteOne_flags boxes i) i.break_inputs
          (RouteOne_source_vec (RouteOne_flags boxes i) active i.source_cost i.same_subnet) []
          []).1
        (BreakEdges P (RouteOne_flags boxes i) i.break_inputs
          (RouteOne_source_vec (RouteOne_flags boxes i) active i.source_cost i.same_subnet) []
          []).2)
    obtain ⟨c1, c2, c3⟩ := RouteOne_cleanup_flags
      (i.iterations.foldl (RouteOne_iteration P active)
        { boxes := RouteOne_flags boxes i,
          workheap := (BreakEdges P (RouteOne_flags boxes i) i.break_inputs
            (RouteOne_source_vec (RouteOne_flags boxes i) active i.source_cost i.same_subnet) []
            []).1,
          best_path := none, best_target := none, best_cost := 0, area_vec := [],
          touched_vec := [],
          created := (BreakEdges P (RouteOne_flags boxes i) i.break_inputs
            (RouteOne_source_vec (RouteOne_flags boxes i) active i.source_cost i.same_subnet) []
            []).2 }).boxes i.same_net
      (i.iterations.foldl (RouteOne_iteration P active)
        { boxes := RouteOne_flags boxes i,
          workheap := (BreakEdges P (RouteOne_flags boxes i) i.break_inputs
            (RouteOne_source_vec (RouteOne_flags boxes i) active i.source_cost i.same_subnet) []
            []).1,
          best_path := none, best_target := none, best_cost := 0, area_vec := [],
          touched_vec := [],
          created := (BreakEdges P (RouteOne_flags boxes i) i.break_inputs
            (RouteOne_source_vec (RouteOne_flags boxes i) active i.source_cost i.same_subnet) []
            []).2 }).touched_vec
    refine ⟨c1, c2, ?_⟩
    intro q hq
    by_contra hc
    obtain ⟨d1, d2⟩ := c3 q (by simpa using hc)
    rcases hfin q d1 with h | h
    · rw [hq] at h
      exact absurd h (by simp)
    · exact d2 h

/-- C20 (witness): the call of `RouteOne` of the example search; the pins `0`
and `1` of the net have no source, target or nobloat flag afterwards, and the
line `2`, which the search runs into, has no touched flag. -/
theorem RouteOne_resets_flags_witness :
    (((RouteOne pass0Parameters (fun _ => true) searchBoxes searchInput).boxes 0).flags.source =
        false ∧
      ((RouteOne pass0Parameters (fun _ => true) searchBoxes searchInput).boxes 0).flags.target =
        false ∧
      ((RouteOne pass0Parameters (fun _ => true) searchBoxes searchInput).boxes 0).flags.nobloat =
        false) ∧
    ((RouteOne pass0Parameters (fun _ => true) searchBoxes searchInput).boxes 2).flags.touched =
      false :=
  ⟨(RouteOne_resets_flags pass0Parameters (fun _ => true) searchBoxes searchInput).1 0
      (by decide),
    (RouteOne_resets_flags pass0Parameters (fun _ => true) searchBoxes searchInput).2.2 2
      (by decide)⟩

/-! ### The touched flag in the main loop of `RouteOne` -/

/-- A property of the board boxes and of `touched_vec` holds after the
expansion of an interior edge, if it holds before it and for the state in
which the underlying box of the edge, not touched so far, has been touched and
appended to `touched_vec`. -/
theorem expand_interior_pred (P : AutoRouteParametersType) (active : Nat → Bool)
    (o : expand_input) (e : edge_t) (s : routeone_state)
    (Q : (Nat → routebox_t) → List Nat → Prop) (hs : Q s.boxes s.touched_vec)
    (hu : ∀ u, e.rb.underlying = some u → (s.boxes u).flags.touched = false →
      Q (fun q => if q = u then
          { s.boxes u with flags := { (s.boxes u).flags with touched := true } }
        else s.boxes q) (u :: s.touched_vec)) :
    Q (expand_interior P active o e s).boxes (expand_interior P active o e s).touched_vec := by
  have hsame : ∀ s1 s2 : routeone_state, same_touched s1 s2 → Q s1.boxes s1.touched_vec →
      Q s2.boxes s2.touched_vec := by
    intro s1 s2 h hq
    rw [h.1, h.2]
    exact hq
  unfold expand_interior
  cases hund : e.rb.underlying with
  | none => exact hs
  | some u =>
    simp only
    split_ifs with h1
    · exact hs
    all_goals
      have h0 : Q
          ({ s with
            boxes := fun q => if q = u then
                { s.boxes u with flags := { (s.boxes u).flags with touched := true } }
              else s.boxes q
            touched_vec := u :: s.touched_vec } : routeone_state).boxes
          ({ s with
            boxes := fun q => if q = u then
                { s.boxes u with flags := { (s.boxes u).flags with touched := true } }
              else s.boxes q
            touched_vec := u :: s.touched_vec } : routeone_state).touched_vec :=
        hu u hund (by simpa using h1)
    all_goals
      first
      | exact h0
      | exact hsame _ _ (best_path_candidate_touched _ _ _) h0
      | exact hsame _ _
          (same_touched_trans (same_touched_created _ _)
            (foldl_touched _ (fun s a => add_or_destroy_edge_touched s a) _ _)) h0
      | exact hsame _ _
          (same_touched_trans (same_touched_created _ _)
            (same_touched_trans
              (foldl_touched _ (fun s a => add_or_destroy_edge_touched s a) _ _)
              (add_via_sites_touched P active _ _ _ _))) h0
      | exact hsame _ _
          (same_touched_trans (best_path_candidate_touched _ _ _)
            (same_touched_trans (same_touched_created _ _)
              (foldl_touched _ (fun s a => add_or_destroy_edge_touched s a) _ _))) h0
      | exact hsame _ _
          (same_touched_trans (best_path_candidate_touched _ _ _)
            (same_touched_trans (same_touched_created _ _)
              (same_touched_trans
                (foldl_touched _ (fun s a => add_or_destroy_edge_touched s a) _ _)
                (add_via_sites_touched P active _ _ _ _)))) h0

/-! ### The knee of a drawn connection -/

/-- The condition on corners in the theorem on the knee cannot be dropped:
the boxes `(0,0)-(10,10)` and `(10,10)-(20,20)` touch at a corner only, which
`edge_intersect` accepts; from the start `(5,5)` the end is `(10,10)` and the
knee is `(5,10)`, which is in neither box.  The places that create a box for a
parent make no such pair: a via box and its cells lie in the box of the
parent, and a conflict box overlaps the edge it was found for. -/
theorem edge_intersect_corner_knee_outside :
    edge_intersect ⟨0, 0, 10, 10⟩ ⟨10, 10, 20, 20⟩ = true ∧
    point_in_box ⟨0, 0, 10, 10⟩ 5 5 = true ∧
    closest_point_in_box ⟨5, 5⟩ ⟨10, 10, 20, 20⟩ = ⟨10, 10⟩ ∧
    RD_DrawManhattanLine_knee ⟨0, 0, 10, 10⟩ ⟨5, 5⟩
      (closest_point_in_box ⟨5, 5⟩ ⟨10, 10, 20, 20⟩) = ⟨5, 10⟩ ∧
    point_in_box ⟨0, 0, 10, 10⟩ 5 10 = false ∧ point_in_box ⟨10, 10, 20, 20⟩ 5 10 = false := by
  decide

theorem routebox_list_eq (x y : routebox_list) (h1 : x.next = y.next) (h2 : x.prev = y.prev) :
    x = y := by
  cases x; cases y
  simp only at h1 h2
  rw [h1, h2]

theorem set_next_apply (lk : Nat → routebox_list) (r v u : Nat) :
    (set_next lk r v u).next = (if u = r then v else (lk u).next) ∧
    (set_next lk r v u).prev = (lk u).prev := by
  unfold set_next
  split_ifs with h
  · rw [h]; exact ⟨rfl, rfl⟩
  · exact ⟨rfl, rfl⟩

theorem set_prev_apply (lk : Nat → routebox_list) (r v u : Nat) :
    (set_prev lk r v u).prev = (if u = r then v else (lk u).prev) ∧
    (set_prev lk r v u).next = (lk u).next := by
  unfold set_prev
  split_ifs with h
  · rw [h]; exact ⟨rfl, rfl⟩
  · exact ⟨rfl, rfl⟩

/-- An assignment on one ring leaves the tables of the other rings alone. -/
theorem store_table_ne (L : netlists) (r : Nat) (which which2 : boxlist) (rl : routebox_list)
    (h : ¬ which2 = which) : (L.store r which rl).table which2 = L.table which2 := by
  funext u
  rw [table_store]
  simp [h]

/-- The tables after an assignment to one `next` link. -/
theorem store_next_table (L : netlists) (r v : Nat) (which which2 : boxlist) :
    (L.store r which { __select_list L r which with next := v }).table which2 =
      if which2 = which then set_next (L.table which) r v else L.table which2 := by
  funext u
  rw [table_store]
  by_cases h : which2 = which
  · subst h
    simp only [true_and, if_true, set_next, __select_list]
  · simp [h]

/-- The tables after an assignment to one `prev` link. -/
theorem store_prev_table (L : netlists) (r v : Nat) (which which2 : boxlist) :
    (L.store r which { __select_list L r which with prev := v }).table which2 =
      if which2 = which then set_prev (L.table which) r v else L.table which2 := by
  funext u
  rw [table_store]
  by_cases h : which2 = which
  · subst h
    simp only [true_and, if_true, set_prev, __select_list]
  · simp [h]

/-- The table of the ring after `MergeNets`, and the tables of the other
rings. -/
theorem MergeNets_table (L : netlists) (a b : Nat) (which which2 : boxlist) :
    (MergeNets L a b which).table which2 =
      if which2 = which then splice (L.table which) a b else L.table which2 := by
  unfold MergeNets
  simp only
  rw [store_prev_table, store_next_table, store_prev_table, store_next_table]
  by_cases h : which2 = which
  · subst h
    simp only [if_true]
    funext u
    apply routebox_list_eq
    · rw [(set_prev_apply _ _ _ _).2, (set_next_apply _ _ _ _).1, (set_prev_apply _ _ _ _).2,
        (set_next_apply _ _ _ _).1]
      rfl
    · rw [(set_prev_apply _ _ _ _).1, (set_next_apply _ _ _ _).2, (set_prev_apply _ _ _ _).1,
        (set_next_apply _ _ _ _).2]
      rfl
  · simp only [if_neg h, store_table_ne _ _ _ _ _ h]

/-- A ring stays a chain when it is entered from another box: the new first box
gets the next link of the old one, and the other links stay. -/
theorem chain_rehead (lk lk2 : Nat → routebox_list) (h h2 : Nat) (l : List Nat)
    (hc : List.Chain (Link lk) h (l ++ [h])) (hn : (lk2 h2).next = (lk h).next)
    (hp : (lk2 (lk h).next).prev = h2) (hnext : ∀ u ∈ l, (lk2 u).next = (lk u).next)
    (hprev : ∀ v ∈ (l ++ [h]).tail, (lk2 v).prev = (lk v).prev) :
    List.Chain (Link lk2) h2 (l ++ [h]) := by
  cases l with
  | nil =>
    rw [List.nil_append, List.chain_cons] at hc ⊢
    have e : (lk h).next = h := hc.1.1
    refine ⟨⟨hn.trans e, ?_⟩, List.Chain.nil⟩
    rw [e] at hp
    exact hp
  | cons x l =>
    rw [List.cons_append, List.chain_cons] at hc ⊢
    have e : (lk h).next = x := hc.1.1
    rw [e] at hn hp
    refine ⟨⟨hn, hp⟩, chain_link_congr lk lk2 (l ++ [h]) x hc.2 ?_ ?_⟩
    · intro u hu
      have hd : (x :: (l ++ [h])).dropLast = x :: l := by
        rw [← List.cons_append, List.dropLast_concat]
      rw [hd] at hu
      exact hnext u hu
    · intro v hv
      exact hprev v hv

/-- The first box after `h` on its ring is the next box of `h`. -/
theorem chain_ring_next (lk : Nat → routebox_list) (h : Nat) (l : List Nat)
    (hc : List.Chain (Link lk) h (l ++ [h])) : l ++ [h] = (lk h).next :: (l ++ [h]).tail := by
  cases l with
  | nil =>
    rw [List.nil_append, List.chain_cons] at hc
    rw [hc.1.1]
    rfl
  | cons x l =>
    rw [List.cons_append, List.chain_cons] at hc
    rw [hc.1.1]
    rfl

/-- The next box of `h` is one of the boxes of its ring, and it does not come
again on the ring. -/
theorem chain_ring_next_mem (lk : Nat → routebox_list) (h : Nat) (l : List Nat)
    (hc : List.Chain (Link lk) h (l ++ [h])) (hnd : (h :: l).Nodup) :
    (lk h).next ∈ h :: l ∧ (lk h).next ∉ (l ++ [h]).tail := by
  have e := chain_ring_next lk h l hc
  have hnd2 : (l ++ [h]).Nodup := by
    have : ([h] ++ l).Nodup := hnd
    exact List.nodup_append_comm.mp this
  constructor
  · have : (lk h).next ∈ l ++ [h] := by rw [e]; exact List.mem_cons_self _ _
    rcases List.mem_append.mp this with h1 | h1
    · exact List.mem_cons_of_mem _ h1
    · rw [List.mem_singleton] at h1
      rw [h1]; exact List.mem_cons_self _ _
  · rw [e] at hnd2
    exact (List.nodup_cons.mp hnd2).1

/-- The links stay those of rings when two boxes are merged. -/
theorem splice_ring_links (lk : Nat → routebox_list) (a b : Nat) (hab : a ≠ b)
    (h : ring_links lk) : ring_links (splice lk a b) := by
  have ha := h a
  have hb := h b
  have hne : (lk a).next ≠ (lk b).next := by
    intro e
    have e1 := ha.1
    rw [e, hb.1] at e1
    exact hab e1.symm
  intro u
  have hu := h u
  unfold splice
  simp only
  constructor
  · by_cases h1 : u = a
    · rw [if_pos h1, if_pos rfl, h1]
    · rw [if_neg h1]
      by_cases h2 : u = b
      · rw [if_pos h2, if_neg hne, if_pos rfl, h2]
      · rw [if_neg h2]
        have h3 : (lk u).next ≠ (lk b).next := by
          intro e
          have e1 := hu.1
          rw [e, hb.1] at e1
          exact h2 e1.symm
        have h4 : (lk u).next ≠ (lk a).next := by
          intro e
          have e1 := hu.1
          rw [e, ha.1] at e1
          exact h1 e1.symm
        rw [if_neg h3, if_neg h4]
        exact hu.1
  · by_cases h1 : u = (lk b).next
    · rw [if_pos h1, if_pos rfl, h1]
    · rw [if_neg h1]
      by_cases h2 : u = (lk a).next
      · rw [if_pos h2, if_neg (Ne.symm hab), if_pos rfl, h2]
      · rw [if_neg h2]
        have h3 : (lk u).prev ≠ a := by
          intro e
          have e1 := hu.2
          rw [e] at e1
          exact h2 e1.symm
        have h4 : (lk u).prev ≠ b := by
          intro e
          have e1 := hu.2
          rw [e] at e1
          exact h1 e1.symm
        rw [if_neg h3, if_neg h4]
        exact hu.2

/-- On a chain of links the previous box of the next box of `x` is `x`, for
every box but the last. -/
theorem chain_succ (lk : Nat → routebox_list) :
    ∀ (l : List Nat) (a : Nat), List.Chain (Link lk) a l →
      ∀ x ∈ (a :: l).dropLast, (lk (lk x).next).prev = x := by
  intro l
  induction l with
  | nil => intro a _ x hx; exact absurd hx (List.not_mem_nil x)
  | cons b l ih =>
    intro a hc x hx
    rw [List.chain_cons] at hc
    have hd : (a :: b :: l).dropLast = a :: (b :: l).dropLast := rfl
    rw [hd] at hx
    rcases List.mem_cons.mp hx with h | h
    · rw [h, hc.1.1]; exact hc.1.2
    · exact ih b hc.2 x h

/-- On a chain of links the next box of the previous box of `x` is `x`, for
every box but the first. -/
theorem chain_pred (lk : Nat → routebox_list) :
    ∀ (l : List Nat) (a : Nat), List.Chain (Link lk) a l →
      ∀ x ∈ l, (lk (lk x).prev).next = x := by
  intro l
  induction l with
  | nil => intro a _ x hx; exact absurd hx (List.not_mem_nil x)
  | cons b l ih =>
    intro a hc x hx
    rw [List.chain_cons] at hc
    rcases List.mem_cons.mp hx with h | h
    · rw [h, hc.1.2]; exact hc.1.1
    · exact ih b hc.2 x h

/-- On a ring next and previous undo each other at every box. -/
theorem chain_ring_inverse (lk : Nat → routebox_list) (h : Nat) (l : List Nat)
    (hc : List.Chain (Link lk) h (l ++ [h])) :
    ∀ x ∈ h :: l, (lk (lk x).next).prev = x ∧ (lk (lk x).prev).next = x := by
  intro x hx
  constructor
  · refine chain_succ lk (l ++ [h]) h hc x ?_
    have hd : (h :: (l ++ [h])).dropLast = h :: l := by
      rw [← List.cons_append, List.dropLast_concat]
    rw [hd]
    exact hx
  · refine chain_pred lk (l ++ [h]) h hc x ?_
    rcases List.mem_cons.mp hx with h1 | h1
    · rw [h1]; exact List.mem_append_right _ (List.mem_singleton.mpr rfl)
    · exact List.mem_append_left _ h1

/-- C23: `MergeNets (a, b, which)` on two boxes that lie on two distinct rings
of distinct boxes yields one ring: from `a` it runs through the ring of `b`,
from the box after `b` round to `b`, and then through the rest of the ring of
`a` back to `a`.  Its boxes are distinct and are exactly those of the two
rings, next and previous undo each other at every one of them, and the links
of the other three relations stay as they are for every box. -/
theorem MergeNets_rings (L : netlists) (a b : Nat) (which : boxlist) (ra rb : List Nat)
    (ha : List.Chain (Link (L.table which)) a (ra ++ [a]))
    (hb : List.Chain (Link (L.table which)) b (rb ++ [b]))
    (hnda : (a :: ra).Nodup) (hndb : (b :: rb).Nodup)
    (hdisj : ∀ x ∈ a :: ra, x ∉ b :: rb) :
    List.Chain (Link ((MergeNets L a b which).table which)) a (rb ++ b :: ra ++ [a]) ∧
    (a :: (rb ++ b :: ra)).Nodup ∧
    (∀ x, x ∈ a :: (rb ++ b :: ra) ↔ x ∈ a :: ra ∨ x ∈ b :: rb) ∧
    (∀ x ∈ a :: (rb ++ b :: ra),
      (((MergeNets L a b which).table which)
        (((MergeNets L a b which).table which) x).next).prev = x ∧
      (((MergeNets L a b which).table which)
        (((MergeNets L a b which).table which) x).prev).next = x) ∧
    (∀ which2, which2 ≠ which → (MergeNets L a b which).table which2 = L.table which2) := by
  have htab : (MergeNets L a b which).table which = splice (L.table which) a b := by
    rw [MergeNets_table, if_pos rfl]
  have hab : a ≠ b := fun e =>
    hdisj a (List.mem_cons_self _ _) (by rw [e]; exact List.mem_cons_self _ _)
  obtain ⟨an1, an2⟩ := chain_ring_next_mem (L.table which) a ra ha hnda
  obtain ⟨bn1, bn2⟩ := chain_ring_next_mem (L.table which) b rb hb hndb
  have hne : (L.table which a).next ≠ (L.table which b).next := by
    intro e
    exact hdisj _ an1 (by rw [e]; exact bn1)
  have htaila : ∀ v ∈ (ra ++ [a]).tail, v ∈ a :: ra := by
    intro v hv
    have := List.mem_of_mem_tail hv
    rcases List.mem_append.mp this with h1 | h1
    · exact List.mem_cons_of_mem _ h1
    · rw [List.mem_singleton] at h1
      rw [h1]; exact List.mem_cons_self _ _
  have htailb : ∀ v ∈ (rb ++ [b]).tail, v ∈ b :: rb := by
    intro v hv
    have := List.mem_of_mem_tail hv
    rcases List.mem_append.mp this with h1 | h1
    · exact List.mem_cons_of_mem _ h1
    · rw [List.mem_singleton] at h1
      rw [h1]; exact List.mem_cons_self _ _
  have hchain : List.Chain (Link (splice (L.table which) a b)) a (rb ++ b :: ra ++ [a]) := by
    rw [List.append_assoc, List.cons_append, List.chain_split]
    constructor
    · refine chain_rehead (L.table which) _ b a rb hb ?_ ?_ ?_ ?_
      · simp only [splice, if_true]
      · simp only [splice, if_true]
      · intro u hu
        have h1 : u ≠ a := fun e =>
          hdisj a (List.mem_cons_self _ _) (by rw [← e]; exact List.mem_cons_of_mem _ hu)
        have h2 : u ≠ b := fun e => (List.nodup_cons.mp hndb).1 (by rw [← e]; exact hu)
        simp only [splice, if_neg h1, if_neg h2]
      · intro v hv
        have h1 : v ≠ (L.table which b).next := fun e => bn2 (by rw [← e]; exact hv)
        have h2 : v ≠ (L.table which a).next := fun e =>
          hdisj _ an1 (by rw [← e]; exact htailb v hv)
        simp only [splice, if_neg h1, if_neg h2]
    · refine chain_rehead (L.table which) _ a b ra ha ?_ ?_ ?_ ?_
      · simp only [splice, if_neg (Ne.symm hab), if_true]
      · simp only [splice, if_neg hne, if_true]
      · intro u hu
        have h1 : u ≠ a := fun e => (List.nodup_cons.mp hnda).1 (by rw [← e]; exact hu)
        have h2 : u ≠ b := fun e =>
          hdisj u (List.mem_cons_of_mem _ hu) (by rw [e]; exact List.mem_cons_self _ _)
        simp only [splice, if_neg h1, if_neg h2]
      · intro v hv
        have h1 : v ≠ (L.table which b).next := fun e =>
          hdisj v (htaila v hv) (by rw [e]; exact bn1)
        have h2 : v ≠ (L.table which a).next := fun e => an2 (by rw [← e]; exact hv)
        simp only [splice, if_neg h1, if_neg h2]
  have hperm : List.Perm ((a :: ra) ++ (b :: rb)) (a :: (rb ++ b :: ra)) := by
    rw [List.cons_append]
    refine List.Perm.cons a ?_
    exact (List.perm_append_comm).trans (List.perm_middle).symm
  rw [htab]
  refine ⟨hchain, ?_, ?_, ?_, ?_⟩
  · exact (List.Perm.nodup_iff hperm).mp
      (List.nodup_append.mpr ⟨hnda, hndb, fun x h1 h2 => hdisj x h1 h2⟩)
  · intro x
    rw [← List.Perm.mem_iff hperm, List.mem_append]
  · have hc2 : List.Chain (Link (splice (L.table which) a b)) a ((rb ++ b :: ra) ++ [a]) := hchain
    exact chain_ring_inverse _ a _ hc2
  · intro which2 h2
    rw [MergeNets_table, if_neg h2]

/-- C23 (witness): the ring `0, 1, 2` of the example and the box `5`, alone
on its ring, are merged into the ring `5, 1, 2, 0`. -/
theorem MergeNets_rings_witness :
    List.Chain (Link ((MergeNets ringLists 5 0 .NET).table .NET)) 5 ([1, 2] ++ 0 :: [] ++ [5]) ∧
    (5 :: ([1, 2] ++ 0 :: [])).Nodup ∧
    (∀ x, x ∈ 5 :: ([1, 2] ++ 0 :: []) ↔ x ∈ 5 :: [] ∨ x ∈ 0 :: [1, 2]) ∧
    (∀ x ∈ 5 :: ([1, 2] ++ 0 :: []),
      (((MergeNets ringLists 5 0 .NET).table .NET)
        (((MergeNets ringLists 5 0 .NET).table .NET) x).next).prev = x ∧
      (((MergeNets ringLists 5 0 .NET).table .NET)
        (((MergeNets ringLists 5 0 .NET).table .NET) x).prev).next = x) ∧
    (∀ which2, which2 ≠ boxlist.NET →
      (MergeNets ringLists 5 0 .NET).table which2 = ringLists.table which2) :=
  MergeNets_rings ringLists 5 0 .NET [] [1, 2]
    (by
      simp only [List.nil_append, List.chain_cons, Link]
      exact ⟨⟨rfl, rfl⟩, List.Chain.nil⟩)
    (by
      simp only [List.cons_append, List.nil_append, List.chain_cons, Link]
      exact ⟨⟨rfl, rfl⟩, ⟨rfl, rfl⟩, ⟨rfl, rfl⟩, List.Chain.nil⟩)
    (by decide) (by decide) (by decide)

/-- C30: for a box `a` that is alone on the ring `which` and another box `b`
whose next box has `b` as its previous box, `MergeNets (a, b, which)` followed
by `RemoveFromNet (a, which)` restores the links of every box on every ring,
so that `a` is alone again; and `RemoveFromNet` on a box that is alone changes
nothing. -/
theorem MergeNets_RemoveFromNet (L : netlists) (a b : Nat) (which : boxlist) (hab : a ≠ b)
    (ha : L.table which a = { next := a, prev := a })
    (hb : (L.table which (L.table which b).next).prev = b) :
    (∀ which2, (RemoveFromNet (MergeNets L a b which) a which).table which2 =
      L.table which2) ∧
    RemoveFromNet L a which = L := by
  constructor
  · intro which2
    rw [RemoveFromNet_table]
    by_cases h2 : which2 = which
    · subst h2
      rw [if_pos rfl, MergeNets_table, if_pos rfl]
      have hn : (L.table which2 a).next = a := by rw [ha]
      have hp : (L.table which2 a).prev = a := by rw [ha]
      have hbn : (L.table which2 b).next ≠ a := by
        intro e
        rw [e, hp] at hb
        exact hab hb
      have s1 : (splice (L.table which2) a b a).next = (L.table which2 b).next := by
        simp only [splice, if_true]
      have s2 : (splice (L.table which2) a b a).prev = b := by
        simp only [splice, if_neg (Ne.symm hbn), hn, if_true]
      funext u
      obtain ⟨e1, e2⟩ := unlink_apply (splice (L.table which2) a b) a u
        (by rw [s1]; exact hbn) (by rw [s2]; exact Ne.symm hab)
      apply routebox_list_eq
      · rw [e1, s1, s2]
        by_cases h1 : u = a
        · rw [if_pos h1, h1, hn]
        · rw [if_neg h1]
          by_cases h3 : u = b
          · rw [if_pos h3, h3]
          · rw [if_neg h3]
            simp only [splice, if_neg h1, if_neg h3]
      · rw [e2, s1, s2]
        by_cases h1 : u = a
        · rw [if_pos h1, h1, hp]
        · rw [if_neg h1]
          by_cases h3 : u = (L.table which2 b).next
          · rw [if_pos h3, h3, hb]
          · rw [if_neg h3]
            simp only [splice, if_neg h3, hn, if_neg h1]
    · rw [if_neg h2, MergeNets_table, if_neg h2]
  · unfold RemoveFromNet __select_list
    simp only
    rw [if_pos (Or.inl (by rw [ha]))]

/-- C30 (witness): the box `5` is merged into the ring `0, 1, 2` of the
example and removed again. -/
theorem MergeNets_RemoveFromNet_witness :
    (∀ which2, (RemoveFromNet (MergeNets ringLists 5 0 .NET) 5 .NET).table which2 =
      ringLists.table which2) ∧
    RemoveFromNet ringLists 5 .NET = ringLists :=
  MergeNets_RemoveFromNet ringLists 5 0 .NET (by decide) rfl rfl

/-! ### `break_box_edge` -/

/-- The rotation from north undoes the rotation to north, and the other way
round. -/
theorem ROTATEBOX_TO_FROM_NORTH (box : BoxType) (dir : Nat) :
    ROTATEBOX_TO_NORTH (ROTATEBOX_FROM_NORTH box dir) dir = box ∧
    ROTATEBOX_FROM_NORTH (ROTATEBOX_TO_NORTH box dir) dir = box := by
  unfold ROTATEBOX_TO_NORTH ROTATEBOX_FROM_NORTH
  split <;> simp

/-- C24: `break_box_edge` splits an edge exactly.  In the frame rotated to
north, for an original box `o` with `o.X1 < o.X2` and a bloated breaker `bb`
with `bb.X1 < bb.X2` that meet the asserted precondition
`bb.X1 < o.X2 && bb.X2 > o.X1`: the centre piece is valid; the three pieces lie
on the line `Y = o.Y1`; the centre piece is the part of the edge that the
bloated breaker covers, from `MAX (bb.X1, o.X1)` to `MIN (bb.X2, o.X2)`; every
coordinate of the extent of the edge lies on a valid piece and on no more than
one, and the valid pieces do not leave the extent of the edge. -/
theorem break_box_edge_partition (P : AutoRouteParametersType) (original : BoxType)
    (which_edge : Nat) (breaker : routebox_t) (o bb : BoxType) (r : broken_boxes)
    (ho : o = ROTATEBOX_TO_NORTH original which_edge)
    (hbb : bb = ROTATEBOX_TO_NORTH (bloat_routebox P breaker) which_edge)
    (hr : r = break_box_edge P original which_edge breaker)
    (h1 : o.X1 < o.X2) (h2 : bb.X1 < bb.X2) (h3 : bb.X1 < o.X2 ∧ bb.X2 > o.X1) :
    r.is_valid_center = true ∧
    ROTATEBOX_TO_NORTH r.left which_edge = ⟨o.X1, o.Y1, bb.X1, o.Y1⟩ ∧
    ROTATEBOX_TO_NORTH r.center which_edge = ⟨max bb.X1 o.X1, o.Y1, min bb.X2 o.X2, o.Y1⟩ ∧
    ROTATEBOX_TO_NORTH r.right which_edge = ⟨bb.X2, o.Y1, o.X2, o.Y1⟩ ∧
    (∀ x : Int, (o.X1 ≤ x ∧ x < o.X2) ↔
      ((r.is_valid_left = true ∧ on_piece (ROTATEBOX_TO_NORTH r.left which_edge) x) ∨
       (r.is_valid_center = true ∧ on_piece (ROTATEBOX_TO_NORTH r.center which_edge) x) ∨
       (r.is_valid_right = true ∧ on_piece (ROTATEBOX_TO_NORTH r.right which_edge) x))) ∧
    (∀ x : Int,
      ¬ (on_piece (ROTATEBOX_TO_NORTH r.left which_edge) x ∧
          on_piece (ROTATEBOX_TO_NORTH r.center which_edge) x) ∧
      ¬ (on_piece (ROTATEBOX_TO_NORTH r.center which_edge) x ∧
          on_piece (ROTATEBOX_TO_NORTH r.right which_edge) x) ∧
      ¬ (on_piece (ROTATEBOX_TO_NORTH r.left which_edge) x ∧
          on_piece (ROTATEBOX_TO_NORTH r.right which_edge) x)) := by
  have e1 : ROTATEBOX_TO_NORTH r.left which_edge = ⟨o.X1, o.Y1, bb.X1, o.Y1⟩ := by
    rw [hr, ho, hbb]
    exact (ROTATEBOX_TO_FROM_NORTH _ _).1
  have e2 : ROTATEBOX_TO_NORTH r.center which_edge =
      ⟨max bb.X1 o.X1, o.Y1, min bb.X2 o.X2, o.Y1⟩ := by
    rw [hr, ho, hbb]
    exact (ROTATEBOX_TO_FROM_NORTH _ _).1
  have e3 : ROTATEBOX_TO_NORTH r.right which_edge = ⟨bb.X2, o.Y1, o.X2, o.Y1⟩ := by
    rw [hr, ho, hbb]
    exact (ROTATEBOX_TO_FROM_NORTH _ _).1
  have v1 : r.is_valid_left = decide (o.X1 < bb.X1) := by rw [hr, ho, hbb]; rfl
  have v2 : r.is_valid_center = decide (max bb.X1 o.X1 < min bb.X2 o.X2) := by
    rw [hr, ho, hbb]; rfl
  have v3 : r.is_valid_right = decide (bb.X2 < o.X2) := by rw [hr, ho, hbb]; rfl
  obtain ⟨h3a, h3b⟩ := h3
  rw [e1, e2, e3, v1, v2, v3]
  simp only [on_piece, decide_eq_true_eq]
  refine ⟨by omega, trivial, trivial, trivial, ?_, ?_⟩
  · intro x
    constructor
    · intro hx
      omega
    · intro hx
      omega
  · intro x
    refine ⟨?_, ?_, ?_⟩ <;> omega

/-- C24 (witness): the north edge of the source pin of the example, from 100
to 110, broken by a line whose bloated box reaches from 106 to 165: the left
piece and the centre piece are valid. -/
theorem break_box_edge_partition_witness :
    (break_box_edge pass0Parameters ⟨100, 100, 110, 110⟩ 0 breakerLine).is_valid_center = true ∧
    (break_box_edge pass0Parameters ⟨100, 100, 110, 110⟩ 0 breakerLine).is_valid_left = true ∧
    (break_box_edge pass0Parameters ⟨100, 100, 110, 110⟩ 0 breakerLine).is_valid_right = false :=
  ⟨(break_box_edge_partition pass0Parameters ⟨100, 100, 110, 110⟩ 0 breakerLine
      (ROTATEBOX_TO_NORTH ⟨100, 100, 110, 110⟩ 0)
      (ROTATEBOX_TO_NORTH (bloat_routebox pass0Parameters breakerLine) 0)
      (break_box_edge pass0Parameters ⟨100, 100, 110, 110⟩ 0 breakerLine) rfl rfl rfl
      (by decide) (by decide) (by decide)).1, by decide, by decide⟩

/-! ### The decomposition of an obstructed via box -/

/-- The coordinates of a cell of the decomposition. -/
theorem via_cell_eq (v a : BoxType) (i j : Nat) :
    via_cell v a i j =
      ⟨(cell_interval v.X1 v.X2 a.X1 a.X2 i).1, (cell_interval v.Y1 v.Y2 a.Y1 a.Y2 j).1,
       (cell_interval v.X1 v.X2 a.X1 a.X2 i).2, (cell_interval v.Y1 v.Y2 a.Y1 a.Y2 j).2⟩ := by
  unfold via_cell cell_interval
  split <;> split <;> rfl

/-- The points of a cell of the decomposition. -/
theorem via_cell_mem (v a : BoxType) (i j : Nat) (x y : Int) :
    point_in_box (via_cell v a i j) x y = true ↔
      ((cell_interval v.X1 v.X2 a.X1 a.X2 i).1 ≤ x ∧ x < (cell_interval v.X1 v.X2 a.X1 a.X2 i).2) ∧
      ((cell_interval v.Y1 v.Y2 a.Y1 a.Y2 j).1 ≤ y ∧ y < (cell_interval v.Y1 v.Y2 a.Y1 a.Y2 j).2) := by
  rw [via_cell_eq]
  simp only [point_in_box, Bool.and_eq_true, decide_eq_true_eq, ge_iff_le]
  constructor
  · rintro ⟨⟨⟨h1, h2⟩, h3⟩, h4⟩
    exact ⟨⟨h1, h3⟩, h2, h4⟩
  · rintro ⟨⟨h1, h3⟩, h2, h4⟩
    exact ⟨⟨⟨h1, h2⟩, h3⟩, h4⟩

/-- The three intervals of the decomposition of `lo..hi` around `a1..a2` lie in
`lo..hi` and no coordinate is in two of them. -/
theorem cell_interval_unique (lo hi a1 a2 : Int) (h : a1 ≤ a2) (i k : Nat) (hi3 : i < 3)
    (hk3 : k < 3) (x : Int)
    (h1 : (cell_interval lo hi a1 a2 i).1 ≤ x ∧ x < (cell_interval lo hi a1 a2 i).2)
    (h2 : (cell_interval lo hi a1 a2 k).1 ≤ x ∧ x < (cell_interval lo hi a1 a2 k).2) :
    i = k ∧ lo ≤ x ∧ x < hi := by
  interval_cases i <;> interval_cases k <;> simp only [cell_interval] at h1 h2 <;>
    refine ⟨?_, ?_, ?_⟩ <;> omega

/-- Every coordinate of `lo..hi` is in the interval of the decomposition that
the comparison with `a1` and `a2` selects. -/
theorem cell_interval_cover (lo hi a1 a2 : Int) (x : Int) (h1 : lo ≤ x) (h2 : x < hi) :
    (if x < a1 then 0 else if x < a2 then 1 else 2) < 3 ∧
    (cell_interval lo hi a1 a2 (if x < a1 then 0 else if x < a2 then 1 else 2)).1 ≤ x ∧
    x < (cell_interval lo hi a1 a2 (if x < a1 then 0 else if x < a2 then 1 else 2)).2 := by
  split_ifs <;> simp only [cell_interval] <;> refine ⟨?_, ?_, ?_⟩ <;> omega

/-- The cells of the two nested loops are the pairs of indices below 3. -/
theorem mem_via_cells (ij : Nat × Nat) : ij ∈ via_cells ↔ ij.1 < 3 ∧ ij.2 < 3 := by
  obtain ⟨i, j⟩ := ij
  constructor
  · intro h
    simp only [via_cells, List.mem_cons, Prod.mk.injEq, List.mem_singleton, List.not_mem_nil,
      or_false] at h
    simp only
    omega
  · rintro ⟨h1, h2⟩
    simp only at h1 h2
    interval_cases i <;> interval_cases j <;> simp [via_cells]

/-- C25: for a via box `v` and a bloated obstacle box `a` with ordered
coordinates, the cells of the 3x3 decomposition that pass the validity test
(`X1 < X2` and `Y1 < Y2`) are a partition of `v` into half-open boxes: a point
is in `v` exactly if it is in a valid cell, no point is in two cells, the
centre cell is the intersection of `v` and `a`, and when `a` overlaps `v`
(the centre cell is valid) every other cell lies in `v` and is not all of
`v`. -/
theorem via_cell_partition (v a : BoxType) (ha : a.ordered) :
    (∀ x y : Int, point_in_box v x y = true ↔
      ∃ ij ∈ via_cells,
        ((via_cell v a ij.1 ij.2).X1 < (via_cell v a ij.1 ij.2).X2 ∧
          (via_cell v a ij.1 ij.2).Y1 < (via_cell v a ij.1 ij.2).Y2) ∧
        point_in_box (via_cell v a ij.1 ij.2) x y = true) ∧
    (∀ ij ∈ via_cells, ∀ kl ∈ via_cells, ij ≠ kl → ∀ x y : Int,
      ¬ (point_in_box (via_cell v a ij.1 ij.2) x y = true ∧
          point_in_box (via_cell v a kl.1 kl.2) x y = true)) ∧
    via_cell v a 1 1 =
      ⟨max v.X1 a.X1, max v.Y1 a.Y1, min v.X2 a.X2, min v.Y2 a.Y2⟩ ∧
    (((via_cell v a 1 1).X1 < (via_cell v a 1 1).X2 ∧
        (via_cell v a 1 1).Y1 < (via_cell v a 1 1).Y2) →
      ∀ ij ∈ via_cells, ij ≠ (1, 1) →
        box_in_box v (via_cell v a ij.1 ij.2) = true ∧ via_cell v a ij.1 ij.2 ≠ v) := by
  obtain ⟨ax, ay⟩ := ha
  refine ⟨?_, ?_, rfl, ?_⟩
  · intro x y
    constructor
    · intro h
      simp only [point_in_box, Bool.and_eq_true, decide_eq_true_eq, ge_iff_le] at h
      obtain ⟨⟨⟨h1, h2⟩, h3⟩, h4⟩ := h
      obtain ⟨cx1, cx2, cx3⟩ := cell_interval_cover v.X1 v.X2 a.X1 a.X2 x h1 h3
      obtain ⟨cy1, cy2, cy3⟩ := cell_interval_cover v.Y1 v.Y2 a.Y1 a.Y2 y h2 h4
      refine ⟨(if x < a.X1 then 0 else if x < a.X2 then 1 else 2,
        if y < a.Y1 then 0 else if y < a.Y2 then 1 else 2), ?_, ?_, ?_⟩
      · rw [mem_via_cells]
        exact ⟨cx1, cy1⟩
      · rw [via_cell_eq]
        exact ⟨lt_of_le_of_lt cx2 cx3, lt_of_le_of_lt cy2 cy3⟩
      · rw [via_cell_mem]
        exact ⟨⟨cx2, cx3⟩, cy2, cy3⟩
    · rintro ⟨ij, hij, _, hin⟩
      rw [via_cell_mem] at hin
      rw [mem_via_cells] at hij
      have hx := cell_interval_unique v.X1 v.X2 a.X1 a.X2 ax ij.1 ij.1 hij.1 hij.1 x hin.1 hin.1
      have hy := cell_interval_unique v.Y1 v.Y2 a.Y1 a.Y2 ay ij.2 ij.2 hij.2 hij.2 y hin.2 hin.2
      simp only [point_in_box, Bool.and_eq_true, decide_eq_true_eq, ge_iff_le]
      exact ⟨⟨⟨hx.2.1, hy.2.1⟩, hx.2.2⟩, hy.2.2⟩
  · intro ij hij kl hkl hne x y
    rw [via_cell_mem, via_cell_mem]
    rw [mem_via_cells] at hij hkl
    rintro ⟨h1, h2⟩
    have hx := cell_interval_unique v.X1 v.X2 a.X1 a.X2 ax ij.1 kl.1 hij.1 hkl.1 x h1.1 h2.1
    have hy := cell_interval_unique v.Y1 v.Y2 a.Y1 a.Y2 ay ij.2 kl.2 hij.2 hkl.2 y h1.2 h2.2
    exact hne (Prod.ext hx.1 hy.1)
  · intro hc ij hij hne
    rw [via_cell_eq] at hc
    simp only [cell_interval] at hc
    rw [mem_via_cells] at hij
    obtain ⟨i, j⟩ := ij
    simp only at hij ⊢
    rw [via_cell_eq]
    have hneq : ∀ b : BoxType, (b.X1 ≠ v.X1 ∨ b.X2 ≠ v.X2 ∨ b.Y1 ≠ v.Y1 ∨ b.Y2 ≠ v.Y2) →
        b ≠ v := by
      intro b hb e
      rw [e] at hb
      rcases hb with h | h | h | h <;> exact h rfl
    obtain ⟨hi3, hj3⟩ := hij
    simp only [box_in_box, Bool.and_eq_true, decide_eq_true_eq]
    interval_cases i <;> interval_cases j <;>
      first
      | exact absurd rfl hne
      | (refine ⟨?_, hneq _ ?_⟩ <;> simp only [cell_interval] <;> omega)

/-- C25 (witness): the via box `(0,0)-(30,30)` around the obstacle
`(10,10)-(20,20)`; the point `(5,25)` is in a valid cell, and the centre cell
is the obstacle. -/
theorem via_cell_partition_witness :
    (point_in_box ⟨0, 0, 30, 30⟩ 5 25 = true ↔
      ∃ ij ∈ via_cells,
        ((via_cell ⟨0, 0, 30, 30⟩ ⟨10, 10, 20, 20⟩ ij.1 ij.2).X1 <
            (via_cell ⟨0, 0, 30, 30⟩ ⟨10, 10, 20, 20⟩ ij.1 ij.2).X2 ∧
          (via_cell ⟨0, 0, 30, 30⟩ ⟨10, 10, 20, 20⟩ ij.1 ij.2).Y1 <
            (via_cell ⟨0, 0, 30, 30⟩ ⟨10, 10, 20, 20⟩ ij.1 ij.2).Y2) ∧
        point_in_box (via_cell ⟨0, 0, 30, 30⟩ ⟨10, 10, 20, 20⟩ ij.1 ij.2) 5 25 = true) ∧
    via_cell ⟨0, 0, 30, 30⟩ ⟨10, 10, 20, 20⟩ 1 1 = ⟨10, 10, 20, 20⟩ :=
  ⟨(via_cell_partition ⟨0, 0, 30, 30⟩ ⟨10, 10, 20, 20⟩ (by decide)).1 5 25,
    (via_cell_partition ⟨0, 0, 30, 30⟩ ⟨10, 10, 20, 20⟩ (by decide)).2.2.1⟩

/-! ### Drawing a line and ironing it down -/

/-- C26: for a segment `(X1,Y1)-(X2,Y2)` with distinct end points that is
orthogonal and drawn with `is_45` false, or at 45 degrees and drawn with
`is_45` true, `RD_DrawLine` with the half thickness of the current style makes
one route box, and the line that `IronDownAllUnfixedPaths` creates from that
box has the same two end points, in either order. -/
theorem RD_DrawLine_IronDown_round_trip (P : AutoRouteParametersType) (X1 Y1 X2 Y2 : Int)
    (halfthick : Int) (group : Nat) (is_bad is_45 : Bool)
    (hh : halfthick = HALF_THICK P.augStyle.style.Thick)
    (hne : ¬ (X1 = X2 ∧ Y1 = Y2))
    (hshape : (is_45 = false ∧ (X1 = X2 ∨ Y1 = Y2)) ∨
      (is_45 = true ∧ |X2 - X1| = |Y2 - Y1|)) :
    ∃ rb, RD_DrawLine P X1 Y1 X2 Y2 halfthick group is_bad is_45 = [rb] ∧
      (((IronDownAllUnfixedPaths_line rb).1 = ⟨X1, Y1⟩ ∧
          (IronDownAllUnfixedPaths_line rb).2 = ⟨X2, Y2⟩) ∨
        ((IronDownAllUnfixedPaths_line rb).1 = ⟨X2, Y2⟩ ∧
          (IronDownAllUnfixedPaths_line rb).2 = ⟨X1, Y1⟩)) := by
  unfold RD_DrawLine
  rw [if_neg hne]
  refine ⟨_, rfl, ?_⟩
  simp only [IronDownAllUnfixedPaths_line, shrink_box, ← hh]
  have hdiag : is_45 = true → (X1 ≠ X2 ∧ Y1 ≠ Y2) := by
    intro h45
    rcases hshape with h | h
    · rw [h45] at h; exact absurd h.1 (by simp)
    · have := h.2
      constructor
      · intro e
        rw [e, sub_self, abs_zero] at this
        have h2 : Y2 - Y1 = 0 := abs_eq_zero.mp this.symm
        exact hne ⟨e, by omega⟩
      · intro e
        rw [e, sub_self, abs_zero] at this
        have h2 : X2 - X1 = 0 := abs_eq_zero.mp this
        exact hne ⟨by omega, e⟩
  cases is_45 with
  | false =>
    simp only [Bool.false_and, Bool.false_eq_true, if_false, PointType.mk.injEq]
    rcases hshape with h | h
    · rcases h.2 with e | e
      · subst e
        rcases le_total Y1 Y2 with hy | hy
        · left; simp only [min_self, max_self, min_eq_left hy, max_eq_right hy]; omega
        · right; simp only [min_self, max_self, min_eq_right hy, max_eq_left hy]; omega
      · subst e
        rcases le_total X1 X2 with hx | hx
        · left; simp only [min_self, max_self, min_eq_left hx, max_eq_right hx]; omega
        · right; simp only [min_self, max_self, min_eq_right hx, max_eq_left hx]; omega
    · exact absurd h.1 (by simp)
  | true =>
    obtain ⟨dx, dy⟩ := hdiag rfl
    simp only [Bool.true_and]
    rcases lt_or_gt_of_ne dx with hx | hx <;> rcases lt_or_gt_of_ne dy with hy | hy
    · left
      simp [min_eq_left (le_of_lt hx), max_eq_right (le_of_lt hx), min_eq_left (le_of_lt hy),
        max_eq_right (le_of_lt hy)]
    · right
      simp [min_eq_left (le_of_lt hx), max_eq_right (le_of_lt hx), min_eq_right (le_of_lt hy),
        max_eq_left (le_of_lt hy), ne_of_gt hy, ne_of_lt hy]
    · left
      simp [min_eq_right (le_of_lt hx), max_eq_left (le_of_lt hx), min_eq_left (le_of_lt hy),
        max_eq_right (le_of_lt hy), ne_of_gt hx, ne_of_lt hx]
    · right
      simp [min_eq_right (le_of_lt hx), max_eq_left (le_of_lt hx), min_eq_right (le_of_lt hy),
        max_eq_left (le_of_lt hy), ne_of_gt hx, ne_of_gt hy, ne_of_lt hx, ne_of_lt hy]

/-- C26 (witness): the segment from `(0,10)` to `(10,0)` at 45 degrees. -/
theorem RD_DrawLine_IronDown_round_trip_witness :
    ∃ rb, RD_DrawLine pass0Parameters 0 10 10 0 5 0 false true = [rb] ∧
      (((IronDownAllUnfixedPaths_line rb).1 = ⟨0, 10⟩ ∧
          (IronDownAllUnfixedPaths_line rb).2 = ⟨10, 0⟩) ∨
        ((IronDownAllUnfixedPaths_line rb).1 = ⟨10, 0⟩ ∧
          (IronDownAllUnfixedPaths_line rb).2 = ⟨0, 10⟩)) :=
  RD_DrawLine_IronDown_round_trip pass0Parameters 0 10 10 0 5 0 false true (by decide)
    (by decide) (Or.inr ⟨rfl, by decide⟩)

/-! ### The largest bloat -/

/-- The condition on the two styles in the bound of the bloat cannot be
dropped.  On hand-built boxes of three styles (`CreateRouteData` gives every
box of the router the default style, so the router has no such boxes), with
the default style `goodStyle` and the styles `thickStyle` and `wideStyle`,
`max_bloat` is 30, the largest `BLOAT` of a style, and with `thickStyle` as
current style a box of style `wideStyle` is bloated by
`MAX (10, 20) + HALF_THICK (40) = 40`: the bloated box of the line qualifies
as blocker, its region bloated by `max_bloat` does not. -/
theorem bloat_routebox_mixed_styles :
    BLOAT goodStyle = 30 ∧ BLOAT thickStyle = 30 ∧ BLOAT wideStyle = 25 ∧
    CreateRouteData_max_bloat goodStyle [thickStyle, wideStyle] = 30 ∧
    max thickStyle.Keepaway wideStyle.Keepaway + HALF_THICK thickStyle.Thick = 40 ∧
    bloat_routebox thickParameters (bloatBoxes 1) = ⟨106, 1, 200, 100⟩ ∧
    bloat_box (bloatBoxes 1).box 30 = ⟨115, 10, 190, 90⟩ ∧
    box_in_box (bloat_box (bloatBoxes 1).box 30)
      (bloat_routebox thickParameters (bloatBoxes 1)) = false ∧
    bloatTree.regionsCover (fun x => (x.rb bloatBoxes).box) = true ∧
    blocker_candidate thickParameters bloatBoxes blockerEdge (.board 1) ∧
    FindBlocker thickParameters bloatBoxes (.leaf (.board 1)) blockerEdge 30 =
      some (.board 1) ∧
    FindBlocker thickParameters bloatBoxes bloatTree blockerEdge 30 = none := by
  decide

/-! ### The neighbour search of the placer -/

/-- The box predicate of the neighbour search accepts a box exactly if the
rotated box meets the trapezoid and does not reach below its lower side. -/
theorem rect_in_reg_iff (box : BoxType) (ni : kd_neighbor_info) :
    (__kd_find_neighbor_rect_in_reg box ni).1 = true ↔
      ((((ROTATEBOX_TO_NORTH box ni.search_dir).Y2 > ni.trap.Y1 ∧
        (ROTATEBOX_TO_NORTH box ni.search_dir).Y1 < ni.trap.Y2) ∧
        (ROTATEBOX_TO_NORTH box ni.search_dir).X2 + ni.trap.Y2 >
          ni.trap.X1 + (ROTATEBOX_TO_NORTH box ni.search_dir).Y1) ∧
        (ROTATEBOX_TO_NORTH box ni.search_dir).X1 + (ROTATEBOX_TO_NORTH box ni.search_dir).Y1 <
          ni.trap.X2 + ni.trap.Y2) ∧
        (ROTATEBOX_TO_NORTH box ni.search_dir).Y2 ≤ ni.trap.Y2 := by
  unfold __kd_find_neighbor_rect_in_reg
  simp only
  split_ifs with hr
  · simp only [Bool.and_eq_true, decide_eq_true_eq] at hr
    simp only [Bool.and_eq_true, decide_eq_true_eq]
  · simp only [Bool.and_eq_true, decide_eq_true_eq] at hr
    simp only [Bool.and_eq_true, decide_eq_true_eq]

/-- The closure after the box predicate of the neighbour search: the upper
side of the trapezoid is at the lower side of an accepted box. -/
theorem rect_in_reg_state (box : BoxType) (ni : kd_neighbor_info) :
    (__kd_find_neighbor_rect_in_reg box ni).2 =
      if (__kd_find_neighbor_rect_in_reg box ni).1 = true then
        { ni with trap := { ni.trap with Y1 := (ROTATEBOX_TO_NORTH box ni.search_dir).Y2 },
                  neighbor := some box }
      else ni := by
  unfold __kd_find_neighbor_rect_in_reg
  simp only
  split_ifs <;> rfl

/-- The region predicate of the neighbour search accepts every region around
a box that the box predicate accepts. -/
theorem reg_in_sea_of_rect_in_reg (region box : BoxType) (ni : kd_neighbor_info)
    (hin : box_in_box region box = true)
    (hbox : (__kd_find_neighbor_rect_in_reg box ni).1 = true) :
    __kd_find_neighbor_reg_in_sea region ni = true := by
  obtain ⟨m1, m2, m3, m4⟩ := ROTATEBOX_TO_NORTH_mono region box ni.search_dir hin
  obtain ⟨⟨⟨⟨r1, r2⟩, r3⟩, r4⟩, r5⟩ := (rect_in_reg_iff box ni).1 hbox
  unfold __kd_find_neighbor_reg_in_sea
  simp only [Bool.and_eq_true, decide_eq_true_eq]
  refine ⟨⟨⟨?_, ?_⟩, ?_⟩, ?_⟩ <;> omega

/-- The box predicate of the neighbour search only narrows the trapezoid: a
box it accepts afterwards it accepted before, and it does not accept the same
box twice. -/
theorem rect_in_reg_after (x b : BoxType) (ni : kd_neighbor_info)
    (h : (__kd_find_neighbor_rect_in_reg b (__kd_find_neighbor_rect_in_reg x ni).2).1 = true) :
    (__kd_find_neighbor_rect_in_reg b ni).1 = true ∧ b ≠ x := by
  rw [rect_in_reg_state] at h
  split_ifs at h with hx
  · have hx2 := (rect_in_reg_iff x ni).1 hx
    have hb := (rect_in_reg_iff b _).1 h
    simp only at hb
    refine ⟨(rect_in_reg_iff b ni).2 ?_, ?_⟩
    · refine ⟨⟨⟨⟨?_, hb.1.1.1.2⟩, hb.1.1.2⟩, hb.1.2⟩, hb.2⟩
      have := hb.1.1.1.1
      omega
    · rintro rfl
      have := hb.1.1.1.1
      omega
  · exact ⟨h, fun e => hx (e ▸ h)⟩

/-- The neighbour search leaves no box behind: after a search of a tree whose
regions contain the boxes below them, the box predicate accepts no box of the
tree any more, so the last accepted box is the nearest one in the trapezoid. -/
theorem kd_find_neighbor_none_left (T : kdtree_t BoxType) (ni : kd_neighbor_info)
    (hc : T.regionsCover (fun b => b) = true) :
    ∀ b ∈ T.items, (__kd_find_neighbor_rect_in_reg b
      (kd_search __kd_find_neighbor_reg_in_sea __kd_find_neighbor_rect_in_reg T ni).2).1 =
        false := by
  have h := kd_search_inv (fun b => b) __kd_find_neighbor_reg_in_sea
    __kd_find_neighbor_rect_in_reg (fun _ => True)
    (fun cl S => ∀ b ∈ S, (__kd_find_neighbor_rect_in_reg b cl).1 = false)
    (by
      intro x cl S _ hI b hb
      by_contra hacc
      obtain ⟨h1, h2⟩ := rect_in_reg_after x b cl (by simpa using hacc)
      rcases List.mem_append.1 hb with hS | hx
      · rw [hI b hS] at h1
        exact Bool.false_ne_true h1
      · exact h2 (by simpa using hx))
    (by
      intro region items cl S _ hreg hr hI b hb
      rcases List.mem_append.1 hb with hS | hx
      · exact hI b hS
      · by_contra hacc
        have := reg_in_sea_of_rect_in_reg region b cl (hreg b hx) (by simpa using hacc)
        rw [hr] at this
        exact Bool.false_ne_true this)
    T ni [] hc (fun _ _ => trivial) (by simp)
  simpa using h

/-- C28: for every search direction and every state of the trapezoid, if
`__kd_find_neighbor_rect_in_reg` accepts a box then
`__kd_find_neighbor_reg_in_sea` accepts every region that contains the box. -/
theorem kd_find_neighbor_region_of_box (region box : BoxType) (ni : kd_neighbor_info)
    (hin : box_in_box region box = true)
    (hbox : (__kd_find_neighbor_rect_in_reg box ni).1 = true) :
    __kd_find_neighbor_reg_in_sea region ni = true :=
  reg_in_sea_of_rect_in_reg region box ni hin hbox

/-- C28 (witness): a search to the north from the box `(40,60)-(60,80)` on a
board of 100 by 100 accepts the box `(45,20)-(55,30)` and the region
`(0,0)-(100,40)` around it. -/
theorem kd_find_neighbor_region_of_box_witness :
    __kd_find_neighbor_reg_in_sea ⟨0, 0, 100, 40⟩
      { neighbor := none, trap := ⟨40, 0, 60, 60⟩, search_dir := 0 } = true :=
  kd_find_neighbor_region_of_box ⟨0, 0, 100, 40⟩ ⟨45, 20, 55, 30⟩
    { neighbor := none, trap := ⟨40, 0, 60, 60⟩, search_dir := 0 } (by decide) (by decide)

/-! ### The placer: the partner of an exchange -/

/-- The partner drawn for an exchange is another entry of a selection of at
least two distinct elements. -/
theorem createPerturbation_other_index (selected : List Nat) (hnd : selected.Nodup)
    (k r2 : Nat) (hk : k < selected.length) (h2 : 2 ≤ selected.length) :
    ∃ j, j < selected.length ∧ j ≠ k ∧
      createPerturbation_other selected (selected.getD k 0) r2 = selected.getD j 0 := by
  have hm : r2 % (selected.length - 1) < selected.length - 1 := Nat.mod_lt _ (by omega)
  unfold createPerturbation_other
  simp only
  split_ifs with h
  · refine ⟨selected.length - 1, by omega, ?_, rfl⟩
    rw [List.getD_eq_getElem _ _ (by omega : r2 % (selected.length - 1) < selected.length),
      List.getD_eq_getElem _ _ hk] at h
    have := (List.Nodup.getElem_inj_iff hnd).1 h
    omega
  · refine ⟨r2 % (selected.length - 1), by omega, ?_, rfl⟩
    intro e
    exact h (by rw [e])

/-- Every other entry of a selection of distinct elements is the partner of
an exchange for some draw. -/
theorem createPerturbation_other_draw (selected : List Nat) (hnd : selected.Nodup)
    (k j : Nat) (hk : k < selected.length) (hj : j < selected.length) (hkj : j ≠ k) :
    ∃ r2, createPerturbation_other selected (selected.getD k 0) r2 = selected.getD j 0 := by
  have hne : ∀ a b (ha : a < selected.length) (hb : b < selected.length), a ≠ b →
      selected.getD a 0 ≠ selected.getD b 0 := by
    intro a b ha hb hab e
    rw [List.getD_eq_getElem _ _ ha, List.getD_eq_getElem _ _ hb] at e
    exact hab ((List.Nodup.getElem_inj_iff hnd).1 e)
  by_cases hl : j < selected.length - 1
  · refine ⟨j, ?_⟩
    unfold createPerturbation_other
    simp only [Nat.mod_eq_of_lt hl]
    rw [if_neg (hne j k hj hk hkj)]
  · have hj2 : j = selected.length - 1 := by omega
    have hk2 : k < selected.length - 1 := by omega
    refine ⟨k, ?_⟩
    unfold createPerturbation_other
    simp only [Nat.mod_eq_of_lt hk2, if_true, hj2]

/-- An entry of a list is at some index. -/
theorem getD_of_mem (selected : List Nat) (e : Nat) (h : e ∈ selected) :
    ∃ k, k < selected.length ∧ selected.getD k 0 = e := by
  obtain ⟨k, hk, he⟩ := List.getElem_of_mem h
  exact ⟨k, hk, by rw [List.getD_eq_getElem _ _ hk, he]⟩

/-- An entry at an index of a list is in the list. -/
theorem getD_mem (selected : List Nat) (k : Nat) (hk : k < selected.length) :
    selected.getD k 0 ∈ selected := by
  rw [List.getD_eq_getElem _ _ hk]
  exact List.getElem_mem _

/-- C29: for a selection of pairwise distinct elements, (1) with at least two
elements the partner that `createPerturbation` draws for an exchange is an
element of the selection other than the element picked, for every pair of
draws; (2) every other element of the selection is the partner for some draw;
(3) every exchange that `createPerturbation` returns comes from a selection of
at least two elements (so none comes when there is one) and has
`other != element`, both in the selection; (4) every pair of different
elements of the selection that passes the test on pins and sides is returned
as an exchange for some draws. -/
theorem createPerturbation_EXCHANGE_other (board : PlacerBoard) (raw : ℚ → Int → Nat → Int)
    (selected : List Nat) (T : ℚ) (hnd : selected.Nodup) :
    (2 ≤ selected.length → ∀ r0 r2 : Nat,
      createPerturbation_other selected (selected.getD (r0 % selected.length) 0) r2 ≠
        selected.getD (r0 % selected.length) 0 ∧
      createPerturbation_other selected (selected.getD (r0 % selected.length) 0) r2 ∈
        selected) ∧
    (∀ e ∈ selected, ∀ o ∈ selected, o ≠ e →
      ∃ r2, createPerturbation_other selected e r2 = o) ∧
    (∀ (draws : List Nat) (pt : PerturbationType),
      createPerturbation board raw selected T draws = some pt → pt.which = .EXCHANGE →
      2 ≤ selected.length ∧ pt.other ≠ pt.element ∧ pt.element ∈ selected ∧
        pt.other ∈ selected) ∧
    (∀ e ∈ selected, ∀ o ∈ selected, o ≠ e → ¬ createPerturbation_retry board e o →
      ∃ draws, createPerturbation board raw selected T draws =
        some { element := e, which := .EXCHANGE, DX := 0, DY := 0, rotate := 0, other := o }) := by
  have hne : ∀ a b (ha : a < selected.length) (hb : b < selected.length), a ≠ b →
      selected.getD a 0 ≠ selected.getD b 0 := by
    intro a b ha hb hab e
    rw [List.getD_eq_getElem _ _ ha, List.getD_eq_getElem _ _ hb] at e
    exact hab ((List.Nodup.getElem_inj_iff hnd).1 e)
  have hpair : ∀ e ∈ selected, ∀ o ∈ selected, o ≠ e →
      ∃ k r2, k < selected.length ∧ selected.getD k 0 = e ∧
        createPerturbation_other selected e r2 = o := by
    intro e he o ho hoe
    obtain ⟨k, hk, rfl⟩ := getD_of_mem selected e he
    obtain ⟨j, hj, rfl⟩ := getD_of_mem selected o ho
    have hjk : j ≠ k := fun h => hoe (by rw [h])
    obtain ⟨r2, hr⟩ := createPerturbation_other_draw selected hnd k j hk hj hjk
    exact ⟨k, r2, hk, rfl, hr⟩
  refine ⟨?_, ?_, ?_, ?_⟩
  · intro h2 r0 r2
    have hk : r0 % selected.length < selected.length := Nat.mod_lt _ (by omega)
    obtain ⟨j, hj, hjk, hr⟩ := createPerturbation_other_index selected hnd _ r2 hk h2
    rw [hr]
    exact ⟨hne j _ hj hk hjk, getD_mem selected j hj⟩
  · intro e he o ho hoe
    obtain ⟨_, r2, _, _, hr⟩ := hpair e he o ho hoe
    exact ⟨r2, hr⟩
  · intro draws pt h hw
    obtain ⟨⟨r0, he⟩, hs⟩ := createPerturbation_shape board raw selected T draws.length draws
      (le_refl _) pt h
    rcases hs with ⟨_, _, hs, _⟩ | ⟨_, hs, _⟩ | ⟨r2, _, hlen, ho, _⟩
    · rw [hw] at hs
      exact absurd hs (by decide)
    · rw [hw] at hs
      exact absurd hs (by decide)
    · have hk : r0 % selected.length < selected.length := Nat.mod_lt _ (by omega)
      obtain ⟨j, hj, hjk, hr⟩ := createPerturbation_other_index selected hnd _ r2 hk hlen
      rw [ho, he, hr]
      exact ⟨hlen, hne j _ hj hk hjk, getD_mem selected _ hk, getD_mem selected j hj⟩
  · intro e he o ho hoe hok
    obtain ⟨k, r2, hk, hke, hr⟩ := hpair e he o ho hoe
    have hlen : selected.length > 1 := by
      rcases Nat.lt_or_ge 1 selected.length with h | h
      · exact h
      · exfalso
        obtain ⟨j, hj, hjo⟩ := getD_of_mem selected o ho
        have : j = k := by omega
        exact hoe (by rw [← hjo, ← hke, this])
    refine ⟨[k, 2, r2], ?_⟩
    rw [createPerturbation]
    simp only [Nat.mod_eq_of_lt hk, if_pos hlen, hke, hr, if_neg hok]

/-- C29 (witness): on the example board with the selection `0, 1, 2`, the
element 0 is exchanged with the element 1 for some draws. -/
theorem createPerturbation_EXCHANGE_other_witness :
    [0, 1, 2].Nodup ∧
    ∃ draws, createPerturbation placerBoard rawShift [0, 1, 2] 2000 draws =
      some { element := 0, which := .EXCHANGE, DX := 0, DY := 0, rotate := 0, other := 1 } :=
  ⟨by decide,
   (createPerturbation_EXCHANGE_other placerBoard rawShift [0, 1, 2] 2000 (by decide)).2.2.2
     0 (by decide) 1 (by decide) (by decide) (by decide)⟩

/-! ### The passes of `RouteAll` -/

/-- The loop of `RouteAll` started at a pass `i <= limit` on a state `s` with
enough iterations left runs a sequence of passes that begins with pass `i` on
`s`, goes from each pass to the next by `PassStep`, and ends with pass
`limit`; what the loop returns is what the body of that last pass returns, and
the log of the loop is the list of the records of these passes. -/
theorem RouteAll_loop_run {σ : Type}
    (passBody : Nat → Bool → Bool → σ → σ × routeall_status) (limit : Nat) :
    ∀ (fuel i : Nat) (s : σ) (ras : routeall_status), i ≤ limit → limit + 1 ≤ fuel + i →
      ∃ (tail : List (Nat × σ)) (last : σ),
        ((i, s) :: tail).getLast? = some (limit, last) ∧
        List.Chain' (PassStep passBody limit) ((i, s) :: tail) ∧
        (RouteAll_loop passBody limit fuel i s ras).1 = (passBody limit false true last).2 ∧
        (RouteAll_loop passBody limit fuel i s ras).2.1 = (passBody limit false true last).1 ∧
        (RouteAll_loop passBody limit fuel i s ras).2.2 =
          ((i, s) :: tail).map (PassRecord_of passBody limit) := by
  intro fuel
  induction fuel with
  | zero => intro i s ras hi hf; omega
  | succ fuel ih =>
    intro i s ras hi hf
    simp only [RouteAll_loop, if_pos hi]
    rcases Nat.lt_or_ge i limit with hlt | hge
    · -- a routing pass: the loop goes on
      have hi1 : ∀ r : σ × routeall_status,
          (if r.2.conflict_subnets = 0 ∧ i < limit then limit - 1 else i) + 1 =
          if r.2.conflict_subnets = 0 then limit else i + 1 := by
        intro r
        by_cases hc : r.2.conflict_subnets = 0
        · rw [if_pos ⟨hc, hlt⟩, if_pos hc]; omega
        · rw [if_neg (fun h => hc h.1), if_neg hc]
      rw [hi1]
      have hstep : (if (passBody i (decide (i < limit)) (i == limit) s).2.conflict_subnets = 0
          then limit else i + 1) ≤ limit := by
        split <;> omega
      have hfuel : limit + 1 ≤ fuel +
          (if (passBody i (decide (i < limit)) (i == limit) s).2.conflict_subnets = 0
            then limit else i + 1) := by
        split <;> omega
      obtain ⟨tail, last, hlast, hchain, h1, h2, h3⟩ :=
        ih _ (passBody i (decide (i < limit)) (i == limit) s).1
          (passBody i (decide (i < limit)) (i == limit) s).2 hstep hfuel
      refine ⟨((if (passBody i (decide (i < limit)) (i == limit) s).2.conflict_subnets = 0
          then limit else i + 1), (passBody i (decide (i < limit)) (i == limit) s).1) :: tail,
        last, ?_, ?_, h1, h2, ?_⟩
      · rw [List.getLast?_cons_cons]
        exact hlast
      · exact List.Chain'.cons ⟨hlt, rfl, rfl⟩ hchain
      · rw [h3]
        rfl
    · -- the last pass
      have hil : i = limit := by omega
      subst hil
      have hi1 : ∀ r : σ × routeall_status,
          (if r.2.conflict_subnets = 0 ∧ i < i then i - 1 else i) + 1 = i + 1 := by
        intro r
        rw [if_neg (fun h => Nat.lt_irrefl i h.2)]
      rw [hi1]
      have hrest : ∀ (r1 : σ) (r2 : routeall_status),
          RouteAll_loop passBody i fuel (i + 1) r1 r2 = (r2, r1, []) := by
        intro r1 r2
        cases fuel with
        | zero => rfl
        | succ f => simp only [RouteAll_loop, if_neg (Nat.not_succ_le_self i)]
      rw [hrest]
      have hd : decide (i < i) = false := decide_eq_false (Nat.lt_irrefl i)
      have hb : (i == i) = true := beq_self_eq_true i
      refine ⟨[], s, rfl, List.chain'_singleton _, ?_, ?_, ?_⟩
      · simp only [hd, hb]
      · simp only [hd, hb]
      · rfl

/-- C5: `RouteAll` on a state `s` runs a sequence of passes, each given by
its index and the state it starts on, such that: the first is pass `0` on
`s`; the last is pass `6`, and `RouteAll` returns the counters and the state
that the body of pass `6`, called with `with_conflicts` false and
`is_smoothing` true, returns; the indices are strictly increasing; every pass
but the last has an index `i < 6`, the next pass starts on the state its body
leaves, and its index is `6` when the body ended with `conflict_subnets == 0`
and `i + 1` otherwise; and the executed passes that the loop records are
exactly these, with the counters their bodies returned. -/
theorem RouteAll_pass_sequence {σ : Type}
    (passBody : Nat → Bool → Bool → σ → σ × routeall_status) (s : σ) :
    (∃ (run : List (Nat × σ)) (last : σ),
      run.head? = some (0, s) ∧ run.getLast? = some (6, last) ∧
      (RouteAll passBody s).1 = (passBody 6 false true last).2 ∧
      (RouteAll passBody s).2.1 = (passBody 6 false true last).1 ∧
      List.Chain' (fun a b : Nat × σ => a.1 < b.1) run ∧
      List.Chain' (fun a b : Nat × σ => a.1 < 6 ∧ b.2 = (passBody a.1 true false a.2).1 ∧
        b.1 = if (passBody a.1 true false a.2).2.conflict_subnets = 0 then 6 else a.1 + 1)
        run ∧
      (RouteAll passBody s).2.2 = run.map (PassRecord_of passBody 6)) ∧
    ((RouteAll passBody s).2.2.head?.map PassRecord.i = some 0) ∧
    ((RouteAll passBody s).2.2.getLast? =
      some { i := 6, with_conflicts := false, is_smoothing := true,
             ras := (RouteAll passBody s).1 }) ∧
    List.Chain' (fun a b : PassRecord => a.i < b.i) (RouteAll passBody s).2.2 ∧
    List.Chain' (fun a b : PassRecord =>
        a.i < 6 ∧ b.i = if a.ras.conflict_subnets = 0 then 6 else a.i + 1)
      (RouteAll passBody s).2.2 := by
  obtain ⟨⟨rest, hrest⟩, hchain, hlast⟩ :=
    RouteAll_loop_spec passBody 6 7 0 s ⟨0, 0, 0⟩ (by decide) (by decide)
  obtain ⟨tail, last, rlast, rchain, r1, r2, r3⟩ :=
    RouteAll_loop_run passBody 6 7 0 s ⟨0, 0, 0⟩ (by decide) (by decide)
  have hflags : ∀ a b : Nat × σ, PassStep passBody 6 a b →
      a.1 < 6 ∧ b.2 = (passBody a.1 true false a.2).1 ∧
        b.1 = if (passBody a.1 true false a.2).2.conflict_subnets = 0 then 6 else a.1 + 1 := by
    intro a b hab
    have h1 : decide (a.1 < 6) = true := decide_eq_true hab.1
    have h2 : (a.1 == 6) = false := by
      rw [beq_eq_false_iff_ne]
      exact Nat.ne_of_lt hab.1
    have h := hab
    unfold PassStep at h
    rw [h1, h2] at h
    exact h
  refine ⟨⟨(0, s) :: tail, last, rfl, rlast, r1, r2, ?_, ?_, r3⟩, ?_, hlast, ?_, hchain⟩
  · refine List.Chain'.imp ?_ rchain
    intro a b hab
    rw [hab.2.2]
    split
    · exact hab.1
    · exact Nat.lt_succ_self _
  · exact List.Chain'.imp hflags rchain
  · show (RouteAll_loop passBody 6 7 0 s ⟨0, 0, 0⟩).2.2.head?.map PassRecord.i = some 0
    rw [hrest]; rfl
  · refine List.Chain'.imp ?_ hchain
    intro a b hab
    rw [hab.2]
    split
    · exact hab.1
    · exact Nat.lt_succ_self _

/-- C5 (example): with a body that keeps the list of its calls and ends pass
`i` with `2 - i` conflicts, `RouteAll` calls the body for the passes 0, 1, 2
and 6 in this order, the last one without conflicts allowed and as the
smoothing pass, and returns the counters of pass 6. -/
theorem RouteAll_pass_sequence_witness :
    (RouteAll countBody []).2.1 =
      [(0, true, false), (1, true, false), (2, true, false), (6, false, true)] ∧
    (RouteAll countBody []).1 = ⟨3, 3, 0⟩ ∧
    (RouteAll countBody []).2.2.map PassRecord.i = [0, 1, 2, 6] ∧
    (RouteAll countBody []).2.2.getLast? =
      some { i := 6, with_conflicts := false, is_smoothing := true,
             ras := (RouteAll countBody []).1 } :=
  ⟨by decide, by decide, by decide, (RouteAll_pass_sequence countBody []).2.2.1⟩

/-! ### The touched flag -/

/-- The expansion of an interior edge over an underlying box `u` that is not
touched yet: the box is touched and tested for a target; for a fixed box this
is all, for a box that is not fixed the four edges of the route box are
broken and offered to the work heap and the via sites are added. -/
theorem expand_interior_eq (P : AutoRouteParametersType) (active : Nat → Bool)
    (o : expand_input) (e : edge_t) (s : routeone_state) (u : Nat)
    (hu : e.rb.underlying = some u) (ht : (s.boxes u).flags.touched = false) :
    expand_interior P active o e s =
      if (s.boxes u).flags.fixed = true then touch_target s e u
      else if P.use_vias = true then
        add_via_sites P active o.via_sites e.rb (CONFLICT_LEVEL P (s.boxes u))
          ((BreakEdges P (touch_target s e u).boxes o.break_inputs
              (ExpandAllEdges e o.all_edges_cost) [] (touch_target s e u).created).1.foldl
            add_or_destroy_edge
            { touch_target s e u with
              created := (BreakEdges P (touch_target s e u).boxes o.break_inputs
                (ExpandAllEdges e o.all_edges_cost) [] (touch_target s e u).created).2 })
      else
        (BreakEdges P (touch_target s e u).boxes o.break_inputs
            (ExpandAllEdges e o.all_edges_cost) [] (touch_target s e u).created).1.foldl
          add_or_destroy_edge
          { touch_target s e u with
            created := (BreakEdges P (touch_target s e u).boxes o.break_inputs
              (ExpandAllEdges e o.all_edges_cost) [] (touch_target s e u).created).2 } := by
  have hb : ∀ (l : List edge_t) (t : routeone_state),
      (l.foldl add_or_destroy_edge t).boxes = t.boxes :=
    fun l t => (foldl_touched _ (fun s a => add_or_destroy_edge_touched s a) l t).1
  have htt : (touch_target s e u).boxes = (touch_underlying s u).boxes := by
    unfold touch_target
    split_ifs
    · exact (best_path_candidate_touched _ _ _).1
    · rfl
  have hcl : ∀ t : routeone_state, t.boxes = (touch_underlying s u).boxes →
      CONFLICT_LEVEL P (t.boxes u) = CONFLICT_LEVEL P (s.boxes u) := by
    intro t h
    rw [h]
    simp [touch_underlying, CONFLICT_LEVEL]
  have hflag : ((touch_underlying s u).boxes u).flags.fixed = (s.boxes u).flags.fixed ∧
      ((touch_underlying s u).boxes u).flags.target = (s.boxes u).flags.target := by
    simp [touch_underlying]
  have hmain : expand_interior P active o e s =
      if ((touch_target s e u).boxes u).flags.fixed = true then touch_target s e u
      else if P.use_vias = true then
        add_via_sites P active o.via_sites e.rb
          (CONFLICT_LEVEL P
            (((BreakEdges P (touch_target s e u).boxes o.break_inputs
              (ExpandAllEdges e o.all_edges_cost) [] (touch_target s e u).created).1.foldl
            add_or_destroy_edge
            { touch_target s e u with
              created := (BreakEdges P (touch_target s e u).boxes o.break_inputs
                (ExpandAllEdges e o.all_edges_cost) [] (touch_target s e u).created).2 }).boxes u))
          ((BreakEdges P (touch_target s e u).boxes o.break_inputs
              (ExpandAllEdges e o.all_edges_cost) [] (touch_target s e u).created).1.foldl
            add_or_destroy_edge
            { touch_target s e u with
              created := (BreakEdges P (touch_target s e u).boxes o.break_inputs
                (ExpandAllEdges e o.all_edges_cost) [] (touch_target s e u).created).2 })
      else
        (BreakEdges P (touch_target s e u).boxes o.break_inputs
            (ExpandAllEdges e o.all_edges_cost) [] (touch_target s e u).created).1.foldl
          add_or_destroy_edge
          { touch_target s e u with
            created := (BreakEdges P (touch_target s e u).boxes o.break_inputs
              (ExpandAllEdges e o.all_edges_cost) [] (touch_target s e u).created).2 } := by
    unfold expand_interior
    rw [hu]
    simp only [ht, Bool.false_eq_true, if_false]
    rfl
  have hfx : ((touch_target s e u).boxes u).flags.fixed = (s.boxes u).flags.fixed := by
    rw [htt]
    exact hflag.1
  rw [hmain, hfx]
  split_ifs with h1 h2
  · rfl
  · congr 1
    exact hcl _ ((hb _ _).trans htt)
  · rfl

/-- The touch of an underlying box and the test for a target change the
touched flag of that box, the vector of touched boxes and the best path
only. -/
theorem touch_target_frame (s : routeone_state) (e : edge_t) (u : Nat) :
    (touch_target s e u).boxes = (touch_underlying s u).boxes ∧
    (touch_target s e u).touched_vec = u :: s.touched_vec ∧
    (touch_target s e u).workheap = s.workheap ∧
    (touch_target s e u).created = s.created ∧
    (touch_target s e u).area_vec = s.area_vec := by
  unfold touch_target best_path_candidate
  split_ifs <;> exact ⟨rfl, rfl, rfl, rfl, rfl⟩

/-- The macro `HALF_THICK` by cases on the sign of `x + 1`. -/
theorem HALF_THICK_eq (x : Int) :
    HALF_THICK x = if 0 ≤ x + 1 then (x + 1) / 2 else -((-(x + 1)) / 2) := by
  unfold HALF_THICK
  split_ifs with h
  · exact Int.tdiv_eq_ediv h (by decide)
  · have h2 : (x + 1).tdiv 2 = -((-(x + 1)).tdiv 2) := by
      rw [Int.neg_tdiv, neg_neg]
    rw [h2, Int.tdiv_eq_ediv (by omega) (by decide)]

/-- The macro `HALF_THICK` is monotone. -/
theorem HALF_THICK_mono (a b : Int) (h : a ≤ b) : HALF_THICK a ≤ HALF_THICK b := by
  rw [HALF_THICK_eq, HALF_THICK_eq]
  split_ifs <;> omega

/-- The fold of `CreateRouteData` is at least its start value and at least the
bloat of every style folded in. -/
theorem max_bloat_foldl (styles : List RouteStyleType) :
    ∀ m : Int, m ≤ styles.foldl (fun max_bloat style => max max_bloat (BLOAT style)) m ∧
      ∀ s ∈ styles,
        BLOAT s ≤ styles.foldl (fun max_bloat style => max max_bloat (BLOAT style)) m := by
  induction styles with
  | nil => intro m; exact ⟨le_refl m, fun s hs => absurd hs (List.not_mem_nil s)⟩
  | cons t styles ih =>
    intro m
    obtain ⟨h1, h2⟩ := ih (max m (BLOAT t))
    simp only [List.foldl_cons]
    refine ⟨le_trans (le_max_left _ _) h1, ?_⟩
    intro s hs
    rcases List.mem_cons.mp hs with hs | hs
    · rw [hs]
      exact le_trans (le_max_right _ _) h1
    · exact h2 s hs

/-- The value of `max_bloat` is at least the bloat of the default style and of
every style folded in. -/
theorem CreateRouteData_max_bloat_ge (defaultStyle : RouteStyleType)
    (styles : List RouteStyleType) (s : RouteStyleType) (hs : s ∈ defaultStyle :: styles) :
    BLOAT s ≤ CreateRouteData_max_bloat defaultStyle styles := by
  unfold CreateRouteData_max_bloat
  rcases List.mem_cons.mp hs with hs | hs
  · rw [hs]
    exact (max_bloat_foldl styles _).1
  · exact (max_bloat_foldl styles _).2 s hs

/-- A region that the region predicate of `FindBlocker` turns down holds no box
that its box predicate accepts, for a box that is bloated by no more than
`maxbloat`. -/
theorem FindBlocker_region_of_box (P : AutoRouteParametersType) (boxes : Nat → routebox_t)
    (x : pathbox) (region : BoxType) (fbi : FindBlocker_info)
    (hgood : box_in_box (bloat_box (x.rb boxes).box fbi.maxbloat)
      (bloat_routebox P (x.rb boxes)) = true)
    (hreg : box_in_box region (x.rb boxes).box = true)
    (hr : (__FindBlocker_checkbox P boxes (.inl region) fbi).1 = false) :
    (__FindBlocker_checkbox P boxes (.inr x) fbi).1 = false := by
  obtain ⟨m1, m2, m3, m4⟩ :=
    north_bloated_in_region P boxes fbi.expansion_edge fbi.maxbloat region x hgood hreg
  simp only [north_bloated] at m1 m2 m3 m4
  unfold __FindBlocker_checkbox at hr ⊢
  simp only at hr ⊢
  split_ifs at hr ⊢ with c1 c2 c3 c4 d1 d2 d3 d4
  all_goals
    first
    | rfl
    | (exfalso; omega)
    | (exfalso
       apply ‹¬ (fbi.blocker ≠ none ∧ _)›
       have hb := ‹fbi.blocker ≠ none ∧ _›
       exact ⟨hb.1, by have := hb.2; omega⟩)

/-- A region that the region predicate of `FindIntersectingObstacle` turns down
holds no box that its box predicate jumps on, for a box that is bloated by no
more than `maxbloat`. -/
theorem fio_region_of_box (P : AutoRouteParametersType) (boxes : Nat → routebox_t)
    (x : pathbox) (region : BoxType) (fio : fio_info)
    (hgood : box_in_box (bloat_box (x.rb boxes).box fio.maxbloat)
      (bloat_routebox P (x.rb boxes)) = true)
    (hreg : box_in_box region (x.rb boxes).box = true)
    (hr : fio_check P boxes (.inl region) fio = .ok false) :
    fio_check P boxes (.inr x) fio = .ok false := by
  obtain ⟨m1, m2, m3, m4⟩ :=
    north_bloated_in_region P boxes fio.edge fio.maxbloat region x hgood hreg
  simp only [north_bloated] at m1 m2 m3 m4
  unfold fio_check at hr ⊢
  simp only at hr ⊢
  split_ifs at hr ⊢
  all_goals
    first
    | rfl
    | (exfalso; omega)
    | exact absurd hr (by simp)

/-- A region that the region predicate of `FindOneInBox` turns down holds no
box that its box predicate jumps on, for a box that is bloated by no more than
`maxbloat`. -/
theorem foib_region_of_box (P : AutoRouteParametersType) (boxes : Nat → routebox_t)
    (x : pathbox) (region : BoxType) (foib : foib_info)
    (hgood : box_in_box (bloat_box (x.rb boxes).box foib.maxbloat)
      (bloat_routebox P (x.rb boxes)) = true)
    (hreg : box_in_box region (x.rb boxes).box = true)
    (hr : foib_check P boxes (.inl region) foib = .ok false) :
    foib_check P boxes (.inr x) foib = .ok false := by
  unfold foib_check at hr ⊢
  simp only at hr ⊢
  by_cases hb : box_intersect (bloat_routebox P (x.rb boxes)) foib.box = false
  · rw [if_pos hb]
  · exfalso
    by_cases hg : box_intersect (bloat_box region foib.maxbloat) foib.box = false
    · have hb2 : box_intersect (bloat_routebox P (x.rb boxes)) foib.box = true := by
        simpa using hb
      simp only [box_in_box, bloat_box, box_intersect, Bool.and_eq_true, decide_eq_true_eq]
        at hgood hreg hb2
      have hg2 : ¬ (((region.X1 - foib.maxbloat < foib.box.X2 ∧
          foib.box.X1 < region.X2 + foib.maxbloat) ∧
          region.Y1 - foib.maxbloat < foib.box.Y2) ∧
          foib.box.Y1 < region.Y2 + foib.maxbloat) := by
        intro hc
        have : box_intersect (bloat_box region foib.maxbloat) foib.box = true := by
          simp only [bloat_box, box_intersect, Bool.and_eq_true, decide_eq_true_eq]
          exact hc
        rw [hg] at this
        exact Bool.false_ne_true this
      apply hg2
      refine ⟨⟨⟨?_, ?_⟩, ?_⟩, ?_⟩ <;> omega
    · rw [if_neg hg] at hr
      exact absurd hr (by simp)

/-- C17 (counterexample): for the north edge of the source pin, one of the
edges that `RouteOne` gives to its first `BreakEdges`, with the flags that
`RouteOne` sets and `max_bloat` 30: on the first board
`FindIntersectingObstacle` returns the fixed line of the pin's own subnet,
which is on the net of the edge and carries the source flag; on the second
board it returns the line of the other net, which is not fixed. -/
theorem FindIntersectingObstacle_returns_own_net_and_unfixed :
    (blockerEdge ∈ RouteOne_source_vec
        (RouteOne_flags ownSubnetBoxes (obstacleInput [0, 1, 2] [0, 1])) (fun _ => true)
        (fun _ _ => 0) [0, 1] ∧
      ownSubnetTree.regionsCover
        (fun x => (x.rb (RouteOne_flags ownSubnetBoxes (obstacleInput [0, 1, 2] [0, 1]))).box)
          = true ∧
      FindIntersectingObstacle pass0Parameters
        (RouteOne_flags ownSubnetBoxes (obstacleInput [0, 1, 2] [0, 1])) ownSubnetTree
        blockerEdge 30 = some (.board 1) ∧
      (RouteOne_flags ownSubnetBoxes (obstacleInput [0, 1, 2] [0, 1]) 1).flags =
        { fixed := true, source := true, nobloat := true }) ∧
    (blockerEdge ∈ RouteOne_source_vec
        (RouteOne_flags otherNetBoxes (obstacleInput [0, 2] [0])) (fun _ => true)
        (fun _ _ => 0) [0] ∧
      otherNetTree.regionsCover
        (fun x => (x.rb (RouteOne_flags otherNetBoxes (obstacleInput [0, 2] [0]))).box) = true ∧
      FindIntersectingObstacle pass0Parameters
        (RouteOne_flags otherNetBoxes (obstacleInput [0, 2] [0])) otherNetTree
        blockerEdge 30 = some (.board 1) ∧
      (RouteOne_flags otherNetBoxes (obstacleInput [0, 2] [0]) 1).flags.fixed = false ∧
      (RouteOne_flags otherNetBoxes (obstacleInput [0, 2] [0]) 0).flags =
        { fixed := true, source := true, nobloat := true }) := by
  decide

/-- C17 (witness): the box returned for the edge of the source pin on the
board with the line of the other net. -/
theorem FindIntersectingObstacle_intersects_witness :
    FindIntersectingObstacle pass0Parameters
      (RouteOne_flags otherNetBoxes (obstacleInput [0, 2] [0])) otherNetTree blockerEdge 30 =
      some (.board 1) ∧
    (pathbox.board 1 ∈ otherNetTree.items ∧ pathbox.board 1 ≠ nonorphan_parent blockerEdge.rb ∧
    (north_bloated pass0Parameters (RouteOne_flags otherNetBoxes (obstacleInput [0, 2] [0]))
      blockerEdge (.board 1)).X2 >
      (north_edge (RouteOne_flags otherNetBoxes (obstacleInput [0, 2] [0])) blockerEdge).X1 ∧
    (north_bloated pass0Parameters (RouteOne_flags otherNetBoxes (obstacleInput [0, 2] [0]))
      blockerEdge (.board 1)).X1 <
      (north_edge (RouteOne_flags otherNetBoxes (obstacleInput [0, 2] [0])) blockerEdge).X2 ∧
    (north_bloated pass0Parameters (RouteOne_flags otherNetBoxes (obstacleInput [0, 2] [0]))
      blockerEdge (.board 1)).Y1 ≤
      (north_edge (RouteOne_flags otherNetBoxes (obstacleInput [0, 2] [0])) blockerEdge).Y1 ∧
    (north_edge (RouteOne_flags otherNetBoxes (obstacleInput [0, 2] [0])) blockerEdge).Y1 ≤
      (north_bloated pass0Parameters (RouteOne_flags otherNetBoxes (obstacleInput [0, 2] [0]))
        blockerEdge (.board 1)).Y2) :=
  ⟨by decide, FindIntersectingObstacle_intersects pass0Parameters
    (RouteOne_flags otherNetBoxes (obstacleInput [0, 2] [0])) otherNetTree
    blockerEdge 30 (.board 1) (by decide)⟩

/-! ### How via boxes and conflict boxes meet their parents -/

/-- A box with area that lies in the box of its parent meets it in the sense
of `edge_intersect`, and not at a corner only. -/
theorem inside_meets (c p : BoxType) (hin : box_in_box p c = true)
    (hc : c.X1 < c.X2 ∧ c.Y1 < c.Y2) :
    edge_intersect c p = true ∧
      ¬ ((p.X1 = c.X2 ∨ p.X2 = c.X1) ∧ (p.Y1 = c.Y2 ∨ p.Y2 = c.Y1)) := by
  simp only [box_in_box, edge_intersect, Bool.and_eq_true, decide_eq_true_eq] at hin ⊢
  obtain ⟨⟨⟨h1, h2⟩, h3⟩, h4⟩ := hin
  obtain ⟨c1, c2⟩ := hc
  refine ⟨⟨⟨⟨?_, ?_⟩, ?_⟩, ?_⟩, ?_⟩
  · omega
  · omega
  · omega
  · omega
  · rintro ⟨hx | hx, _⟩ <;> omega

/-- A valid cell of a via box that lies in the box of the parent of the via
box (autoroute.c 2427-2478) meets the box of that parent, and not at a corner
only. -/
theorem via_cell_meets_parent (v a p : BoxType) (i j : Nat) (hin : box_in_box p v = true)
    (hvalid : (via_cell v a i j).X1 < (via_cell v a i j).X2 ∧
      (via_cell v a i j).Y1 < (via_cell v a i j).Y2) :
    edge_intersect (via_cell v a i j) p = true ∧
      ¬ ((p.X1 = (via_cell v a i j).X2 ∨ p.X2 = (via_cell v a i j).X1) ∧
        (p.Y1 = (via_cell v a i j).Y2 ∨ p.Y2 = (via_cell v a i j).Y1)) := by
  have hcell : ∀ (lo hi a1 a2 : Int) (k : Nat),
      lo ≤ (cell_interval lo hi a1 a2 k).1 ∧ (cell_interval lo hi a1 a2 k).2 ≤ hi := by
    intro lo hi a1 a2 k
    unfold cell_interval
    split <;> simp only <;> constructor <;> omega
  refine inside_meets _ p ?_ hvalid
  simp only [box_in_box, Bool.and_eq_true, decide_eq_true_eq] at hin ⊢
  obtain ⟨⟨⟨h1, h2⟩, h3⟩, h4⟩ := hin
  rw [via_cell_eq]
  have hx := hcell v.X1 v.X2 a.X1 a.X2 i
  have hy := hcell v.Y1 v.Y2 a.Y1 a.Y2 j
  simp only
  refine ⟨⟨⟨?_, ?_⟩, ?_⟩, ?_⟩ <;> omega

/-- Two boxes that, rotated to north, overlap in X by more than touching while
the first spans the upper side of the second meet in the sense of
`edge_intersect`, and not at a corner only. -/
theorem meets_of_north (c p : BoxType) (dir : Nat) (hp : p.X1 ≤ p.X2 ∧ p.Y1 ≤ p.Y2)
    (h1 : (ROTATEBOX_TO_NORTH c dir).X2 > (ROTATEBOX_TO_NORTH p dir).X1)
    (h2 : (ROTATEBOX_TO_NORTH c dir).X1 < (ROTATEBOX_TO_NORTH p dir).X2)
    (h3 : (ROTATEBOX_TO_NORTH c dir).Y1 ≤ (ROTATEBOX_TO_NORTH p dir).Y1)
    (h4 : (ROTATEBOX_TO_NORTH p dir).Y1 ≤ (ROTATEBOX_TO_NORTH c dir).Y2) :
    edge_intersect c p = true ∧
      ¬ ((p.X1 = c.X2 ∨ p.X2 = c.X1) ∧ (p.Y1 = c.Y2 ∨ p.Y2 = c.Y1)) := by
  obtain ⟨p1, p2⟩ := hp
  simp only [edge_intersect, Bool.and_eq_true, decide_eq_true_eq]
  unfold ROTATEBOX_TO_NORTH at h1 h2 h3 h4
  split at h1 <;> simp only at h1 h2 h3 h4 <;>
    refine ⟨⟨⟨⟨?_, ?_⟩, ?_⟩, ?_⟩, ?_⟩ <;> omega

/-- The box on which `fio_check` jumps, bloated as the conflict box that
`BreakEdges` makes of it (autoroute.c 1834-1841 and 1271-1274), meets the box
of the edge, the parent given to `CreateExpansionArea`, and not at a corner
only. -/
theorem fio_check_meets (P : AutoRouteParametersType) (boxes : Nat → routebox_t)
    (x : pathbox) (fio j : fio_info)
    (hp : (fio.edge.rb.rb boxes).box.X1 ≤ (fio.edge.rb.rb boxes).box.X2 ∧
      (fio.edge.rb.rb boxes).box.Y1 ≤ (fio.edge.rb.rb boxes).box.Y2)
    (h : fio_check P boxes (.inr x) fio = .error j) :
    edge_intersect (bloat_routebox P (x.rb boxes)) (fio.edge.rb.rb boxes).box = true ∧
      ¬ (((fio.edge.rb.rb boxes).box.X1 = (bloat_routebox P (x.rb boxes)).X2 ∨
          (fio.edge.rb.rb boxes).box.X2 = (bloat_routebox P (x.rb boxes)).X1) ∧
        ((fio.edge.rb.rb boxes).box.Y1 = (bloat_routebox P (x.rb boxes)).Y2 ∨
          (fio.edge.rb.rb boxes).box.Y2 = (bloat_routebox P (x.rb boxes)).Y1)) := by
  unfold fio_check at h
  simp only at h
  split_ifs at h with c1 c2 c3 c4 c5
  exact meets_of_north _ _ fio.edge.expand_dir hp (by omega) (by omega) (by omega) (by omega)

end GedaPcb
